import Mathlib

/-!
# Verification of the `fork_async_producers` lowering pass

A shallow embedding of `src/AsyncProducers.cpp` (Halide's asynchronous
producer/consumer lowering pass) together with proofs and refutations of the
specification's claims about it.

The IR is embedded as two mutually recursive inductive types `Expr` and
`Stmt`, restricted to the node kinds the pass inspects (spec §3).  Each C++
visitor class becomes a recursive Lean function; visitors that can trip an
`internal_assert` return `Except PassErr`.  The `while`-loop that re-wraps
peeled lets in `InitializeSemaphores::visit(const LetStmt*)` does not modify
its loop variable in the source, so it is modelled with explicit fuel; an
exhausted fuel is reported as `PassErr.outOfFuel`.
-/

namespace AsyncProducers

/-- Scalar/handle types of IR expressions.  `handle` stands both for
`Handle()` and for `type_of<halide_semaphore_t *>()`, which compare equal as
Halide types (both are opaque handles). -/
inductive Ty where
  | int32
  | handle
  deriving DecidableEq, Repr, Inhabited

/-- The call kinds the pass constructs or inspects (`Call::Extern`,
`Call::Intrinsic`, and `Call::Halide` for calls to pipeline stages). -/
inductive CallType where
  | externalFn
  | intrinsicFn
  | halideFn
  deriving DecidableEq, Repr, Inhabited

/-- IR expressions (spec §3): integer immediates, variables, expression-level
lets and calls.  Only these expression kinds are inspected by the pass. -/
inductive Expr where
  | intLit (n : Int)
  | var (t : Ty) (name : String)
  | letE (name : String) (value body : Expr)
  | call (t : Ty) (name : String) (args : List Expr) (ct : CallType)
  deriving Inhabited

mutual

/-- Structural (syntactic) equality of expressions, mirroring `IREquality`'s
`equal`. -/
def Expr.beq : Expr → Expr → Bool
  | .intLit a, .intLit b => a == b
  | .var t n, .var t' n' => t == t' && n == n'
  | .letE n v b, .letE n' v' b' => n == n' && Expr.beq v v' && Expr.beq b b'
  | .call t n args ct, .call t' n' args' ct' =>
      t == t' && n == n' && Expr.beqList args args' && ct == ct'
  | _, _ => false

/-- Pointwise structural equality of argument lists. -/
def Expr.beqList : List Expr → List Expr → Bool
  | [], [] => true
  | a :: as, b :: bs => Expr.beq a b && Expr.beqList as bs
  | _, _ => false

end

instance : BEq Expr := ⟨Expr.beq⟩

mutual

theorem Expr.eq_of_beq : ∀ a b : Expr, Expr.beq a b = true → a = b
  | .intLit a, .intLit b, h => by
      simp only [Expr.beq, beq_iff_eq] at h; rw [h]
  | .var t n, .var t' n', h => by
      simp only [Expr.beq, Bool.and_eq_true, beq_iff_eq] at h
      rw [h.1, h.2]
  | .letE n v b, .letE n' v' b', h => by
      simp only [Expr.beq, Bool.and_eq_true, beq_iff_eq] at h
      rw [h.1.1, Expr.eq_of_beq _ _ h.1.2, Expr.eq_of_beq _ _ h.2]
  | .call t n args ct, .call t' n' args' ct', h => by
      simp only [Expr.beq, Bool.and_eq_true, beq_iff_eq] at h
      rw [h.1.1.1, h.1.1.2, Expr.eqList_of_beq _ _ h.1.2, h.2]
  | .intLit _, .var _ _, h => by simp [Expr.beq] at h
  | .intLit _, .letE _ _ _, h => by simp [Expr.beq] at h
  | .intLit _, .call _ _ _ _, h => by simp [Expr.beq] at h
  | .var _ _, .intLit _, h => by simp [Expr.beq] at h
  | .var _ _, .letE _ _ _, h => by simp [Expr.beq] at h
  | .var _ _, .call _ _ _ _, h => by simp [Expr.beq] at h
  | .letE _ _ _, .intLit _, h => by simp [Expr.beq] at h
  | .letE _ _ _, .var _ _, h => by simp [Expr.beq] at h
  | .letE _ _ _, .call _ _ _ _, h => by simp [Expr.beq] at h
  | .call _ _ _ _, .intLit _, h => by simp [Expr.beq] at h
  | .call _ _ _ _, .var _ _, h => by simp [Expr.beq] at h
  | .call _ _ _ _, .letE _ _ _, h => by simp [Expr.beq] at h

theorem Expr.eqList_of_beq : ∀ as bs : List Expr, Expr.beqList as bs = true → as = bs
  | [], [], _ => rfl
  | a :: as, b :: bs, h => by
      simp only [Expr.beqList, Bool.and_eq_true] at h
      rw [Expr.eq_of_beq _ _ h.1, Expr.eqList_of_beq _ _ h.2]
  | [], _ :: _, h => by simp [Expr.beqList] at h
  | _ :: _, [], h => by simp [Expr.beqList] at h

end

mutual

theorem Expr.beq_refl : ∀ a : Expr, Expr.beq a a = true
  | .intLit _ => by simp [Expr.beq]
  | .var _ _ => by simp [Expr.beq]
  | .letE n v b => by
      simp [Expr.beq, Expr.beq_refl v, Expr.beq_refl b]
  | .call t n args ct => by
      simp [Expr.beq, Expr.beqList_refl args]

theorem Expr.beqList_refl : ∀ as : List Expr, Expr.beqList as as = true
  | [] => rfl
  | a :: as => by simp [Expr.beqList, Expr.beq_refl a, Expr.beqList_refl as]

end

instance : DecidableEq Expr := fun a b =>
  decidable_of_iff (Expr.beq a b = true)
    ⟨Expr.eq_of_beq a b, fun h => h ▸ Expr.beq_refl a⟩

/-- The static type of an expression, mirroring `Expr::type()`. -/
def Expr.ty : Expr → Ty
  | .intLit _ => .int32
  | .var t _ => t
  | .letE _ _ b => b.ty
  | .call t _ _ _ => t

/-- IR statements (spec §3).  `For` carries its loop kind and device API as
opaque numeric tags; the pass never inspects them, only rebuilds them. -/
inductive Stmt where
  | letStmt (name : String) (value : Expr) (body : Stmt)
  | block (first rest : Stmt)
  | forS (name : String) (min extent : Expr) (forType devApi : Nat) (body : Stmt)
  | realize (name : String) (types : List Ty) (bounds : List (Expr × Expr))
      (condition : Expr) (body : Stmt)
  | producerConsumer (name : String) (isProducer : Bool) (body : Stmt)
  | fork (first rest : Stmt)
  | acquire (semaphore count : Expr) (body : Stmt)
  | evaluate (value : Expr)
  | provide (name : String) (values args : List Expr)
  | assertStmt (condition message : Expr)
  | prefetchS (name : String) (bounds : List (Expr × Expr))
  | ifThenElse (condition : Expr) (thenCase elseCase : Stmt)
  deriving DecidableEq, Inhabited

/-- `is_no_op`.  Modelled from the spec: `Evaluate(0)` is the canonical no-op
sentinel (spec §3 "No-op canonicalization" and §8: `No-op ≡ Evaluate(0)`);
the helper itself lives in `IROperator.cpp`, outside this repository slice. -/
def isNoOp : Stmt → Bool
  | .evaluate (.intLit 0) => true
  | _ => false

/-- Is the first character list a prefix of the second? -/
def isCharPrefix : List Char → List Char → Bool
  | [], _ => true
  | _ :: _, [] => false
  | a :: as, b :: bs => a == b && isCharPrefix as bs

/-- `starts_with` from `Util.h`: string prefix test. -/
def startsWith (pre s : String) : Bool := isCharPrefix pre.data s.data

mutual

/-- Modelled from the spec: `expr_uses_var` (`ExprUsesVar.h` is outside this
repository slice).  Spec §4.4/§4.5 use it as "does this expression reference
the variable": an occurrence of a `Variable` node with one of the given
names, or a call to a stage with one of the given names. -/
def exprRefsAny (ns : List String) : Expr → Bool
  | .intLit _ => false
  | .var _ m => ns.contains m
  | .letE _ v b => exprRefsAny ns v || exprRefsAny ns b
  | .call _ m args _ => ns.contains m || exprRefsAnyList ns args

/-- `exprRefsAny` over an argument list. -/
def exprRefsAnyList (ns : List String) : List Expr → Bool
  | [] => false
  | a :: as => exprRefsAny ns a || exprRefsAnyList ns as

end

/-- Modelled from the spec: `stmt_uses_vars` / `stmt_uses_var`.  Spec §4.3
tests "whether `first` and `rest` reference either `name` or `name.buffer`",
and §4.5/§8 require that a `LetStmt(a, 8, Q)` whose body mentions `a`
counts as referencing `a` (the mismatched-value fork binding does not hoist),
so the test is a plain occurrence check: a `Variable`, a call target, or a
`Provide` destination with one of the given names. -/
def stmtRefsAny (ns : List String) : Stmt → Bool
  | .letStmt _ v b => exprRefsAny ns v || stmtRefsAny ns b
  | .block a b => stmtRefsAny ns a || stmtRefsAny ns b
  | .forS _ mn ex _ _ b => exprRefsAny ns mn || exprRefsAny ns ex || stmtRefsAny ns b
  | .realize _ _ bds c b =>
      bds.any (fun p => exprRefsAny ns p.1 || exprRefsAny ns p.2) ||
        exprRefsAny ns c || stmtRefsAny ns b
  | .producerConsumer _ _ b => stmtRefsAny ns b
  | .fork a b => stmtRefsAny ns a || stmtRefsAny ns b
  | .acquire s c b => exprRefsAny ns s || exprRefsAny ns c || stmtRefsAny ns b
  | .evaluate e => exprRefsAny ns e
  | .provide m vals args =>
      ns.contains m || vals.any (exprRefsAny ns) || args.any (exprRefsAny ns)
  | .assertStmt c m => exprRefsAny ns c || exprRefsAny ns m
  | .prefetchS _ bds => bds.any fun p => exprRefsAny ns p.1 || exprRefsAny ns p.2
  | .ifThenElse c t e => exprRefsAny ns c || stmtRefsAny ns t || stmtRefsAny ns e

/-- Single-name `stmt_uses_var`. -/
def stmtUsesVar (s : Stmt) (n : String) : Bool := stmtRefsAny [n] s

/-- Single-name `expr_uses_var`. -/
def exprUsesVar (e : Expr) (n : String) : Bool := exprRefsAny [n] e

/-- The ways `internal_assert` can abort the pass, plus `outOfFuel`, which
reports a loop that cannot terminate (see `rewrapLets`). -/
inductive PassErr where
  | duplicateProduce
  | acquireNotVar
  | emptySemaphoreStack
  | realizeNotInEnv
  | strayMakeSemaphore
  | badArgCount
  | outOfFuel
  deriving DecidableEq, Repr, Inhabited

/-! ## TightenConsumeNodes (spec §4.3)

`TightenConsumeNodes` extends the plain `IRMutator`: the only override is
`visit(const ProducerConsumer *)`, everything else is the default recursive
rebuild (which is the identity on expressions, since there are no expression
overrides). -/

/-- `TightenConsumeNodes::make_consume`. -/
def makeConsume (name : String) (isProducer : Bool) : Stmt → Stmt
  | .letStmt n v b => .letStmt n v (makeConsume name isProducer b)
  | .block first rest =>
      -- Check which sides it's used on
      let f := stmtRefsAny [name, name ++ ".buffer"] first
      let r := stmtRefsAny [name, name ++ ".buffer"] rest
      if f && r && isProducer then
        .producerConsumer name isProducer (.block first rest)
      else if f && r then
        .block (makeConsume name isProducer first) (makeConsume name isProducer rest)
      else if f then
        .block (makeConsume name isProducer first) rest
      else if r then
        .block first (makeConsume name isProducer rest)
      else
        -- Used on neither side?!
        .block first rest
  | .producerConsumer n ip b => .producerConsumer n ip (makeConsume name isProducer b)
  | .realize n ts bds c b => .realize n ts bds c (makeConsume name isProducer b)
  | body => .producerConsumer name isProducer body

/-- `TightenConsumeNodes::visit`.  The source guards the producer-preserving
branch with `if (false && op->is_producer)`, so every marker, producer or
consumer, goes through `make_consume`. -/
def tcMutate : Stmt → Stmt
  | .producerConsumer n ip b => makeConsume n ip (tcMutate b)
  | .letStmt n v b => .letStmt n v (tcMutate b)
  | .block a b => .block (tcMutate a) (tcMutate b)
  | .forS n mn ex ft d b => .forS n mn ex ft d (tcMutate b)
  | .realize n ts bds c b => .realize n ts bds c (tcMutate b)
  | .fork a b => .fork (tcMutate a) (tcMutate b)
  | .acquire s c b => .acquire s c (tcMutate b)
  | .ifThenElse c t e => .ifThenElse c (tcMutate t) (tcMutate e)
  | s => s

/-! ## ForkAsyncProducers (spec §4.2)

`GenerateProducerBody` and `GenerateConsumerBody` extend
`NoOpCollapsingMutator`, whose overrides for `LetStmt`, `For`, `Block`,
`Fork`, `Realize` and `IfThenElse` mutate only child *statements* (the
expressions of those nodes are reused unmutated) and collapse no-op results.
The semaphore stack `sema` is a C++ vector popped from the back; it is
modelled as a list whose *head* is the vector's back. -/

/-- Mutable state shared by `ForkAsyncProducers` and the producer-body
generator: the `unique_name` counter and the `cloned_acquires` map (an
association list; the most recent binding shadows older ones, like
`map::operator[]` assignment). -/
structure PState where
  ctr : Nat
  cloned : List (String × String)
  deriving DecidableEq, Repr, Inhabited

/-- `map<string,string>::find`. -/
def lookupCloned (n : String) : List (String × String) → Option String
  | [] => none
  | (k, v) :: rest => if k = n then some v else lookupCloned n rest

/-- The producer's post-synchronization loop: `while (!sema.empty())` wraps
the body in a trailing `halide_semaphore_release(sema.back(), 1)` and pops. -/
def drainReleases (body : Stmt) : List Expr → Stmt
  | [] => body
  | v :: rest =>
      drainReleases
        (.block body
          (.evaluate (.call .int32 "halide_semaphore_release" [v, .intLit 1] .externalFn)))
        rest

/-- `GenerateProducerBody`.  Returns the rewritten statement, the remaining
semaphore stack, and the updated counter/`cloned_acquires` state.

The source also overrides `visit(const Call *)` to record semaphore names in
an `inner_semaphores` set, but that override is unreachable here: every
statement override above it either replaces the statement with a no-op
before its expressions are visited (`Evaluate`, `Provide`, `AssertStmt`,
`Prefetch`) or reuses the original expressions unmutated
(`NoOpCollapsingMutator`'s cases and the `ProducerConsumer`/`Acquire`
overrides), and the set is never read. -/
def genProducer (func : String) : Stmt → List Expr → PState →
    Except PassErr (Stmt × List Expr × PState)
  | .producerConsumer n ip b, sema, st =>
      if n = func ∧ ip then
        -- internal_assert(!sema.empty()) << "Duplicate produce node!\n";
        match sema with
        | [] => .error .duplicateProduce
        | _ => .ok (.producerConsumer n true (drainReleases b sema), [], st)
      else do
        let (b', sema', st') ← genProducer func b sema st
        if isNoOp b' || ip then .ok (b', sema', st')
        else .ok (.producerConsumer n ip b', sema', st')
  | .evaluate _, sema, st => .ok (.evaluate (.intLit 0), sema, st)
  | .provide _ _ _, sema, st => .ok (.evaluate (.intLit 0), sema, st)
  | .assertStmt _ _, sema, st => .ok (.evaluate (.intLit 0), sema, st)
  | .prefetchS _ _, sema, st => .ok (.evaluate (.intLit 0), sema, st)
  | .acquire sem cnt b, sema, st => do
      let (b', sema', st') ← genProducer func b sema st
      match sem with
      | .var _ v =>
          if isNoOp b' then .ok (b', sema', st')
          else if startsWith (func ++ ".folding_semaphore.") v then
            -- storage-folding semaphore for the func we're producing: keep it
            .ok (.acquire sem cnt b', sema', st')
          else
            -- duplicate the semaphore: it ends up on both sides of the fork
            let cloned := v ++ "_" ++ toString st'.ctr
            .ok (.acquire (.var .handle cloned) cnt b', sema',
                 ⟨st'.ctr + 1, (v, cloned) :: st'.cloned⟩)
      | _ => .error .acquireNotVar
  | .letStmt n v b, sema, st => do
      let (b', sema', st') ← genProducer func b sema st
      if isNoOp b' then .ok (b', sema', st') else .ok (.letStmt n v b', sema', st')
  | .forS n mn ex ft d b, sema, st => do
      let (b', sema', st') ← genProducer func b sema st
      if isNoOp b' then .ok (b', sema', st') else .ok (.forS n mn ex ft d b', sema', st')
  | .block a b, sema, st => do
      let (a', sema1, st1) ← genProducer func a sema st
      let (b', sema2, st2) ← genProducer func b sema1 st1
      if isNoOp a' then .ok (b', sema2, st2)
      else if isNoOp b' then .ok (a', sema2, st2)
      else .ok (.block a' b', sema2, st2)
  | .fork a b, sema, st => do
      let (a', sema1, st1) ← genProducer func a sema st
      let (b', sema2, st2) ← genProducer func b sema1 st1
      if isNoOp a' then .ok (b', sema2, st2)
      else if isNoOp b' then .ok (a', sema2, st2)
      else .ok (.fork a' b', sema2, st2)
  | .realize n ts bds c b, sema, st => do
      let (b', sema', st') ← genProducer func b sema st
      if isNoOp b' then .ok (b', sema', st')
      else .ok (.realize n ts bds c b', sema', st')
  | .ifThenElse c t e, sema, st => do
      let (t', sema1, st1) ← genProducer func t sema st
      let (e', sema2, st2) ← genProducer func e sema1 st1
      if isNoOp t' && isNoOp e' then .ok (t', sema2, st2)
      else .ok (.ifThenElse c t' e', sema2, st2)

/-- `GenerateConsumerBody`.  Statement kinds without an override and outside
`NoOpCollapsingMutator`'s cases (`Evaluate`, `Provide`, `AssertStmt`,
`Prefetch`) take `IRMutator`'s default, which is the identity here. -/
def genConsumer (func : String) : Stmt → List Expr →
    Except PassErr (Stmt × List Expr)
  | .producerConsumer n ip b, sema =>
      if n = func then
        if ip then
          -- Remove the work entirely
          .ok (.evaluate (.intLit 0), sema)
        else
          -- Synchronize on the producer's work; `sema.back()` on an empty
          -- vector is UB in C++, reported as an error here (unreachable from
          -- `ForkAsyncProducers`, which sizes the stack by counting).
          match sema with
          | [] => .error .emptySemaphoreStack
          | s :: rest => .ok (.acquire s (.intLit 1) (.producerConsumer n ip b), rest)
      else do
        let (b', sema') ← genConsumer func b sema
        .ok (.producerConsumer n ip b', sema')
  | .acquire sem cnt b, sema =>
      match sem with
      | .var _ v =>
          if startsWith (func ++ ".folding_semaphore.") v then
            -- folding semaphores go to the producer side: drop the acquire
            genConsumer func b sema
          else do
            let (b', sema') ← genConsumer func b sema
            .ok (.acquire sem cnt b', sema')
      | _ => .error .acquireNotVar
  | .letStmt n v b, sema => do
      let (b', sema') ← genConsumer func b sema
      if isNoOp b' then .ok (b', sema') else .ok (.letStmt n v b', sema')
  | .forS n mn ex ft d b, sema => do
      let (b', sema') ← genConsumer func b sema
      if isNoOp b' then .ok (b', sema') else .ok (.forS n mn ex ft d b', sema')
  | .block a b, sema => do
      let (a', sema1) ← genConsumer func a sema
      let (b', sema2) ← genConsumer func b sema1
      if isNoOp a' then .ok (b', sema2)
      else if isNoOp b' then .ok (a', sema2)
      else .ok (.block a' b', sema2)
  | .fork a b, sema => do
      let (a', sema1) ← genConsumer func a sema
      let (b', sema2) ← genConsumer func b sema1
      if isNoOp a' then .ok (b', sema2)
      else if isNoOp b' then .ok (a', sema2)
      else .ok (.fork a' b', sema2)
  | .realize n ts bds c b, sema => do
      let (b', sema') ← genConsumer func b sema
      if isNoOp b' then .ok (b', sema') else .ok (.realize n ts bds c b', sema')
  | .ifThenElse c t e, sema => do
      let (t', sema1) ← genConsumer func t sema
      let (e', sema2) ← genConsumer func e sema1
      if isNoOp t' && isNoOp e' then .ok (t', sema2)
      else .ok (.ifThenElse c t' e', sema2)
  | s, sema => .ok (s, sema)

/-- `CloneAcquire`: duplicates every `Evaluate` of a `halide_semaphore_release`
or `halide_semaphore_init` call whose first argument is `Variable(oldName)`
into a block of the original followed by the same call on `newName`. -/
def cloneAcquire (oldName newName : String) : Stmt → Stmt
  | .evaluate e =>
      match e with
      | .call t cn (.var vt v :: restArgs) ct =>
          if v = oldName ∧ (cn = "halide_semaphore_release" ∨ cn = "halide_semaphore_init") then
            .block (.evaluate (.call t cn (.var vt v :: restArgs) ct))
              (.evaluate (.call t cn (.var .handle newName :: restArgs) ct))
          else .evaluate e
      | _ => .evaluate e
  | .letStmt n v b => .letStmt n v (cloneAcquire oldName newName b)
  | .block a b => .block (cloneAcquire oldName newName a) (cloneAcquire oldName newName b)
  | .forS n mn ex ft d b => .forS n mn ex ft d (cloneAcquire oldName newName b)
  | .realize n ts bds c b => .realize n ts bds c (cloneAcquire oldName newName b)
  | .producerConsumer n ip b => .producerConsumer n ip (cloneAcquire oldName newName b)
  | .fork a b => .fork (cloneAcquire oldName newName a) (cloneAcquire oldName newName b)
  | .acquire s c b => .acquire s c (cloneAcquire oldName newName b)
  | .ifThenElse c t e =>
      .ifThenElse c (cloneAcquire oldName newName t) (cloneAcquire oldName newName e)
  | s => s

/-- `CountConsumeNodes`: counts every `ProducerConsumer(func, is_producer =
false)` node, nested ones included. -/
def countConsumes (func : String) : Stmt → Nat
  | .producerConsumer n ip b =>
      (if n = func ∧ ip = false then 1 else 0) + countConsumes func b
  | .letStmt _ _ b => countConsumes func b
  | .block a b => countConsumes func a + countConsumes func b
  | .forS _ _ _ _ _ b => countConsumes func b
  | .realize _ _ _ _ b => countConsumes func b
  | .fork a b => countConsumes func a + countConsumes func b
  | .acquire _ _ b => countConsumes func b
  | .ifThenElse _ t e => countConsumes func t + countConsumes func e
  | _ => 0

/-- The `i`-th semaphore name minted for stage `n`. -/
def semaName (n : String) (i : Nat) : String := n ++ ".semaphore_" ++ toString i

/-- `halide_make_semaphore(0)`, the placeholder initializer. -/
def makeSemaphoreCall : Expr :=
  .call .handle "halide_make_semaphore" [.intLit 0] .externalFn

/-- One step of the semaphore-binding loop at the end of
`ForkAsyncProducers::visit(const Realize *)`. -/
def wrapSemaphore (cloned : List (String × String)) (acc : Stmt) (nm : String) : Stmt :=
  let acc' :=
    match lookupCloned nm cloned with
    | some cl => .letStmt cl makeSemaphoreCall (cloneAcquire nm cl acc)
    | none => acc
  .letStmt nm makeSemaphoreCall acc'

/-- The body of `ForkAsyncProducers`, parameterized by the function `rec`
used for the recursive `mutate` calls on the generated halves (the recursion
is not structural: the halves are fresh statements). -/
def forkGo (rec : Stmt → PState → Except PassErr (Stmt × PState))
    (env : String → Option Bool) : Stmt → PState → Except PassErr (Stmt × PState)
  | .realize n ts bds cond b, st =>
      match env n with
      | none => .error .realizeNotInEnv  -- internal_assert(it != env.end())
      | some isAsync =>
          if isAsync then do
            let k := countConsumes n b
            let semaNames := (List.range k).map (semaName n)
            -- the C++ vector pushes semaphore_0 … semaphore_{k-1}; its back
            -- is the stack top, i.e. the head of our list
            let semaVars := (semaNames.map (Expr.var .handle)).reverse
            let (producer, _, st1) ← genProducer n b semaVars st
            let (consumer, _) ← genConsumer n b semaVars
            let (producer', st2) ← rec producer st1
            let (consumer', st3) ← rec consumer st2
            let body := semaNames.foldl (wrapSemaphore st3.cloned) (.fork producer' consumer')
            .ok (.realize n ts bds cond body, st3)
          else do
            let (b', st') ← forkGo rec env b st
            .ok (.realize n ts bds cond b', st')
  | .letStmt n v b, st => do
      let (b', st') ← forkGo rec env b st
      .ok (.letStmt n v b', st')
  | .block a b, st => do
      let (a', st1) ← forkGo rec env a st
      let (b', st2) ← forkGo rec env b st1
      .ok (.block a' b', st2)
  | .forS n mn ex ft d b, st => do
      let (b', st') ← forkGo rec env b st
      .ok (.forS n mn ex ft d b', st')
  | .producerConsumer n ip b, st => do
      let (b', st') ← forkGo rec env b st
      .ok (.producerConsumer n ip b', st')
  | .fork a b, st => do
      let (a', st1) ← forkGo rec env a st
      let (b', st2) ← forkGo rec env b st1
      .ok (.fork a' b', st2)
  | .acquire s c b, st => do
      let (b', st') ← forkGo rec env b st
      .ok (.acquire s c b', st')
  | .ifThenElse c t e, st => do
      let (t', st1) ← forkGo rec env t st
      let (e', st2) ← forkGo rec env e st1
      .ok (.ifThenElse c t' e', st2)
  | s, st => .ok (s, st)

/-- `ForkAsyncProducers`, with fuel for the non-structural recursion into the
generated producer/consumer halves.  The C++ recursion terminates because
each level strips one `Realize`; the fuel only needs to exceed the async
nesting depth. -/
def forkStage (env : String → Option Bool) : Nat → Stmt → PState →
    Except PassErr (Stmt × PState)
  | 0 => fun _ _ => .error .outOfFuel
  | fuel + 1 => forkGo (forkStage env fuel) env

/-! ## InitializeSemaphores (spec §4.6)

`InitializeSemaphores` extends `IRMutator` with overrides for `LetStmt` and
`Call`.  Note that the `LetStmt` override never mutates `op->value`, so
calls inside let-initializers are not checked by the `Call` assertion; the
`Call` override returns `op` without visiting its arguments. -/

/-- Modelled from the spec: `sizeof(halide_semaphore_t)` (the runtime header
is outside this repository slice; the numeric value is immaterial to every
claim). -/
def semaphoreSizeBytes : Int := 16

/-- The peeling loop of `InitializeSemaphores::visit(const LetStmt*)`:
collects enclosing expression-level lets outermost-first and returns the
innermost expression. -/
def peelLets : Expr → List (String × Expr) × Expr
  | .letE n v b => let (ls, inner) := peelLets b; ((n, v) :: ls, inner)
  | e => ([], e)

/-- The re-wrapping loop `while (lets.size()) stmt = LetStmt::make(
lets.back().first, lets.back().second, stmt);`.  The loop body does not pop
`lets`, so the loop only exits when `lets` is empty on entry; the fuel makes
the non-termination observable as `outOfFuel`. -/
def rewrapLets : Nat → List (String × Expr) → Stmt → Except PassErr Stmt
  | _, [], s => .ok s
  | 0, _ :: _, _ => .error .outOfFuel
  | fuel + 1, l :: ls, s =>
      let lb := (l :: ls).getLast (by simp)
      rewrapLets fuel (l :: ls) (.letStmt lb.1 lb.2 s)

/-- `InitializeSemaphores`' expression mutation: the only override is
`visit(const Call *)`, which asserts the call is not `halide_make_semaphore`
and returns it without visiting its arguments. -/
def initExpr : Expr → Except PassErr Expr
  | .call t n args ct =>
      if n = "halide_make_semaphore" then .error .strayMakeSemaphore
      else .ok (.call t n args ct)
  | .letE n v b => do .ok (.letE n (← initExpr v) (← initExpr b))
  | e => .ok e

/-- `initExpr` over a list of expressions. -/
def initExprList : List Expr → Except PassErr (List Expr)
  | [] => .ok []
  | e :: es => do .ok ((← initExpr e) :: (← initExprList es))

/-- `initExpr` over a list of bounds. -/
def initExprBounds : List (Expr × Expr) → Except PassErr (List (Expr × Expr))
  | [] => .ok []
  | (a, b) :: rest => do .ok ((← initExpr a, ← initExpr b) :: (← initExprBounds rest))

/-- `InitializeSemaphores`.  The fuel is only consumed by `rewrapLets`. -/
def initSem (fuel : Nat) : Stmt → Except PassErr Stmt
  | .letStmt n v b => do
      let bd ← initSem fuel b
      if v.ty = .handle then
        let (lets, inner) := peelLets v
        match inner with
        | .call _ cn args _ =>
            if cn = "halide_make_semaphore" then
              match args with
              | [initialCount] =>
                  let semaVar := Expr.var .handle n
                  let semaInit := Expr.call .int32 "halide_semaphore_init"
                    [semaVar, initialCount] .externalFn
                  let semaAllocate := Expr.call .handle "alloca"
                    [.intLit semaphoreSizeBytes] .intrinsicFn
                  rewrapLets fuel lets
                    (.letStmt n semaAllocate (.block (.evaluate semaInit) bd))
              | _ => .error .badArgCount  -- internal_assert(call->args.size() == 1)
            else .ok (.letStmt n v bd)
        | _ => .ok (.letStmt n v bd)
      else .ok (.letStmt n v bd)
  | .block a b => do .ok (.block (← initSem fuel a) (← initSem fuel b))
  | .forS n mn ex ft d b => do
      .ok (.forS n (← initExpr mn) (← initExpr ex) ft d (← initSem fuel b))
  | .realize n ts bds c b => do
      .ok (.realize n ts (← initExprBounds bds) (← initExpr c) (← initSem fuel b))
  | .producerConsumer n ip b => do .ok (.producerConsumer n ip (← initSem fuel b))
  | .fork a b => do .ok (.fork (← initSem fuel a) (← initSem fuel b))
  | .acquire s c b => do
      .ok (.acquire (← initExpr s) (← initExpr c) (← initSem fuel b))
  | .evaluate e => do .ok (.evaluate (← initExpr e))
  | .provide n vals args => do
      .ok (.provide n (← initExprList vals) (← initExprList args))
  | .assertStmt c m => do .ok (.assertStmt (← initExpr c) (← initExpr m))
  | .prefetchS n bds => do .ok (.prefetchS n (← initExprBounds bds))
  | .ifThenElse c t e => do
      .ok (.ifThenElse (← initExpr c) (← initSem fuel t) (← initSem fuel e))

/-- Number of statement nodes in a statement (expressions are irrelevant:
the pass reorders statement nodes and reuses expressions).  This is the
explicit recursion-depth bound for the two non-structural traversals below. -/
def stmtSize : Stmt → Nat
  | .letStmt _ _ b => 1 + stmtSize b
  | .block a b => 1 + stmtSize a + stmtSize b
  | .forS _ _ _ _ _ b => 1 + stmtSize b
  | .realize _ _ _ _ b => 1 + stmtSize b
  | .producerConsumer _ _ b => 1 + stmtSize b
  | .fork a b => 1 + stmtSize a + stmtSize b
  | .acquire _ _ b => 1 + stmtSize b
  | .ifThenElse _ t e => 1 + stmtSize t + stmtSize e
  | _ => 1

/-! ## ExpandAcquireNodes (spec §4.4)

The `Block`, `Realize` and `ProducerConsumer` overrides re-mutate a freshly
assembled node after hoisting an `Acquire` out of a child, so the recursion
is not structural.  Every rewrite only reorders existing statement nodes, so
the statement-node count `stmtSize` never grows and strictly drops at each
re-entry, bounding the recursion depth; `eaMutateF` makes that depth an
explicit fuel (identity when exhausted, unreachable from `eaMutate`'s
`stmtSize` budget). -/

/-- `ExpandAcquireNodes`, fuelled. -/
def eaMutateF : Nat → Stmt → Stmt
  | 0, s => s
  | fuel + 1, s =>
      match s with
      | .block first rest =>
          match eaMutateF fuel first with
          | .acquire sm c b =>
              -- may as well nest the rest stmt inside the acquire node
              .acquire sm c (eaMutateF fuel (.block b rest))
          | f' => .block f' (eaMutateF fuel rest)
      | .realize n ts bds cond body =>
          match eaMutateF fuel body with
          | .acquire sm c b =>
              -- don't do the allocation until we have the semaphore
              .acquire sm c (eaMutateF fuel (.realize n ts bds cond b))
          | b' => .realize n ts bds cond b'
      | .letStmt n v body =>
          match eaMutateF fuel body with
          | .acquire sm c b =>
              if !exprUsesVar sm n && !exprUsesVar c n then
                .acquire sm c (.letStmt n v b)
              else .letStmt n v (.acquire sm c b)
          | b' => .letStmt n v b'
      | .producerConsumer n ip body =>
          match eaMutateF fuel body with
          | .acquire sm c b =>
              .acquire sm c (eaMutateF fuel (.producerConsumer n ip b))
          | b' => .producerConsumer n ip b'
      | .forS n mn ex ft d b => .forS n mn ex ft d (eaMutateF fuel b)
      | .fork a b => .fork (eaMutateF fuel a) (eaMutateF fuel b)
      | .acquire sm c b => .acquire sm c (eaMutateF fuel b)
      | .ifThenElse c t e => .ifThenElse c (eaMutateF fuel t) (eaMutateF fuel e)
      | s' => s'

/-- `ExpandAcquireNodes`. -/
def eaMutate (s : Stmt) : Stmt := eaMutateF (stmtSize s) s

/-! ## TightenForkNodes (spec §4.5)

`make_fork` recurses on the bodies of freshly reassembled statements, so it
is also fuelled by term size (`makeForkF_size`-style reasoning: every
recursion strictly shrinks the summed size, so the zero-fuel fallback is
unreachable from `makeFork`). -/

/-- `TightenForkNodes::make_fork`, fuelled. -/
def makeForkF : Nat → Stmt → Stmt → Stmt
  | 0, first, rest => .fork first rest
  | fuel + 1, first, rest =>
      match first, rest with
      | .letStmt nf vf bf, .letStmt nr vr br =>
          if nf = nr ∧ vf = vr then
            .letStmt nf vf (makeForkF fuel bf br)
          else if !stmtUsesVar (.letStmt nr vr br) nf then
            .letStmt nf vf (makeForkF fuel bf (.letStmt nr vr br))
          else if !stmtUsesVar (.letStmt nf vf bf) nr then
            .letStmt nr vr (makeForkF fuel (.letStmt nf vf bf) br)
          else .fork first rest
      | .letStmt nf vf bf, _ =>
          if !stmtUsesVar rest nf then
            .letStmt nf vf (makeForkF fuel bf rest)
          else
            match rest with
            | .realize nr ts bds c br =>
                if !stmtUsesVar first nr then
                  .realize nr ts bds c (makeForkF fuel first br)
                else .fork first rest
            | _ => .fork first rest
      | .realize nf ts bds c bf, .letStmt nr vr br =>
          if !stmtUsesVar first nr then
            .letStmt nr vr (makeForkF fuel first br)
          else if !stmtUsesVar rest nf then
            .realize nf ts bds c (makeForkF fuel bf rest)
          else .fork first rest
      | .realize nf ts bds c bf, _ =>
          if !stmtUsesVar rest nf then
            .realize nf ts bds c (makeForkF fuel bf rest)
          else
            match rest with
            | .realize nr ts' bds' c' br =>
                if !stmtUsesVar first nr then
                  .realize nr ts' bds' c' (makeForkF fuel first br)
                else .fork first rest
            | _ => .fork first rest
      | _, .letStmt nr vr br =>
          if !stmtUsesVar first nr then
            .letStmt nr vr (makeForkF fuel first br)
          else .fork first rest
      | _, .realize nr ts bds c br =>
          if !stmtUsesVar first nr then
            .realize nr ts bds c (makeForkF fuel first br)
          else .fork first rest
      | _, _ => .fork first rest

/-- `TightenForkNodes::make_fork`. -/
def makeFork (first rest : Stmt) : Stmt :=
  makeForkF (stmtSize first + stmtSize rest) first rest

/-- `TightenForkNodes`; `inFork` is the save/restored `in_fork` member. -/
def tfMutate (inFork : Bool) : Stmt → Stmt
  | .fork a b =>
      let a' := tfMutate true a
      let b' := tfMutate true b
      if isNoOp a' then b'
      else if isNoOp b' then a'
      else makeFork a' b'
  | .realize n ts bds c b =>
      -- nuke dangling allocations in fork children
      let b' := tfMutate inFork b
      if inFork && !stmtUsesVar b' n then b' else .realize n ts bds c b'
  | .letStmt n v b =>
      let b' := tfMutate inFork b
      if inFork && !stmtUsesVar b' n then b' else .letStmt n v b'
  | .block a b => .block (tfMutate inFork a) (tfMutate inFork b)
  | .forS n mn ex ft d b => .forS n mn ex ft d (tfMutate inFork b)
  | .producerConsumer n ip b => .producerConsumer n ip (tfMutate inFork b)
  | .acquire s c b => .acquire s c (tfMutate inFork b)
  | .ifThenElse c t e => .ifThenElse c (tfMutate inFork t) (tfMutate inFork e)
  | s => s

/-! ## The full pass -/

/-- `fork_async_producers`: the five-stage pipeline.  `fuel` bounds both the
async-nesting recursion of `ForkAsyncProducers` and the (never-terminating)
re-wrap loop of `InitializeSemaphores`. -/
def fullPass (env : String → Option Bool) (fuel : Nat) (s : Stmt) :
    Except PassErr Stmt := do
  let s1 := tcMutate s
  let (s2, _) ← forkStage env fuel s1 ⟨0, []⟩
  let s3 := eaMutate s2
  let s4 := tfMutate false s3
  initSem fuel s4

/-! ## Observation predicates used by the claims -/

/-- Number of `ProducerConsumer(func, is_producer = true)` nodes. -/
def produceCount (func : String) : Stmt → Nat
  | .producerConsumer n ip b =>
      (if n = func ∧ ip = true then 1 else 0) + produceCount func b
  | .letStmt _ _ b => produceCount func b
  | .block a b => produceCount func a + produceCount func b
  | .forS _ _ _ _ _ b => produceCount func b
  | .realize _ _ _ _ b => produceCount func b
  | .fork a b => produceCount func a + produceCount func b
  | .acquire _ _ b => produceCount func b
  | .ifThenElse _ t e => produceCount func t + produceCount func e
  | _ => 0

/-- Does the statement contain any `ProducerConsumer(func, _)` marker? -/
def hasPC (func : String) : Stmt → Bool
  | .producerConsumer n _ b => n = func || hasPC func b
  | .letStmt _ _ b => hasPC func b
  | .block a b => hasPC func a || hasPC func b
  | .forS _ _ _ _ _ b => hasPC func b
  | .realize _ _ _ _ b => hasPC func b
  | .fork a b => hasPC func a || hasPC func b
  | .acquire _ _ b => hasPC func b
  | .ifThenElse _ t e => hasPC func t || hasPC func e
  | _ => false

/-- No `ProducerConsumer(func, _)` marker is nested inside another one. -/
def pcUnnested (func : String) : Stmt → Bool
  | .producerConsumer n _ b => if n = func then !hasPC func b else pcUnnested func b
  | .letStmt _ _ b => pcUnnested func b
  | .block a b => pcUnnested func a && pcUnnested func b
  | .forS _ _ _ _ _ b => pcUnnested func b
  | .realize _ _ _ _ b => pcUnnested func b
  | .fork a b => pcUnnested func a && pcUnnested func b
  | .acquire _ _ b => pcUnnested func b
  | .ifThenElse _ t e => pcUnnested func t && pcUnnested func e
  | _ => true

/-- Is the head of the argument list the variable `n`? -/
def firstArgIsVar (n : String) : List Expr → Bool
  | .var _ m :: _ => m = n
  | _ => false

mutual

/-- Number of `halide_semaphore_release` calls whose first argument is the
variable `n`, inside one expression. -/
def relCountE (n : String) : Expr → Nat
  | .letE _ v b => relCountE n v + relCountE n b
  | .call _ cn args _ =>
      (if cn = "halide_semaphore_release" ∧ firstArgIsVar n args then 1 else 0) +
        relCountEList n args
  | _ => 0

/-- `relCountE` summed over an argument list. -/
def relCountEList (n : String) : List Expr → Nat
  | [] => 0
  | a :: as => relCountE n a + relCountEList n as

end

/-- Number of `halide_semaphore_release` calls on variable `n` anywhere in a
statement (all expression positions included). -/
def relCount (n : String) : Stmt → Nat
  | .letStmt _ v b => relCountE n v + relCount n b
  | .block a b => relCount n a + relCount n b
  | .forS _ mn ex _ _ b => relCountE n mn + relCountE n ex + relCount n b
  | .realize _ _ bds c b =>
      (bds.map fun p => relCountE n p.1 + relCountE n p.2).sum +
        relCountE n c + relCount n b
  | .producerConsumer _ _ b => relCount n b
  | .fork a b => relCount n a + relCount n b
  | .acquire s c b => relCountE n s + relCountE n c + relCount n b
  | .evaluate e => relCountE n e
  | .provide _ vals args =>
      (vals.map (relCountE n)).sum + (args.map (relCountE n)).sum
  | .assertStmt c m => relCountE n c + relCountE n m
  | .prefetchS _ bds => (bds.map fun p => relCountE n p.1 + relCountE n p.2).sum
  | .ifThenElse c t e => relCountE n c + relCount n t + relCount n e

mutual

/-- Does the variable name `n` occur (as a `Variable` node) in an
expression? -/
def mentionsVarE (n : String) : Expr → Bool
  | .var _ m => m = n
  | .letE _ v b => mentionsVarE n v || mentionsVarE n b
  | .call _ _ args _ => mentionsVarEList n args
  | _ => false

/-- `mentionsVarE` over an argument list. -/
def mentionsVarEList (n : String) : List Expr → Bool
  | [] => false
  | a :: as => mentionsVarE n a || mentionsVarEList n as

end

/-- Does the variable name `n` occur (as a `Variable` node) anywhere in a
statement? -/
def mentionsVar (n : String) : Stmt → Bool
  | .letStmt _ v b => mentionsVarE n v || mentionsVar n b
  | .block a b => mentionsVar n a || mentionsVar n b
  | .forS _ mn ex _ _ b => mentionsVarE n mn || mentionsVarE n ex || mentionsVar n b
  | .realize _ _ bds c b =>
      bds.any (fun p => mentionsVarE n p.1 || mentionsVarE n p.2) ||
        mentionsVarE n c || mentionsVar n b
  | .producerConsumer _ _ b => mentionsVar n b
  | .fork a b => mentionsVar n a || mentionsVar n b
  | .acquire s c b => mentionsVarE n s || mentionsVarE n c || mentionsVar n b
  | .evaluate e => mentionsVarE n e
  | .provide _ vals args => mentionsVarEList n vals || mentionsVarEList n args
  | .assertStmt c m => mentionsVarE n c || mentionsVarE n m
  | .prefetchS _ bds => bds.any fun p => mentionsVarE n p.1 || mentionsVarE n p.2
  | .ifThenElse c t e => mentionsVarE n c || mentionsVar n t || mentionsVar n e

/-- Does the statement contain no `Acquire` node at all? -/
def noAcquire : Stmt → Bool
  | .acquire _ _ _ => false
  | .letStmt _ _ b => noAcquire b
  | .block a b => noAcquire a && noAcquire b
  | .forS _ _ _ _ _ b => noAcquire b
  | .realize _ _ _ _ b => noAcquire b
  | .producerConsumer _ _ b => noAcquire b
  | .fork a b => noAcquire a && noAcquire b
  | .ifThenElse _ t e => noAcquire t && noAcquire e
  | _ => true

/-- Does the statement contain no `Fork` node at all? -/
def noFork : Stmt → Bool
  | .fork _ _ => false
  | .letStmt _ _ b => noFork b
  | .block a b => noFork a && noFork b
  | .forS _ _ _ _ _ b => noFork b
  | .realize _ _ _ _ b => noFork b
  | .producerConsumer _ _ b => noFork b
  | .acquire _ _ b => noFork b
  | .ifThenElse _ t e => noFork t && noFork e
  | _ => true

/-- Does the statement contain no `Realize` node at all? -/
def noRealize : Stmt → Bool
  | .realize _ _ _ _ _ => false
  | .letStmt _ _ b => noRealize b
  | .block a b => noRealize a && noRealize b
  | .forS _ _ _ _ _ b => noRealize b
  | .producerConsumer _ _ b => noRealize b
  | .fork a b => noRealize a && noRealize b
  | .acquire _ _ b => noRealize b
  | .ifThenElse _ t e => noRealize t && noRealize e
  | _ => true

/-- Is every `Acquire`'s semaphore argument a `Variable` node (the
well-formedness the pass `internal_assert`s)? -/
def wfAcq : Stmt → Bool
  | .acquire (.var _ _) _ b => wfAcq b
  | .acquire _ _ _ => false
  | .letStmt _ _ b => wfAcq b
  | .block a b => wfAcq a && wfAcq b
  | .forS _ _ _ _ _ b => wfAcq b
  | .realize _ _ _ _ b => wfAcq b
  | .producerConsumer _ _ b => wfAcq b
  | .fork a b => wfAcq a && wfAcq b
  | .ifThenElse _ t e => wfAcq t && wfAcq e
  | _ => true

/-- Does every `Realize` in the statement name a stage that `env` maps to
`async = false`? -/
def allRealizeNonAsync (env : String → Option Bool) : Stmt → Bool
  | .realize n _ _ _ b => env n == some false && allRealizeNonAsync env b
  | .letStmt _ _ b => allRealizeNonAsync env b
  | .block a b => allRealizeNonAsync env a && allRealizeNonAsync env b
  | .forS _ _ _ _ _ b => allRealizeNonAsync env b
  | .producerConsumer _ _ b => allRealizeNonAsync env b
  | .fork a b => allRealizeNonAsync env a && allRealizeNonAsync env b
  | .acquire _ _ b => allRealizeNonAsync env b
  | .ifThenElse _ t e => allRealizeNonAsync env t && allRealizeNonAsync env e
  | _ => true

mutual

/-- Does a call named `n` occur anywhere in the expression? -/
def hasCallE (n : String) : Expr → Bool
  | .letE _ v b => hasCallE n v || hasCallE n b
  | .call _ cn args _ => cn = n || hasCallEList n args
  | _ => false

/-- `hasCallE` over an argument list. -/
def hasCallEList (n : String) : List Expr → Bool
  | [] => false
  | a :: as => hasCallE n a || hasCallEList n as

end

/-- Does a call named `n` occur anywhere in the statement (every expression
position included)? -/
def hasCall (n : String) : Stmt → Bool
  | .letStmt _ v b => hasCallE n v || hasCall n b
  | .block a b => hasCall n a || hasCall n b
  | .forS _ mn ex _ _ b => hasCallE n mn || hasCallE n ex || hasCall n b
  | .realize _ _ bds c b =>
      bds.any (fun p => hasCallE n p.1 || hasCallE n p.2) ||
        hasCallE n c || hasCall n b
  | .producerConsumer _ _ b => hasCall n b
  | .fork a b => hasCall n a || hasCall n b
  | .acquire s c b => hasCallE n s || hasCallE n c || hasCall n b
  | .evaluate e => hasCallE n e
  | .provide _ vals args => hasCallEList n vals || hasCallEList n args
  | .assertStmt c m => hasCallE n c || hasCallE n m
  | .prefetchS _ bds => bds.any fun p => hasCallE n p.1 || hasCallE n p.2
  | .ifThenElse c t e => hasCallE n c || hasCall n t || hasCall n e

/-- A `halide_make_semaphore` call *in a position `InitializeSemaphores`
traverses*: every expression position except `LetStmt` values (the override
never mutates `op->value`) and call arguments (the `Call` override returns
without visiting them). -/
def checkedMakeSemE : Expr → Bool
  | .call _ cn _ _ => cn = "halide_make_semaphore"
  | .letE _ v b => checkedMakeSemE v || checkedMakeSemE b
  | _ => false

/-- `checkedMakeSemE` lifted to the statement positions `InitializeSemaphores`
traverses. -/
def checkedMakeSem : Stmt → Bool
  | .letStmt _ _ b => checkedMakeSem b
  | .block a b => checkedMakeSem a || checkedMakeSem b
  | .forS _ mn ex _ _ b => checkedMakeSemE mn || checkedMakeSemE ex || checkedMakeSem b
  | .realize _ _ bds c b =>
      bds.any (fun p => checkedMakeSemE p.1 || checkedMakeSemE p.2) ||
        checkedMakeSemE c || checkedMakeSem b
  | .producerConsumer _ _ b => checkedMakeSem b
  | .fork a b => checkedMakeSem a || checkedMakeSem b
  | .acquire s c b => checkedMakeSemE s || checkedMakeSemE c || checkedMakeSem b
  | .evaluate e => checkedMakeSemE e
  | .provide _ vals args => vals.any checkedMakeSemE || args.any checkedMakeSemE
  | .assertStmt c m => checkedMakeSemE c || checkedMakeSemE m
  | .prefetchS _ bds => bds.any fun p => checkedMakeSemE p.1 || checkedMakeSemE p.2
  | .ifThenElse c t e => checkedMakeSemE c || checkedMakeSem t || checkedMakeSem e

/-- Is this expression a variable with the `func.folding_semaphore.` name
prefix? -/
def isFoldingVar (func : String) : Expr → Bool
  | .var _ v => startsWith (func ++ ".folding_semaphore.") v
  | _ => false

/-- Does the statement contain an `Acquire` on a folding semaphore of
`func`? -/
def containsFoldingAcq (func : String) : Stmt → Bool
  | .acquire s _ b => isFoldingVar func s || containsFoldingAcq func b
  | .letStmt _ _ b => containsFoldingAcq func b
  | .block a b => containsFoldingAcq func a || containsFoldingAcq func b
  | .forS _ _ _ _ _ b => containsFoldingAcq func b
  | .realize _ _ _ _ b => containsFoldingAcq func b
  | .producerConsumer _ _ b => containsFoldingAcq func b
  | .fork a b => containsFoldingAcq func a || containsFoldingAcq func b
  | .ifThenElse _ t e => containsFoldingAcq func t || containsFoldingAcq func e
  | _ => false

/-- No folding-semaphore `Acquire` of `func` occurs inside a
`ProducerConsumer(func, is_producer = false)` region (whose body the
consumer generator keeps verbatim). -/
def noFoldingUnderConsume (func : String) : Stmt → Bool
  | .producerConsumer n ip b =>
      if n = func ∧ ip = false then !containsFoldingAcq func b
      else noFoldingUnderConsume func b
  | .letStmt _ _ b => noFoldingUnderConsume func b
  | .block a b => noFoldingUnderConsume func a && noFoldingUnderConsume func b
  | .forS _ _ _ _ _ b => noFoldingUnderConsume func b
  | .realize _ _ _ _ b => noFoldingUnderConsume func b
  | .fork a b => noFoldingUnderConsume func a && noFoldingUnderConsume func b
  | .acquire _ _ b => noFoldingUnderConsume func b
  | .ifThenElse _ t e => noFoldingUnderConsume func t && noFoldingUnderConsume func e
  | _ => true

/-- Is `a` a syntactic subtree of `s` (including `s` itself)? -/
def containsSub (a : Stmt) : Stmt → Bool
  | s@(.letStmt _ _ b) => s = a || containsSub a b
  | s@(.block x y) => s = a || containsSub a x || containsSub a y
  | s@(.forS _ _ _ _ _ b) => s = a || containsSub a b
  | s@(.realize _ _ _ _ b) => s = a || containsSub a b
  | s@(.producerConsumer _ _ b) => s = a || containsSub a b
  | s@(.fork x y) => s = a || containsSub a x || containsSub a y
  | s@(.acquire _ _ b) => s = a || containsSub a b
  | s@(.ifThenElse _ t e) => s = a || containsSub a t || containsSub a e
  | s => s = a

/-- Does some `ProducerConsumer(func, is_producer = true)` node of `s` have
`a` as a subtree of its body? -/
def inProduceBody (func : String) (a : Stmt) : Stmt → Bool
  | .producerConsumer n ip b =>
      (n = func && ip && containsSub a b) || inProduceBody func a b
  | .letStmt _ _ b => inProduceBody func a b
  | .block x y => inProduceBody func a x || inProduceBody func a y
  | .forS _ _ _ _ _ b => inProduceBody func a b
  | .realize _ _ _ _ b => inProduceBody func a b
  | .fork x y => inProduceBody func a x || inProduceBody func a y
  | .acquire _ _ b => inProduceBody func a b
  | .ifThenElse _ t e => inProduceBody func a t || inProduceBody func a e
  | _ => false

/-- Number of variables named `n` in a semaphore stack. -/
def countVarNamed (n : String) : List Expr → Nat
  | [] => 0
  | .var _ m :: rest => (if m = n then 1 else 0) + countVarNamed n rest
  | _ :: rest => countVarNamed n rest

/-- The semaphore stack `ForkAsyncProducers` hands to both generators
(head = the C++ vector's back). -/
def semaStack (func : String) (k : Nat) : List Expr :=
  (((List.range k).map (semaName func)).map (Expr.var .handle)).reverse

/-- Erase every `ProducerConsumer` marker, keeping the computation. -/
def erasePC : Stmt → Stmt
  | .producerConsumer _ _ b => erasePC b
  | .letStmt n v b => .letStmt n v (erasePC b)
  | .block a b => .block (erasePC a) (erasePC b)
  | .forS n mn ex ft d b => .forS n mn ex ft d (erasePC b)
  | .realize n ts bds c b => .realize n ts bds c (erasePC b)
  | .fork a b => .fork (erasePC a) (erasePC b)
  | .acquire s c b => .acquire s c (erasePC b)
  | .ifThenElse c t e => .ifThenElse c (erasePC t) (erasePC e)
  | s => s

/-- Does the statement contain no `LetStmt`, `Realize` or `Fork` node (the
constructs `TightenForkNodes` rewrites)?  Statements in this fragment are
fixed points of `TightenForkNodes`. -/
def noLetRealizeFork : Stmt → Bool
  | .letStmt _ _ _ => false
  | .realize _ _ _ _ _ => false
  | .fork _ _ => false
  | .block a b => noLetRealizeFork a && noLetRealizeFork b
  | .forS _ _ _ _ _ b => noLetRealizeFork b
  | .producerConsumer _ _ b => noLetRealizeFork b
  | .acquire _ _ b => noLetRealizeFork b
  | .ifThenElse _ t e => noLetRealizeFork t && noLetRealizeFork e
  | _ => true

/-- Number of `Acquire` nodes whose semaphore is the variable `n`. -/
def acqCount (n : String) : Stmt → Nat
  | .acquire (.var _ m) _ b => (if m = n then 1 else 0) + acqCount n b
  | .acquire _ _ b => acqCount n b
  | .letStmt _ _ b => acqCount n b
  | .block a b => acqCount n a + acqCount n b
  | .forS _ _ _ _ _ b => acqCount n b
  | .realize _ _ _ _ b => acqCount n b
  | .producerConsumer _ _ b => acqCount n b
  | .fork a b => acqCount n a + acqCount n b
  | .ifThenElse _ t e => acqCount n t + acqCount n e
  | _ => 0

/-- Base-10 digit list (most significant first) of a natural number; the
reference for proving `Nat.repr` (hence `semaName`) injective. -/
def repDigits (n : Nat) : List Char :=
  (if n < 10 then [] else repDigits (n / 10)) ++ [Nat.digitChar (n % 10)]
decreasing_by exact Nat.div_lt_self (by omega) (by omega)

/-- Is the statement an `Acquire` node? -/
def isAcquire : Stmt → Bool
  | .acquire _ _ _ => true
  | _ => false

/-! ## Concrete inputs for the boundary scenarios and counterexamples -/

/-- `use("f")`: a read of stage `f`, as it appears in a consume region. -/
def useF : Expr := .call .int32 "f" [.intLit 0] .halideFn

/-- `Provide("f", …)`: a write to stage `f`. -/
def provF : Stmt := .provide "f" [.intLit 1] [.intLit 0]

/-- An environment in which stage `f` is `async` and nothing else exists. -/
def envAsyncF : String → Option Bool := fun n => if n = "f" then some true else none

/-- An environment in which every stage is non-`async`. -/
def envNoAsync : String → Option Bool := fun _ => some false

/-- The §8 scenario-2 body:
`Block(ProducerConsumer("f", true, Provide("f", …)),
ProducerConsumer("f", false, Evaluate(use("f"))))`. -/
def bodySingleConsume : Stmt :=
  .block (.producerConsumer "f" true provF)
    (.producerConsumer "f" false (.evaluate useF))

/-- Scenario-2 input: the async `Realize` over `bodySingleConsume`. -/
def inSingleConsume : Stmt :=
  .realize "f" [.int32] [(.intLit 0, .intLit 10)] (.intLit 1) bodySingleConsume

/-- Scenario-2 expected output (as produced by the pass; §8 scenario 2). -/
def outSingleConsume : Stmt :=
  .realize "f" [.int32] [(.intLit 0, .intLit 10)] (.intLit 1)
    (.letStmt "f.semaphore_0"
      (.call .handle "alloca" [.intLit semaphoreSizeBytes] .intrinsicFn)
      (.block
        (.evaluate (.call .int32 "halide_semaphore_init"
          [.var .handle "f.semaphore_0", .intLit 0] .externalFn))
        (.fork
          (.producerConsumer "f" true
            (.block provF
              (.evaluate (.call .int32 "halide_semaphore_release"
                [.var .handle "f.semaphore_0", .intLit 1] .externalFn))))
          (.acquire (.var .handle "f.semaphore_0") (.intLit 1)
            (.producerConsumer "f" false (.evaluate useF))))))

/-- A body with one consume region and no produce node (C1 counterexample). -/
def bodyConsumeOnly : Stmt := .producerConsumer "f" false (.evaluate useF)

/-- The async `Realize` over `bodyConsumeOnly`. -/
def inConsumeOnly : Stmt :=
  .realize "f" [.int32] [(.intLit 0, .intLit 10)] (.intLit 1) bodyConsumeOnly

/-- A producer marker over a `LetStmt` (C3 counterexample input). -/
def inProducerOverLet : Stmt :=
  .producerConsumer "f" true (.letStmt "x" (.intLit 7) provF)

/-- A semaphore-typed `LetStmt` whose initializer is a `halide_make_semaphore`
call wrapped in one expression-level `Let` (C4 failing input). -/
def inWrappedMakeSem : Stmt :=
  .letStmt "n" (.letE "y" (.intLit 5) makeSemaphoreCall) (.evaluate (.intLit 0))

/-- An `Acquire` on the folding semaphore `f.folding_semaphore.0`. -/
def foldingAcq : Stmt :=
  .acquire (.var .handle "f.folding_semaphore.0") (.intLit 1) (.evaluate useF)

/-- A body whose *produce* region contains a folding-semaphore `Acquire`
(C5 witness, §8 scenario 3). -/
def bodyFoldingInProduce : Stmt :=
  .block (.producerConsumer "f" true foldingAcq)
    (.producerConsumer "f" false (.evaluate useF))

/-- A body whose consume region contains a folding-semaphore `Acquire`
(C5 counterexample). -/
def bodyFoldingInConsume : Stmt :=
  .block (.producerConsumer "f" true provF) (.producerConsumer "f" false foldingAcq)

/-- The async `Realize` over `bodyFoldingInConsume`. -/
def inFoldingInConsume : Stmt :=
  .realize "f" [.int32] [(.intLit 0, .intLit 10)] (.intLit 1) bodyFoldingInConsume

/-- A tree with no async stages but containing an `Acquire` heading a block
(C6 counterexample). -/
def inAcquireNoAsync : Stmt :=
  .block
    (.acquire (.var .handle "s") (.intLit 1) (.provide "g" [.intLit 1] [.intLit 0]))
    (.provide "h" [.intLit 2] [.intLit 0])

/-- A fork child body that does not reference `a` (C7 counterexample). -/
def pDead : Stmt := .provide "p" [.intLit 1] [.intLit 0]

/-- The second fork child body not referencing `a` (C7 counterexample). -/
def qDead : Stmt := .provide "q" [.intLit 2] [.intLit 0]

/-- A statement body that references the variable `a` (C7 witness). -/
def pUseA : Stmt := .evaluate (.call .int32 "use" [.var .int32 "a"] .externalFn)

/-- Another statement body referencing `a` (C7 witness). -/
def qUseA : Stmt := .evaluate (.call .int32 "use2" [.var .int32 "a"] .externalFn)

/-- C8 counterexample input: the acquire's body is itself an `Acquire`,
which the pass hoists as well. -/
def inNestedAcquire : Stmt :=
  .block
    (.realize "g" [.int32] [] (.intLit 1)
      (.acquire (.var .handle "s") (.intLit 1)
        (.acquire (.var .handle "t") (.intLit 2) pDead)))
    qDead

/-- C9 counterexample input: a `halide_make_semaphore` call hidden behind an
expression-level `Let` in a `LetStmt` initializer. -/
def inHiddenMakeSem : Stmt :=
  .letStmt "x" (.letE "y" makeSemaphoreCall (.var .handle "y"))
    (.evaluate (.intLit 0))

/-- C10 input body: a produce node and zero consume nodes. -/
def bodyProduceOnly : Stmt := .producerConsumer "f" true provF

/-- The async `Realize` over `bodyProduceOnly`. -/
def inProduceOnly : Stmt :=
  .realize "f" [.int32] [(.intLit 0, .intLit 10)] (.intLit 1) bodyProduceOnly

end AsyncProducers

deriving instance DecidableEq for Except

namespace AsyncProducers

/-! ## Theorems -/

/-! ### TightenConsumeNodes only moves markers -/

/-- `make_consume` only inserts `ProducerConsumer` markers: erasing all
markers recovers the marker-erased input. -/
theorem erasePC_makeConsume (name : String) (ip : Bool) :
    ∀ b : Stmt, erasePC (makeConsume name ip b) = erasePC b := by
  intro b
  induction b with
  | letStmt n v b ih => simp [makeConsume, erasePC, ih]
  | block a b iha ihb =>
      simp only [makeConsume]
      split
      · simp [erasePC]
      · split
        · simp [erasePC, iha, ihb]
        · split
          · simp [erasePC, iha]
          · split
            · simp [erasePC, ihb]
            · simp [erasePC]
  | producerConsumer n ip' b ih => simp [makeConsume, erasePC, ih]
  | realize n ts bds c b ih => simp [makeConsume, erasePC, ih]
  | forS n mn ex ft d b ih => simp [makeConsume, erasePC]
  | fork a b iha ihb => simp [makeConsume, erasePC]
  | acquire s c b ih => simp [makeConsume, erasePC]
  | ifThenElse c t e iht ihe => simp [makeConsume, erasePC]
  | evaluate e => simp [makeConsume, erasePC]
  | provide n vals args => simp [makeConsume, erasePC]
  | assertStmt c m => simp [makeConsume, erasePC]
  | prefetchS n bds => simp [makeConsume, erasePC]

/-- `TightenConsumeNodes` only moves `ProducerConsumer` markers: the
marker-erased tree is untouched. -/
theorem erasePC_tcMutate : ∀ s : Stmt, erasePC (tcMutate s) = erasePC s := by
  intro s
  induction s with
  | producerConsumer n ip b ih => rw [tcMutate, erasePC_makeConsume]; simp [erasePC, ih]
  | letStmt n v b ih => simp [tcMutate, erasePC, ih]
  | block a b iha ihb => simp [tcMutate, erasePC, iha, ihb]
  | forS n mn ex ft d b ih => simp [tcMutate, erasePC, ih]
  | realize n ts bds c b ih => simp [tcMutate, erasePC, ih]
  | fork a b iha ihb => simp [tcMutate, erasePC, iha, ihb]
  | acquire s c b ih => simp [tcMutate, erasePC, ih]
  | ifThenElse c t e iht ihe => simp [tcMutate, erasePC, iht, ihe]
  | evaluate e => rfl
  | provide n vals args => rfl
  | assertStmt c m => rfl
  | prefetchS n bds => rfl

/-- Claim C2: on the single-consume async input
`Realize("f", …, Block(ProducerConsumer("f", true, Provide("f", …)),
ProducerConsumer("f", false, Evaluate(use("f")))))` with `env["f"].async()`,
the full pass returns the `Realize` wrapping
`LetStmt("f.semaphore_0", alloca, Block(Evaluate(semaphore_init),
Fork(make_produce("f", Block(Provide, Evaluate(release(f.semaphore_0, 1)))),
Acquire(f.semaphore_0, 1, ProducerConsumer("f", false, Evaluate(use))))))`. -/
theorem c2_single_consume_async :
    fullPass envAsyncF 2 inSingleConsume = .ok outSingleConsume := by decide

/-- Claim C4 (auxiliary): the re-wrap loop of
`InitializeSemaphores::visit(const LetStmt*)` never pops `lets`, so with a
non-empty peeled-let list it runs forever (every fuel is exhausted). -/
theorem rewrapLets_nonempty_diverges :
    ∀ (fuel : Nat) (l : String × Expr) (ls : List (String × Expr)) (s : Stmt),
      rewrapLets fuel (l :: ls) s = .error .outOfFuel := by
  intro fuel
  induction fuel with
  | zero => intro l ls s; rfl
  | succ n ih => intro l ls s; exact ih l ls _

/-- Claim C4: on a semaphore-typed `LetStmt` whose `halide_make_semaphore`
initializer is wrapped in one expression-level `Let`, `LowerSemaphores` does
not terminate: the re-wrap loop `while (lets.size()) stmt = LetStmt::make(
lets.back().first, lets.back().second, stmt);` never removes elements from
`lets`, contradicting the spec'd "re-wrap the peeled lets in reverse order".
Modelled with fuel, the loop exhausts every fuel value. -/
theorem c4_rewrap_loop_diverges :
    ∀ fuel : Nat, initSem fuel inWrappedMakeSem = .error .outOfFuel := by
  intro fuel
  have h : initSem fuel inWrappedMakeSem =
      rewrapLets fuel [("y", .intLit 5)]
        (.letStmt "n" (.call .handle "alloca" [.intLit semaphoreSizeBytes] .intrinsicFn)
          (.block
            (.evaluate (.call .int32 "halide_semaphore_init"
              [.var .handle "n", .intLit 0] .externalFn))
            (.evaluate (.intLit 0)))) := rfl
  rw [h, rewrapLets_nonempty_diverges]

/-- Claim C4 (witness): the divergence theorem applied at fuel 5. -/
theorem c4_rewrap_loop_diverges_witness :
    initSem 5 inWrappedMakeSem = .error .outOfFuel :=
  c4_rewrap_loop_diverges 5

/-- Claim C3 (amended): `TightenConsumeRegions` sends *every* marker —
producer markers included, since the preserving branch is disabled by
`if (false && op->is_producer)` — through the recursive `make_consume`
narrowing, and the narrowing only moves markers: erasing all
`ProducerConsumer` markers gives back the marker-erased input. -/
theorem c3_amended_markers_only :
    (∀ (n : String) (ip : Bool) (b : Stmt),
      tcMutate (.producerConsumer n ip b) = makeConsume n ip (tcMutate b)) ∧
    (∀ s : Stmt, erasePC (tcMutate s) = erasePC s) :=
  ⟨fun _ _ _ => rfl, erasePC_tcMutate⟩

/-- Claim C3 (counterexample): `TightenConsumeRegions` narrows a
`ProducerConsumer("f", is_producer = true, LetStmt("x", 7, Provide("f", …)))`
marker, pushing it inside the let — the producer-preserving branch is
disabled by `if (false && op->is_producer)`, so producer markers are *not*
left un-narrowed as the claim states. -/
theorem c3_producer_marker_narrowed :
    tcMutate inProducerOverLet =
      .letStmt "x" (.intLit 7) (.producerConsumer "f" true provF) ∧
    tcMutate inProducerOverLet ≠ inProducerOverLet := by decide

/-! ### TightenForkNodes lemmas -/

/-- Statement sizes are positive. -/
theorem stmtSize_pos : ∀ s : Stmt, 0 < stmtSize s := by
  intro s; cases s <;> simp [stmtSize]

/-- Statements without `LetStmt`, `Realize` or `Fork` nodes are fixed points
of `TightenForkNodes`. -/
theorem tfMutate_id_of_noLRF :
    ∀ (b : Bool) (s : Stmt), noLetRealizeFork s = true → tfMutate b s = s := by
  intro b s
  induction s generalizing b with
  | letStmt n v s ih => intro h; simp [noLetRealizeFork] at h
  | realize n ts bds c s ih => intro h; simp [noLetRealizeFork] at h
  | fork a c iha ihc => intro h; simp [noLetRealizeFork] at h
  | block a c iha ihc =>
      intro h
      simp only [noLetRealizeFork, Bool.and_eq_true] at h
      simp [tfMutate, iha _ h.1, ihc _ h.2]
  | forS n mn ex ft d s ih =>
      intro h
      simp only [noLetRealizeFork] at h
      simp [tfMutate, ih _ h]
  | producerConsumer n ip s ih =>
      intro h
      simp only [noLetRealizeFork] at h
      simp [tfMutate, ih _ h]
  | acquire sm c s ih =>
      intro h
      simp only [noLetRealizeFork] at h
      simp [tfMutate, ih _ h]
  | ifThenElse c t e iht ihe =>
      intro h
      simp only [noLetRealizeFork, Bool.and_eq_true] at h
      simp [tfMutate, iht _ h.1, ihe _ h.2]
  | evaluate e => intro _; rfl
  | provide n vals args => intro _; rfl
  | assertStmt c m => intro _; rfl
  | prefetchS n bds => intro _; rfl

/-- On statements without `LetStmt`/`Realize`/`Fork` nodes, `make_fork`
emits a plain `Fork` (no rule matches), at every fuel. -/
theorem makeForkF_nonLR :
    ∀ (fuel : Nat) (P Q : Stmt), noLetRealizeFork P = true →
      noLetRealizeFork Q = true → makeForkF fuel P Q = .fork P Q := by
  intro fuel P Q hP hQ
  cases fuel with
  | zero => rfl
  | succ m =>
      cases P <;> try (simp [noLetRealizeFork] at hP)
      all_goals (cases Q <;> try (simp [noLetRealizeFork] at hQ))
      all_goals rfl

/-- `make_fork` hoists a `LetStmt` binding shared (same name, syntactically
equal value) by the two halves, when the halves contain no further
`LetStmt`/`Realize`/`Fork` nodes. -/
theorem makeFork_letStmt_same (n : String) (v : Expr) (P Q : Stmt)
    (hP : noLetRealizeFork P = true) (hQ : noLetRealizeFork Q = true) :
    makeFork (.letStmt n v P) (.letStmt n v Q) = .letStmt n v (.fork P Q) := by
  have h1 : stmtSize (Stmt.letStmt n v P) + stmtSize (Stmt.letStmt n v Q) =
      (stmtSize P + stmtSize Q + 1) + 1 := by simp [stmtSize]; omega
  unfold makeFork
  rw [h1]
  show (if n = n ∧ v = v then
      Stmt.letStmt n v (makeForkF (stmtSize P + stmtSize Q + 1) P Q)
    else if !stmtUsesVar (.letStmt n v Q) n then
      Stmt.letStmt n v (makeForkF (stmtSize P + stmtSize Q + 1) P (.letStmt n v Q))
    else if !stmtUsesVar (.letStmt n v P) n then
      Stmt.letStmt n v (makeForkF (stmtSize P + stmtSize Q + 1) (.letStmt n v P) Q)
    else .fork (.letStmt n v P) (.letStmt n v Q)) = _
  rw [if_pos ⟨rfl, rfl⟩, makeForkF_nonLR _ _ _ hP hQ]

/-- With unequal bound values and both bodies referencing the bound name,
`make_fork` hoists nothing. -/
theorem makeFork_letStmt_mismatch (n : String) (v w : Expr) (P Q : Stmt)
    (hvw : v ≠ w) (hP : stmtUsesVar P n = true) (hQ : stmtUsesVar Q n = true) :
    makeFork (.letStmt n v P) (.letStmt n w Q) =
      .fork (.letStmt n v P) (.letStmt n w Q) := by
  have h1 : stmtSize (Stmt.letStmt n v P) + stmtSize (Stmt.letStmt n w Q) =
      (stmtSize P + stmtSize Q + 1) + 1 := by simp [stmtSize]; omega
  have hQ' : stmtUsesVar (Stmt.letStmt n w Q) n = true := by
    simp only [stmtUsesVar, stmtRefsAny] at hQ ⊢
    simp [hQ]
  have hP' : stmtUsesVar (Stmt.letStmt n v P) n = true := by
    simp only [stmtUsesVar, stmtRefsAny] at hP ⊢
    simp [hP]
  unfold makeFork
  rw [h1]
  show (if n = n ∧ v = w then
      Stmt.letStmt n v (makeForkF (stmtSize P + stmtSize Q + 1) P Q)
    else if !stmtUsesVar (.letStmt n w Q) n then
      Stmt.letStmt n v (makeForkF (stmtSize P + stmtSize Q + 1) P (.letStmt n w Q))
    else if !stmtUsesVar (.letStmt n v P) n then
      Stmt.letStmt n w (makeForkF (stmtSize P + stmtSize Q + 1) (.letStmt n v P) Q)
    else .fork (.letStmt n v P) (.letStmt n w Q)) = _
  rw [if_neg (fun hc => hvw hc.2), hQ', hP']
  rfl

/-- Claim C7 (counterexample): with fork children `LetStmt("a", 7, P)` and
`LetStmt("a", 7, Q)` whose bodies do not reference `a`,
`TightenForkNodes` first drops both bindings as dead (the `in_fork`
dead-binding elimination runs on the children before `make_fork`), so the
result is `Fork(P, Q)`, not the claimed `LetStmt("a", 7, Fork(P, Q))`. -/
theorem c7_dead_binding_not_hoisted :
    tfMutate false (.fork (.letStmt "a" (.intLit 7) pDead) (.letStmt "a" (.intLit 7) qDead)) =
      .fork pDead qDead ∧
    tfMutate false (.fork (.letStmt "a" (.intLit 7) pDead) (.letStmt "a" (.intLit 7) qDead)) ≠
      .letStmt "a" (.intLit 7) (.fork pDead qDead) := by decide

/-- Claim C7 (amended): the fork-binding hoist as claimed, restricted to
bodies that actually reference the bound name `a` (otherwise the `in_fork`
dead-binding elimination deletes the bindings first — see the
counterexample) and contain no further `LetStmt`/`Realize`/`Fork` nodes
(which `TightenForkNodes` would also rewrite): matching bindings hoist
above the fork, mismatched values do not hoist. -/
theorem c7_amended_fork_binding_hoist :
    ∀ P Q : Stmt, stmtUsesVar P "a" = true → stmtUsesVar Q "a" = true →
      noLetRealizeFork P = true → noLetRealizeFork Q = true →
      (tfMutate false (.fork (.letStmt "a" (.intLit 7) P) (.letStmt "a" (.intLit 7) Q)) =
        .letStmt "a" (.intLit 7) (.fork P Q)) ∧
      (∀ v w : Expr, v ≠ w →
        tfMutate false (.fork (.letStmt "a" v P) (.letStmt "a" w Q)) =
          .fork (.letStmt "a" v P) (.letStmt "a" w Q)) := by
  intro P Q hPa hQa hP hQ
  have hidP : tfMutate true P = P := tfMutate_id_of_noLRF true P hP
  have hidQ : tfMutate true Q = Q := tfMutate_id_of_noLRF true Q hQ
  constructor
  · simp only [tfMutate, hidP, hidQ, hPa, hQa]
    simp [isNoOp, makeFork_letStmt_same "a" (.intLit 7) P Q hP hQ]
  · intro v w hvw
    simp only [tfMutate, hidP, hidQ, hPa, hQa]
    simp [isNoOp, makeFork_letStmt_mismatch "a" v w P Q hvw hPa hQa]

/-- Claim C7 (witness): the amended hoist applied at concrete bodies that
reference `a`. -/
theorem c7_amended_fork_binding_hoist_witness :
    (tfMutate false (.fork (.letStmt "a" (.intLit 7) pUseA) (.letStmt "a" (.intLit 7) qUseA)) =
      .letStmt "a" (.intLit 7) (.fork pUseA qUseA)) ∧
    (tfMutate false (.fork (.letStmt "a" (.intLit 7) pUseA) (.letStmt "a" (.intLit 8) qUseA)) =
      .fork (.letStmt "a" (.intLit 7) pUseA) (.letStmt "a" (.intLit 8) qUseA)) :=
  ⟨(c7_amended_fork_binding_hoist pUseA qUseA (by decide) (by decide) (by decide) (by decide)).1,
   (c7_amended_fork_binding_hoist pUseA qUseA (by decide) (by decide) (by decide) (by decide)).2
     (.intLit 7) (.intLit 8) (by decide)⟩

/-- Claim C8 (counterexample): when the acquire's body is itself an
`Acquire`, `ExpandAcquireNodes` hoists that one too, so the result is not
the claimed `Acquire(s, 1, Block(Realize(g, …, body), trailing))` with
`body` kept in place. -/
theorem c8_nested_acquire_hoists_too :
    eaMutate inNestedAcquire =
      .acquire (.var .handle "s") (.intLit 1)
        (.acquire (.var .handle "t") (.intLit 2)
          (.block (.realize "g" [.int32] [] (.intLit 1) pDead) qDead)) ∧
    eaMutate inNestedAcquire ≠
      .acquire (.var .handle "s") (.intLit 1)
        (.block
          (.realize "g" [.int32] [] (.intLit 1)
            (.acquire (.var .handle "t") (.intLit 2) pDead))
          qDead) := by decide

/-- Claim C8 (amended): the acquire hoist across block and realize exactly
as claimed, provided `body` and `trailing` are fixed points of
`ExpandAcquireNodes` (at every fuel) and `body` is not itself an `Acquire`
(otherwise further hoisting rewrites the claimed output — see the
counterexample). -/
theorem c8_amended_acquire_hoist :
    ∀ (n : String) (ts : List Ty) (bds : List (Expr × Expr)) (cond sm cnt : Expr)
      (body trailing : Stmt),
      (∀ f, eaMutateF f body = body) → isAcquire body = false →
      (∀ f, eaMutateF f trailing = trailing) →
      eaMutate (.block (.realize n ts bds cond (.acquire sm cnt body)) trailing) =
        .acquire sm cnt (.block (.realize n ts bds cond body) trailing) := by
  intro n ts bds cond sm cnt body trailing hb hbn ht
  have hrz : ∀ f, eaMutateF (f + 1) (.realize n ts bds cond body) =
      .realize n ts bds cond body := by
    intro f
    have h0 : eaMutateF (f + 1) (.realize n ts bds cond body) =
        (match eaMutateF f body with
         | .acquire sm c b => .acquire sm c (eaMutateF f (.realize n ts bds cond b))
         | b' => .realize n ts bds cond b') := rfl
    rw [h0, hb f]
    cases body <;> first | rfl | simp [isAcquire] at hbn
  have hacq : ∀ f, eaMutateF (f + 1) (.acquire sm cnt body) = .acquire sm cnt body := by
    intro f
    have h0 : eaMutateF (f + 1) (.acquire sm cnt body) =
        .acquire sm cnt (eaMutateF f body) := rfl
    rw [h0, hb f]
  have hrz1 : ∀ f, eaMutateF (f + 2) (.realize n ts bds cond (.acquire sm cnt body)) =
      .acquire sm cnt (.realize n ts bds cond body) := by
    intro f
    have h0 : eaMutateF (f + 2) (.realize n ts bds cond (.acquire sm cnt body)) =
        (match eaMutateF (f + 1) (.acquire sm cnt body) with
         | .acquire sm c b => .acquire sm c (eaMutateF (f + 1) (.realize n ts bds cond b))
         | b' => .realize n ts bds cond b') := rfl
    rw [h0, hacq f]
    show Stmt.acquire sm cnt (eaMutateF (f + 1) (.realize n ts bds cond body)) = _
    rw [hrz f]
  have hblk : ∀ f, eaMutateF (f + 2) (.block (.realize n ts bds cond body) trailing) =
      .block (.realize n ts bds cond body) trailing := by
    intro f
    have h0 : eaMutateF (f + 2) (.block (.realize n ts bds cond body) trailing) =
        (match eaMutateF (f + 1) (.realize n ts bds cond body) with
         | .acquire sm c b => .acquire sm c (eaMutateF (f + 1) (.block b trailing))
         | f' => .block f' (eaMutateF (f + 1) trailing)) := rfl
    rw [h0, hrz f]
    show Stmt.block (.realize n ts bds cond body) (eaMutateF (f + 1) trailing) = _
    rw [ht]
  have hsz : stmtSize (Stmt.block (.realize n ts bds cond (.acquire sm cnt body)) trailing) =
      (stmtSize body + stmtSize trailing + 2) + 1 := by
    simp [stmtSize]; omega
  rw [eaMutate, hsz]
  have h0 : eaMutateF ((stmtSize body + stmtSize trailing + 2) + 1)
      (.block (.realize n ts bds cond (.acquire sm cnt body)) trailing) =
      (match eaMutateF (stmtSize body + stmtSize trailing + 2)
          (.realize n ts bds cond (.acquire sm cnt body)) with
       | .acquire sm c b =>
           .acquire sm c (eaMutateF (stmtSize body + stmtSize trailing + 2) (.block b trailing))
       | f' => .block f' (eaMutateF (stmtSize body + stmtSize trailing + 2) trailing)) := rfl
  rw [h0, hrz1 (stmtSize body + stmtSize trailing)]
  show Stmt.acquire sm cnt (eaMutateF (stmtSize body + stmtSize trailing + 2)
      (.block (.realize n ts bds cond body) trailing)) = _
  rw [hblk (stmtSize body + stmtSize trailing)]

/-- Claim C8 (witness): the amended hoist at concrete arguments. -/
theorem c8_amended_acquire_hoist_witness :
    eaMutate (.block (.realize "g" [.int32] [] (.intLit 1)
        (.acquire (.var .handle "s") (.intLit 1) pDead)) qDead) =
      .acquire (.var .handle "s") (.intLit 1)
        (.block (.realize "g" [.int32] [] (.intLit 1) pDead) qDead) :=
  c8_amended_acquire_hoist "g" [.int32] [] (.intLit 1) (.var .handle "s") (.intLit 1)
    pDead qDead (fun f => by cases f <;> rfl) (by decide) (fun f => by cases f <;> rfl)

/-! ### LowerSemaphores clears every position it traverses -/

/-- A successful `rewrapLets` means the peeled-let list was empty. -/
theorem rewrapLets_ok :
    ∀ (fuel : Nat) (lets : List (String × Expr)) (s t : Stmt),
      rewrapLets fuel lets s = .ok t → lets = [] ∧ t = s := by
  intro fuel lets s t h
  cases lets with
  | nil =>
      refine ⟨rfl, ?_⟩
      have : rewrapLets fuel [] s = .ok s := by cases fuel <;> rfl
      rw [this] at h
      injection h with h
      exact h.symm
  | cons l ls =>
      rw [rewrapLets_nonempty_diverges] at h
      cases h

/-- If `initExpr` succeeds, neither input nor output holds a
`halide_make_semaphore` call in a traversed expression position. -/
theorem initExpr_ok_checked :
    ∀ e e' : Expr, initExpr e = .ok e' →
      checkedMakeSemE e = false ∧ checkedMakeSemE e' = false
  | .intLit m, e', h => by
      injection h with h
      subst h
      exact ⟨rfl, rfl⟩
  | .var t m, e', h => by
      injection h with h
      subst h
      exact ⟨rfl, rfl⟩
  | .letE n v b, e', h => by
      cases hv : initExpr v with
      | error err => simp [initExpr, hv, bind, Except.bind] at h
      | ok v' =>
          cases hb : initExpr b with
          | error err => simp [initExpr, hv, hb, bind, Except.bind] at h
          | ok b' =>
              simp only [initExpr, hv, hb, bind, Except.bind] at h
              injection h with h
              subst h
              have hv2 := initExpr_ok_checked v v' hv
              have hb2 := initExpr_ok_checked b b' hb
              simp [checkedMakeSemE, hv2.1, hv2.2, hb2.1, hb2.2]
  | .call t cn args ct, e', h => by
      by_cases hcn : cn = "halide_make_semaphore"
      · simp [initExpr, hcn] at h
      · simp only [initExpr, hcn, if_false, if_neg hcn] at h
        injection h with h
        subst h
        simp [checkedMakeSemE, hcn]

/-- `initExprList` version of `initExpr_ok_checked`. -/
theorem initExprList_ok_checked :
    ∀ es es' : List Expr, initExprList es = .ok es' →
      es.any checkedMakeSemE = false ∧ es'.any checkedMakeSemE = false
  | [], es', h => by
      injection h with h
      subst h
      exact ⟨rfl, rfl⟩
  | e :: es, es', h => by
      cases he : initExpr e with
      | error err => simp [initExprList, he, bind, Except.bind] at h
      | ok e' =>
          cases hes : initExprList es with
          | error err => simp [initExprList, he, hes, bind, Except.bind] at h
          | ok es2 =>
              simp only [initExprList, he, hes, bind, Except.bind] at h
              injection h with h
              subst h
              have h1 := initExpr_ok_checked e e' he
              have h2 := initExprList_ok_checked es es2 hes
              simp [h1.1, h1.2, h2.1, h2.2]

/-- `initExprBounds` version of `initExpr_ok_checked`. -/
theorem initExprBounds_ok_checked :
    ∀ bds bds' : List (Expr × Expr), initExprBounds bds = .ok bds' →
      (bds.any fun p => checkedMakeSemE p.1 || checkedMakeSemE p.2) = false ∧
      (bds'.any fun p => checkedMakeSemE p.1 || checkedMakeSemE p.2) = false
  | [], bds', h => by
      injection h with h
      subst h
      exact ⟨rfl, rfl⟩
  | (a, b) :: ps, bds', h => by
      cases ha : initExpr a with
      | error err => simp [initExprBounds, ha, bind, Except.bind] at h
      | ok a' =>
          cases hb : initExpr b with
          | error err => simp [initExprBounds, ha, hb, bind, Except.bind] at h
          | ok b' =>
              cases hps : initExprBounds ps with
              | error err => simp [initExprBounds, ha, hb, hps, bind, Except.bind] at h
              | ok ps' =>
                  simp only [initExprBounds, ha, hb, hps, bind, Except.bind] at h
                  injection h with h
                  subst h
                  have h1 := initExpr_ok_checked a a' ha
                  have h2 := initExpr_ok_checked b b' hb
                  have h3 := initExprBounds_ok_checked ps ps' hps
                  simp [h1.1, h1.2, h2.1, h2.2, h3.1, h3.2]

/-- If `InitializeSemaphores` succeeds, its output holds no
`halide_make_semaphore` call in any traversed position (`LetStmt` values
and call arguments are not traversed). -/
theorem initSem_ok_checked :
    ∀ (s : Stmt) (fuel : Nat) (t : Stmt), initSem fuel s = .ok t →
      checkedMakeSem t = false := by
  intro s
  induction s with
  | letStmt n v b ih =>
      intro fuel t h
      cases hb : initSem fuel b with
      | error err => simp [initSem, hb, bind, Except.bind] at h
      | ok bd =>
          have hbd := ih fuel bd hb
          by_cases hty : v.ty = Ty.handle
          · rcases hpeel : peelLets v with ⟨lets, inner⟩
            cases inner with
            | call t' cn args ct =>
                by_cases hcn : cn = "halide_make_semaphore"
                · cases hargs : args with
                  | nil => simp [initSem, hb, hty, hpeel, hcn, hargs, bind, Except.bind] at h
                  | cons a rest =>
                      cases hrest : rest with
                      | cons a2 rest2 =>
                          simp [initSem, hb, hty, hpeel, hcn, hargs, hrest,
                            bind, Except.bind] at h
                      | nil =>
                          simp only [initSem, hb, hty, hpeel, hcn, hargs, hrest, if_pos,
                            bind, Except.bind] at h
                          rcases rewrapLets_ok _ _ _ _ h with ⟨_, ht⟩
                          subst ht
                          simp [checkedMakeSem, checkedMakeSemE, hbd]
                · simp only [initSem, hb, hty, hpeel, hcn, if_neg hcn, bind, Except.bind] at h
                  injection h with h
                  subst h
                  simp [checkedMakeSem, hbd]
            | intLit m =>
                simp only [initSem, hb, hty, hpeel, bind, Except.bind] at h
                injection h with h
                subst h
                simp [checkedMakeSem, hbd]
            | var t' m =>
                simp only [initSem, hb, hty, hpeel, bind, Except.bind] at h
                injection h with h
                subst h
                simp [checkedMakeSem, hbd]
            | letE n' v' b' =>
                simp only [initSem, hb, hty, hpeel, bind, Except.bind] at h
                injection h with h
                subst h
                simp [checkedMakeSem, hbd]
          · simp only [initSem, hb, hty, if_neg hty, bind, Except.bind] at h
            injection h with h
            subst h
            simp [checkedMakeSem, hbd]
  | block a b iha ihb =>
      intro fuel t h
      cases ha : initSem fuel a with
      | error err => simp [initSem, ha, bind, Except.bind] at h
      | ok a' =>
          cases hb : initSem fuel b with
          | error err => simp [initSem, ha, hb, bind, Except.bind] at h
          | ok b' =>
              simp only [initSem, ha, hb, bind, Except.bind] at h
              injection h with h
              subst h
              simp [checkedMakeSem, iha fuel a' ha, ihb fuel b' hb]
  | forS n mn ex ft d b ih =>
      intro fuel t h
      cases hmn : initExpr mn with
      | error err => simp [initSem, hmn, bind, Except.bind] at h
      | ok mn' =>
          cases hex : initExpr ex with
          | error err => simp [initSem, hmn, hex, bind, Except.bind] at h
          | ok ex' =>
              cases hb : initSem fuel b with
              | error err => simp [initSem, hmn, hex, hb, bind, Except.bind] at h
              | ok b' =>
                  simp only [initSem, hmn, hex, hb, bind, Except.bind] at h
                  injection h with h
                  subst h
                  simp [checkedMakeSem, (initExpr_ok_checked mn mn' hmn).2,
                    (initExpr_ok_checked ex ex' hex).2, ih fuel b' hb]
  | realize n ts bds c b ih =>
      intro fuel t h
      cases hbds : initExprBounds bds with
      | error err => simp [initSem, hbds, bind, Except.bind] at h
      | ok bds' =>
          cases hc : initExpr c with
          | error err => simp [initSem, hbds, hc, bind, Except.bind] at h
          | ok c' =>
              cases hb : initSem fuel b with
              | error err => simp [initSem, hbds, hc, hb, bind, Except.bind] at h
              | ok b' =>
                  simp only [initSem, hbds, hc, hb, bind, Except.bind] at h
                  injection h with h
                  subst h
                  simp [checkedMakeSem, (initExprBounds_ok_checked bds bds' hbds).2,
                    (initExpr_ok_checked c c' hc).2, ih fuel b' hb]
  | producerConsumer n ip b ih =>
      intro fuel t h
      cases hb : initSem fuel b with
      | error err => simp [initSem, hb, bind, Except.bind] at h
      | ok b' =>
          simp only [initSem, hb, bind, Except.bind] at h
          injection h with h
          subst h
          simp [checkedMakeSem, ih fuel b' hb]
  | fork a b iha ihb =>
      intro fuel t h
      cases ha : initSem fuel a with
      | error err => simp [initSem, ha, bind, Except.bind] at h
      | ok a' =>
          cases hb : initSem fuel b with
          | error err => simp [initSem, ha, hb, bind, Except.bind] at h
          | ok b' =>
              simp only [initSem, ha, hb, bind, Except.bind] at h
              injection h with h
              subst h
              simp [checkedMakeSem, iha fuel a' ha, ihb fuel b' hb]
  | acquire sm c b ih =>
      intro fuel t h
      cases hsm : initExpr sm with
      | error err => simp [initSem, hsm, bind, Except.bind] at h
      | ok sm' =>
          cases hc : initExpr c with
          | error err => simp [initSem, hsm, hc, bind, Except.bind] at h
          | ok c' =>
              cases hb : initSem fuel b with
              | error err => simp [initSem, hsm, hc, hb, bind, Except.bind] at h
              | ok b' =>
                  simp only [initSem, hsm, hc, hb, bind, Except.bind] at h
                  injection h with h
                  subst h
                  simp [checkedMakeSem, (initExpr_ok_checked sm sm' hsm).2,
                    (initExpr_ok_checked c c' hc).2, ih fuel b' hb]
  | evaluate e =>
      intro fuel t h
      cases he : initExpr e with
      | error err => simp [initSem, he, bind, Except.bind] at h
      | ok e' =>
          simp only [initSem, he, bind, Except.bind] at h
          injection h with h
          subst h
          simp [checkedMakeSem, (initExpr_ok_checked e e' he).2]
  | provide n vals args =>
      intro fuel t h
      cases hv : initExprList vals with
      | error err => simp [initSem, hv, bind, Except.bind] at h
      | ok vals' =>
          cases hargs2 : initExprList args with
          | error err => simp [initSem, hv, hargs2, bind, Except.bind] at h
          | ok args' =>
              simp only [initSem, hv, hargs2, bind, Except.bind] at h
              injection h with h
              subst h
              simp [checkedMakeSem, (initExprList_ok_checked vals vals' hv).2,
                (initExprList_ok_checked args args' hargs2).2]
  | assertStmt c m =>
      intro fuel t h
      cases hc : initExpr c with
      | error err => simp [initSem, hc, bind, Except.bind] at h
      | ok c' =>
          cases hm : initExpr m with
          | error err => simp [initSem, hc, hm, bind, Except.bind] at h
          | ok m' =>
              simp only [initSem, hc, hm, bind, Except.bind] at h
              injection h with h
              subst h
              simp [checkedMakeSem, (initExpr_ok_checked c c' hc).2,
                (initExpr_ok_checked m m' hm).2]
  | prefetchS n bds =>
      intro fuel t h
      cases hbds : initExprBounds bds with
      | error err => simp [initSem, hbds, bind, Except.bind] at h
      | ok bds' =>
          simp only [initSem, hbds, bind, Except.bind] at h
          injection h with h
          subst h
          simp [checkedMakeSem, (initExprBounds_ok_checked bds bds' hbds).2]
  | ifThenElse c t e iht ihe =>
      intro fuel t' h
      cases hc : initExpr c with
      | error err => simp [initSem, hc, bind, Except.bind] at h
      | ok c' =>
          cases ht2 : initSem fuel t with
          | error err => simp [initSem, hc, ht2, bind, Except.bind] at h
          | ok t2 =>
              cases he : initSem fuel e with
              | error err => simp [initSem, hc, ht2, he, bind, Except.bind] at h
              | ok e' =>
                  simp only [initSem, hc, ht2, he, bind, Except.bind] at h
                  injection h with h
                  subst h
                  simp [checkedMakeSem, (initExpr_ok_checked c c' hc).2,
                    iht fuel t2 ht2, ihe fuel e' he]

/-- Claim C9 (amended): when the full pipeline succeeds, its output holds no
`halide_make_semaphore` call in any position `InitializeSemaphores`
traverses; only `LetStmt` values and call arguments — which the stage never
visits — can keep one (see the counterexample). -/
theorem c9_amended_traversed_positions_clean :
    ∀ (env : String → Option Bool) (fuel : Nat) (s t : Stmt),
      fullPass env fuel s = .ok t → checkedMakeSem t = false := by
  intro env fuel s t h
  simp only [fullPass, bind, Except.bind] at h
  cases hf : forkStage env fuel (tcMutate s) ⟨0, []⟩ with
  | error err => rw [hf] at h; cases h
  | ok s2 =>
      rw [hf] at h
      exact initSem_ok_checked _ fuel t h

/-- Claim C9 (witness): the amended theorem applied to the successful
scenario-2 run. -/
theorem c9_amended_traversed_positions_clean_witness :
    checkedMakeSem outSingleConsume = false :=
  c9_amended_traversed_positions_clean envAsyncF 2 inSingleConsume outSingleConsume (by decide)

/-- Claim C9 (counterexample): a `halide_make_semaphore` call hidden behind
an expression-level `Let` inside a `LetStmt` initializer survives the whole
pipeline with no error: `InitializeSemaphores` never mutates `LetStmt`
values, so its `Call` assertion cannot see the call. -/
theorem c9_hidden_make_semaphore_survives :
    fullPass envNoAsync 3 inHiddenMakeSem = .ok inHiddenMakeSem ∧
    hasCall "halide_make_semaphore" inHiddenMakeSem = true := by decide

/-! ### Injectivity of the minted semaphore names -/

/-- One-step unfolding of `repDigits`. -/
theorem repDigits_unfold (n : Nat) :
    repDigits n = (if n < 10 then [] else repDigits (n / 10)) ++ [Nat.digitChar (n % 10)] := by
  conv_lhs => rw [repDigits]

/-- `repDigits` always produces at least one digit. -/
theorem repDigits_ne_nil (n : Nat) : repDigits n ≠ [] := by
  rw [repDigits_unfold]
  simp

/-- `Nat.toDigitsCore` at base 10, with enough fuel, prepends exactly
`repDigits`. -/
theorem toDigitsCore_eq_repDigits :
    ∀ (fuel n : Nat) (ds : List Char), n < 10 ^ (fuel + 1) →
      Nat.toDigitsCore 10 (fuel + 1) n ds = repDigits n ++ ds := by
  intro fuel
  induction fuel with
  | zero =>
      intro n ds hn
      have h10 : n < 10 := by simpa using hn
      have hdiv : n / 10 = 0 := Nat.div_eq_of_lt h10
      simp only [Nat.toDigitsCore, hdiv, if_pos]
      conv_rhs => rw [repDigits_unfold]
      simp [h10]
  | succ m ih =>
      intro n ds hn
      by_cases hdiv : n / 10 = 0
      · have h10 : n < 10 := by
          rcases Nat.lt_or_ge n 10 with h | h
          · exact h
          · exact absurd hdiv (by
              have : 1 ≤ n / 10 := Nat.le_div_iff_mul_le (by omega) |>.2 (by omega)
              omega)
        simp only [Nat.toDigitsCore, hdiv, if_pos]
        conv_rhs => rw [repDigits_unfold]
        simp [h10]
      · have h10 : ¬ n < 10 := by
          intro hlt
          exact hdiv (Nat.div_eq_of_lt hlt)
        have hstep : Nat.toDigitsCore 10 (m + 1 + 1) n ds =
            Nat.toDigitsCore 10 (m + 1) (n / 10) (Nat.digitChar (n % 10) :: ds) := by
          simp [Nat.toDigitsCore, hdiv]
        have hlt : n / 10 < 10 ^ (m + 1) := by
          have : n < 10 ^ (m + 1) * 10 := by
            rw [← pow_succ]
            exact hn
          exact Nat.div_lt_of_lt_mul (by omega)
        rw [hstep, ih (n / 10) (Nat.digitChar (n % 10) :: ds) hlt]
        conv_rhs => rw [repDigits_unfold]
        simp [h10]

/-- Digit characters are distinct for distinct digits. -/
theorem digitChar_inj :
    ∀ a b : Nat, a < 10 → b < 10 → Nat.digitChar a = Nat.digitChar b → a = b := by
  intro a b ha hb h
  interval_cases a <;> interval_cases b <;> first | rfl | (simp [Nat.digitChar] at h)

/-- `repDigits` is injective. -/
theorem repDigits_inj :
    ∀ m n : Nat, repDigits m = repDigits n → m = n := by
  intro m
  induction m using Nat.strong_induction_on with
  | _ m ih =>
      intro n h
      rw [repDigits_unfold m, repDigits_unfold n] at h
      rcases List.append_inj' h (by rfl) with ⟨hpre, hdig⟩
      have hmod : m % 10 = n % 10 := by
        have h1 : Nat.digitChar (m % 10) = Nat.digitChar (n % 10) := by
          injection hdig with hd _
        exact digitChar_inj _ _ (Nat.mod_lt m (by omega)) (Nat.mod_lt n (by omega)) h1
      by_cases hm : m < 10
      · by_cases hn : n < 10
        · omega
        · rw [if_pos hm, if_neg hn] at hpre
          exact absurd hpre.symm (repDigits_ne_nil (n / 10))
      · by_cases hn : n < 10
        · rw [if_neg hm, if_pos hn] at hpre
          exact absurd hpre (repDigits_ne_nil (m / 10))
        · rw [if_neg hm, if_neg hn] at hpre
          have hdivlt : m / 10 < m := Nat.div_lt_self (by omega) (by omega)
          have hdiv := ih (m / 10) hdivlt (n / 10) hpre
          omega

/-- `Nat.repr` (and hence `toString` on naturals) is injective. -/
theorem natRepr_inj : ∀ m n : Nat, Nat.repr m = Nat.repr n → m = n := by
  intro m n h
  have hrep : ∀ k : Nat, Nat.repr k = (repDigits k).asString := by
    intro k
    have hk : k < 10 ^ (k + 1) := by
      calc k < 10 ^ k := Nat.lt_pow_self (by omega) k
      _ ≤ 10 ^ (k + 1) := Nat.pow_le_pow_right (by omega) (by omega)
    show (Nat.toDigits 10 k).asString = _
    rw [Nat.toDigits, toDigitsCore_eq_repDigits k k [] hk, List.append_nil]
  rw [hrep, hrep] at h
  have hdata : repDigits m = repDigits n := congrArg String.data h
  exact repDigits_inj m n hdata

/-- The minted semaphore names `f.semaphore_i` are injective in `i`. -/
theorem semaName_inj (f : String) :
    ∀ i j : Nat, semaName f i = semaName f j → i = j := by
  intro i j h
  have hdata := congrArg String.data h
  rw [semaName, semaName, String.data_append, String.data_append] at hdata
  have : (toString i).data = (toString j).data := List.append_cancel_left hdata
  exact natRepr_inj i j (String.ext this)

/-- The semaphore stack has one entry per counted consume node. -/
theorem semaStack_length (f : String) (k : Nat) : (semaStack f k).length = k := by
  simp [semaStack]

/-- Counting a variable name among plain variables is counting the name. -/
theorem countVarNamed_map_var (n : String) :
    ∀ names : List String,
      countVarNamed n (names.map (Expr.var .handle)) = names.count n := by
  intro names
  induction names with
  | nil => rfl
  | cons m rest ih =>
      simp only [List.map_cons, countVarNamed, ih, List.count_cons]
      by_cases hm : m = n
      · simp [hm]
        omega
      · simp [hm, Ne.symm hm]

/-- Each minted semaphore name occurs exactly once on the semaphore stack. -/
theorem semaStack_count (f : String) (k i : Nat) (hi : i < k) :
    countVarNamed (semaName f i) (semaStack f k) = 1 := by
  rw [semaStack, ← List.map_reverse, countVarNamed_map_var, List.count_reverse]
  have hnd : (((List.range k).map (semaName f))).Nodup :=
    (List.nodup_range k).map (fun a b h => semaName_inj f a b h)
  have hmem : semaName f i ∈ (List.range k).map (semaName f) :=
    List.mem_map_of_mem (semaName f) (List.mem_range.2 hi)
  exact List.count_eq_one_of_mem hnd hmem

/-- A variable mentioned in no argument cannot head the argument list. -/
theorem firstArgIsVar_false (n : String) :
    ∀ args : List Expr, mentionsVarEList n args = false → firstArgIsVar n args = false := by
  intro args h
  cases args with
  | nil => rfl
  | cons a rest =>
      cases a with
      | var t m =>
          simp only [mentionsVarEList, mentionsVarE, Bool.or_eq_false_iff] at h
          simp only [firstArgIsVar]
          simpa using h.1
      | intLit m => rfl
      | letE n' v' b' => rfl
      | call t' n' a' ct' => rfl

mutual

/-- Expressions not mentioning `n` contain no release call on `n`. -/
theorem relCountE_zero (n : String) :
    ∀ e : Expr, mentionsVarE n e = false → relCountE n e = 0
  | .intLit _, _ => rfl
  | .var _ _, _ => rfl
  | .letE m v b, h => by
      simp only [mentionsVarE, Bool.or_eq_false_iff] at h
      simp [relCountE, relCountE_zero n v h.1, relCountE_zero n b h.2]
  | .call t cn args ct, h => by
      simp only [mentionsVarE] at h
      simp [relCountE, relCountEList_zero n args h, firstArgIsVar_false n args h]

/-- Argument lists not mentioning `n` contain no release call on `n`. -/
theorem relCountEList_zero (n : String) :
    ∀ es : List Expr, mentionsVarEList n es = false → relCountEList n es = 0
  | [], _ => rfl
  | e :: es, h => by
      simp only [mentionsVarEList, Bool.or_eq_false_iff] at h
      simp [relCountEList, relCountE_zero n e h.1, relCountEList_zero n es h.2]

end

/-- Bounds lists not mentioning `n` contribute no release calls on `n`. -/
theorem relCount_bounds_zero (n : String) :
    ∀ bds : List (Expr × Expr),
      (bds.any fun p => mentionsVarE n p.1 || mentionsVarE n p.2) = false →
      (bds.map fun p => relCountE n p.1 + relCountE n p.2).sum = 0 := by
  intro bds h
  induction bds with
  | nil => rfl
  | cons p ps ih =>
      simp only [List.any_cons, Bool.or_eq_false_iff] at h
      obtain ⟨⟨h1, h2⟩, h3⟩ := h
      simp [relCountE_zero n p.1 h1, relCountE_zero n p.2 h2, ih h3]

/-- Expression lists not mentioning `n` contribute no release calls on `n`. -/
theorem relCount_list_zero (n : String) :
    ∀ es : List Expr, mentionsVarEList n es = false →
      (es.map (relCountE n)).sum = 0 := by
  intro es h
  induction es with
  | nil => rfl
  | cons e es ih =>
      simp only [mentionsVarEList, Bool.or_eq_false_iff] at h
      simp [relCountE_zero n e h.1, ih h.2]

/-- Statements not mentioning `n` contain no release call on `n`. -/
theorem relCount_zero (n : String) :
    ∀ s : Stmt, mentionsVar n s = false → relCount n s = 0 := by
  intro s
  induction s with
  | letStmt m v b ih =>
      intro h
      simp only [mentionsVar, Bool.or_eq_false_iff] at h
      simp [relCount, relCountE_zero n v h.1, ih h.2]
  | block a b iha ihb =>
      intro h
      simp only [mentionsVar, Bool.or_eq_false_iff] at h
      simp [relCount, iha h.1, ihb h.2]
  | forS m mn ex ft d b ih =>
      intro h
      simp only [mentionsVar, Bool.or_eq_false_iff] at h
      obtain ⟨⟨h1, h2⟩, h3⟩ := h
      simp [relCount, relCountE_zero n mn h1, relCountE_zero n ex h2, ih h3]
  | realize m ts bds c b ih =>
      intro h
      simp only [mentionsVar, Bool.or_eq_false_iff] at h
      obtain ⟨⟨h1, h2⟩, h3⟩ := h
      simp [relCount, relCount_bounds_zero n bds h1, relCountE_zero n c h2, ih h3]
  | producerConsumer m ip b ih =>
      intro h
      simp only [mentionsVar] at h
      simp [relCount, ih h]
  | fork a b iha ihb =>
      intro h
      simp only [mentionsVar, Bool.or_eq_false_iff] at h
      simp [relCount, iha h.1, ihb h.2]
  | acquire sm c b ih =>
      intro h
      simp only [mentionsVar, Bool.or_eq_false_iff] at h
      obtain ⟨⟨h1, h2⟩, h3⟩ := h
      simp [relCount, relCountE_zero n sm h1, relCountE_zero n c h2, ih h3]
  | evaluate e =>
      intro h
      simp only [mentionsVar] at h
      simp [relCount, relCountE_zero n e h]
  | provide m vals args =>
      intro h
      simp only [mentionsVar, Bool.or_eq_false_iff] at h
      simp [relCount, relCount_list_zero n vals h.1, relCount_list_zero n args h.2]
  | assertStmt c m =>
      intro h
      simp only [mentionsVar, Bool.or_eq_false_iff] at h
      simp [relCount, relCountE_zero n c h.1, relCountE_zero n m h.2]
  | prefetchS m bds =>
      intro h
      simp only [mentionsVar] at h
      simp [relCount, relCount_bounds_zero n bds h]
  | ifThenElse c t e iht ihe =>
      intro h
      simp only [mentionsVar, Bool.or_eq_false_iff] at h
      obtain ⟨⟨h1, h2⟩, h3⟩ := h
      simp [relCount, relCountE_zero n c h1, iht h2, ihe h3]

/-- Acquire-free statements acquire nothing. -/
theorem acqCount_zero_of_noAcquire (n : String) :
    ∀ s : Stmt, noAcquire s = true → acqCount n s = 0 := by
  intro s
  induction s with
  | acquire sm c b ih => intro h; simp [noAcquire] at h
  | letStmt m v b ih => intro h; simp only [noAcquire] at h; simp [acqCount, ih h]
  | block a b iha ihb =>
      intro h
      simp only [noAcquire, Bool.and_eq_true] at h
      simp [acqCount, iha h.1, ihb h.2]
  | forS m mn ex ft d b ih => intro h; simp only [noAcquire] at h; simp [acqCount, ih h]
  | realize m ts bds c b ih => intro h; simp only [noAcquire] at h; simp [acqCount, ih h]
  | producerConsumer m ip b ih =>
      intro h; simp only [noAcquire] at h; simp [acqCount, ih h]
  | fork a b iha ihb =>
      intro h
      simp only [noAcquire, Bool.and_eq_true] at h
      simp [acqCount, iha h.1, ihb h.2]
  | ifThenElse c t e iht ihe =>
      intro h
      simp only [noAcquire, Bool.and_eq_true] at h
      simp [acqCount, iht h.1, ihe h.2]
  | evaluate e => intro _; rfl
  | provide m vals args => intro _; rfl
  | assertStmt c m => intro _; rfl
  | prefetchS m bds => intro _; rfl

/-- Without markers of `func` there is nothing to count. -/
theorem countConsumes_zero_of_not_hasPC (func : String) :
    ∀ s : Stmt, hasPC func s = false → countConsumes func s = 0 := by
  intro s
  induction s with
  | producerConsumer m ip b ih =>
      intro h
      simp only [hasPC, Bool.or_eq_false_iff] at h
      have : ¬(m = func ∧ ip = false) := by
        intro hc
        have := h.1
        simp [hc.1] at this
      simp [countConsumes, this, ih h.2]
  | letStmt m v b ih => intro h; simp only [hasPC] at h; simp [countConsumes, ih h]
  | block a b iha ihb =>
      intro h
      simp only [hasPC, Bool.or_eq_false_iff] at h
      simp [countConsumes, iha h.1, ihb h.2]
  | forS m mn ex ft d b ih => intro h; simp only [hasPC] at h; simp [countConsumes, ih h]
  | realize m ts bds c b ih => intro h; simp only [hasPC] at h; simp [countConsumes, ih h]
  | fork a b iha ihb =>
      intro h
      simp only [hasPC, Bool.or_eq_false_iff] at h
      simp [countConsumes, iha h.1, ihb h.2]
  | acquire sm c b ih => intro h; simp only [hasPC] at h; simp [countConsumes, ih h]
  | ifThenElse c t e iht ihe =>
      intro h
      simp only [hasPC, Bool.or_eq_false_iff] at h
      simp [countConsumes, iht h.1, ihe h.2]
  | evaluate e => intro _; rfl
  | provide m vals args => intro _; rfl
  | assertStmt c m => intro _; rfl
  | prefetchS m bds => intro _; rfl

/-- The trailing releases appended by the produce node account for exactly
one release per stack entry named `n`. -/
theorem relCount_drain (n : String) :
    ∀ (sema : List Expr) (b : Stmt), (∀ e ∈ sema, ∃ t m, e = Expr.var t m) →
      relCount n (drainReleases b sema) = relCount n b + countVarNamed n sema := by
  intro sema
  induction sema with
  | nil => intro b _; simp [drainReleases, countVarNamed]
  | cons v rest ih =>
      intro b hvars
      rcases hvars v (List.mem_cons_self v rest) with ⟨t, m, rfl⟩
      have hrest : ∀ e ∈ rest, ∃ t m, e = Expr.var t m := fun e he =>
        hvars e (List.mem_cons_of_mem _ he)
      have hcall : relCountE n (.call .int32 "halide_semaphore_release"
          [.var t m, .intLit 1] .externalFn) = (if m = n then 1 else 0) := by
        simp [relCountE, relCountEList, firstArgIsVar]
      simp only [drainReleases, ih _ hrest, relCount, hcall, countVarNamed]
      omega

/-- Appending trailing releases introduces no `Realize`. -/
theorem noRealize_drain :
    ∀ (sema : List Expr) (b : Stmt), noRealize b = true →
      noRealize (drainReleases b sema) = true := by
  intro sema
  induction sema with
  | nil => intro b h; exact h
  | cons v rest ih =>
      intro b h
      exact ih _ (by simp [noRealize, h])

/-- Producer-half accounting: on an acquire-free, realize-free body with at
most one produce node of `func`, not mentioning the name `n`, and a stack of
variables (nonempty if a produce node exists), `GenerateProducerBody`
succeeds without touching the counter or `cloned_acquires`; it drains the
whole stack exactly when a produce node exists, in which case the output
holds one `halide_semaphore_release` per stack entry named `n` (and no other
release on `n`); the output collapses to a no-op only when no produce node
exists, and stays realize-free. -/
theorem genProducer_counts (func n : String) :
    ∀ (s : Stmt) (sema : List Expr) (st : PState),
      noAcquire s = true → noRealize s = true →
      produceCount func s ≤ 1 →
      (produceCount func s = 1 → sema ≠ []) →
      (∀ e ∈ sema, ∃ t m, e = Expr.var t m) →
      mentionsVar n s = false →
      ∃ p, genProducer func s sema st =
          .ok (p, (if produceCount func s = 1 then [] else sema), st) ∧
        relCount n p = (if produceCount func s = 1 then countVarNamed n sema else 0) ∧
        (isNoOp p = true → produceCount func s = 0) ∧
        noRealize p = true := by
  intro s
  induction s with
  | producerConsumer m ip b ih =>
      intro sema st hna hnr hle hne hvars hmen
      simp only [noAcquire] at hna
      simp only [noRealize] at hnr
      simp only [mentionsVar] at hmen
      by_cases hmi : m = func ∧ ip
      · obtain ⟨hm, hip⟩ := hmi
        subst hm
        subst hip
        have hcount : produceCount m (.producerConsumer m true b) =
            1 + produceCount m b := by
          simp [produceCount]
        have hcb : produceCount m b = 0 := by
          rw [hcount] at hle
          omega
        have hc1 : produceCount m (.producerConsumer m true b) = 1 := by omega
        have hse : sema ≠ [] := hne hc1
        cases sema with
        | nil => exact absurd rfl hse
        | cons v rest =>
            refine ⟨.producerConsumer m true (drainReleases b (v :: rest)), ?_, ?_, ?_, ?_⟩
            · rw [hc1]
              simp [genProducer]
            · rw [hc1]
              have hhd : relCount n (Stmt.producerConsumer m true (drainReleases b (v :: rest))) =
                  relCount n (drainReleases b (v :: rest)) := rfl
              rw [if_pos rfl, hhd, relCount_drain n (v :: rest) b hvars,
                relCount_zero n b hmen, Nat.zero_add]
            · intro hno
              simp [isNoOp] at hno
            · simp only [noRealize]
              exact noRealize_drain (v :: rest) b hnr
      · have hcount : produceCount func (.producerConsumer m ip b) =
            produceCount func b := by
          have : ¬(m = func ∧ ip = true) := by simpa using hmi
          simp [produceCount, this]
        rw [hcount] at hle hne ⊢
        obtain ⟨p, hok, hrel, hnop, hnrp⟩ := ih sema st hna hnr hle hne hvars hmen
        by_cases hcase : isNoOp p || ip
        · exact ⟨p, by simp [genProducer, hmi, hok, hcase, bind, Except.bind], hrel, hnop, hnrp⟩
        · refine ⟨.producerConsumer m ip p, ?_, ?_, ?_, ?_⟩
          · simp [genProducer, hmi, hok, hcase, bind, Except.bind]
          · exact hrel
          · intro hno
            simp [isNoOp] at hno
          · simpa [noRealize] using hnrp
  | evaluate e =>
      intro sema st _ _ _ _ _ hmen
      refine ⟨.evaluate (.intLit 0), rfl, ?_, fun _ => rfl, rfl⟩
      simp [produceCount, relCount, relCountE]
  | provide m vals args =>
      intro sema st _ _ _ _ _ _
      refine ⟨.evaluate (.intLit 0), rfl, ?_, fun _ => rfl, rfl⟩
      simp [produceCount, relCount, relCountE]
  | assertStmt c m =>
      intro sema st _ _ _ _ _ _
      refine ⟨.evaluate (.intLit 0), rfl, ?_, fun _ => rfl, rfl⟩
      simp [produceCount, relCount, relCountE]
  | prefetchS m bds =>
      intro sema st _ _ _ _ _ _
      refine ⟨.evaluate (.intLit 0), rfl, ?_, fun _ => rfl, rfl⟩
      simp [produceCount, relCount, relCountE]
  | acquire sm c b ih =>
      intro sema st hna _ _ _ _ _
      simp [noAcquire] at hna
  | realize m ts bds c b ih =>
      intro sema st _ hnr _ _ _ _
      simp [noRealize] at hnr
  | letStmt m v b ih =>
      intro sema st hna hnr hle hne hvars hmen
      simp only [noAcquire] at hna
      simp only [noRealize] at hnr
      simp only [mentionsVar, Bool.or_eq_false_iff] at hmen
      have hcount : produceCount func (.letStmt m v b) = produceCount func b := rfl
      rw [hcount] at hle hne ⊢
      obtain ⟨p, hok, hrel, hnop, hnrp⟩ := ih sema st hna hnr hle hne hvars hmen.2
      by_cases hno : isNoOp p = true
      · exact ⟨p, by simp [genProducer, hok, hno, bind, Except.bind], hrel, hnop, hnrp⟩
      · refine ⟨.letStmt m v p, ?_, ?_, ?_, ?_⟩
        · simp [genProducer, hok, hno, bind, Except.bind]
        · simp only [relCount, relCountE_zero n v hmen.1, hrel]
          omega
        · intro hcontra
          simp [isNoOp] at hcontra
        · simpa [noRealize] using hnrp
  | forS m mn ex ft d b ih =>
      intro sema st hna hnr hle hne hvars hmen
      simp only [noAcquire] at hna
      simp only [noRealize] at hnr
      simp only [mentionsVar, Bool.or_eq_false_iff] at hmen
      obtain ⟨⟨hm1, hm2⟩, hm3⟩ := hmen
      have hcount : produceCount func (.forS m mn ex ft d b) = produceCount func b := rfl
      rw [hcount] at hle hne ⊢
      obtain ⟨p, hok, hrel, hnop, hnrp⟩ := ih sema st hna hnr hle hne hvars hm3
      by_cases hno : isNoOp p = true
      · exact ⟨p, by simp [genProducer, hok, hno, bind, Except.bind], hrel, hnop, hnrp⟩
      · refine ⟨.forS m mn ex ft d p, ?_, ?_, ?_, ?_⟩
        · simp [genProducer, hok, hno, bind, Except.bind]
        · simp only [relCount, relCountE_zero n mn hm1, relCountE_zero n ex hm2, hrel]
          omega
        · intro hcontra
          simp [isNoOp] at hcontra
        · simpa [noRealize] using hnrp
  | block a b iha ihb =>
      intro sema st hna hnr hle hne hvars hmen
      simp only [noAcquire, Bool.and_eq_true] at hna
      simp only [noRealize, Bool.and_eq_true] at hnr
      simp only [mentionsVar, Bool.or_eq_false_iff] at hmen
      have hct : produceCount func (.block a b) =
          produceCount func a + produceCount func b := rfl
      have hlea : produceCount func a ≤ 1 := by rw [hct] at hle; omega
      have hleb : produceCount func b ≤ 1 := by rw [hct] at hle; omega
      have hnea : produceCount func a = 1 → sema ≠ [] := by
        intro h1
        exact hne (by rw [hct] at hle ⊢; omega)
      obtain ⟨p, hok1, hrel1, hnop1, hnrp⟩ := iha sema st hna.1 hnr.1 hlea hnea hvars hmen.1
      have hneb : produceCount func b = 1 →
          (if produceCount func a = 1 then [] else sema) ≠ [] := by
        intro h1
        have hca : produceCount func a = 0 := by rw [hct] at hle; omega
        have : sema ≠ [] := hne (by rw [hct] at hle ⊢; omega)
        simp [hca]
        exact this
      have hvarsb : ∀ e ∈ (if produceCount func a = 1 then [] else sema),
          ∃ t m, e = Expr.var t m := by
        by_cases hca : produceCount func a = 1 <;> simp [hca] <;> exact fun e he => hvars e he
      obtain ⟨q, hok2, hrel2, hnop2, hnrq⟩ :=
        ihb (if produceCount func a = 1 then [] else sema) st hna.2 hnr.2 hleb hneb
          hvarsb hmen.2
      have hle' : produceCount func a + produceCount func b ≤ 1 := by rw [hct] at hle; exact hle
      have hstack : (if produceCount func b = 1 then ([] : List Expr)
            else if produceCount func a = 1 then [] else sema) =
          (if produceCount func (.block a b) = 1 then [] else sema) := by
        rw [hct]
        by_cases hca : produceCount func a = 1
        · have hcb : produceCount func b = 0 := by omega
          rw [hca, hcb]
          simp
        · by_cases hcb : produceCount func b = 1
          · have ha0 : produceCount func a = 0 := by omega
            rw [ha0, hcb]
            simp
          · have ha0 : produceCount func a = 0 := by omega
            have hb0 : produceCount func b = 0 := by omega
            rw [ha0, hb0]
            simp
      have hreltot : relCount n p + relCount n q =
          (if produceCount func (.block a b) = 1 then countVarNamed n sema else 0) := by
        rw [hct]
        by_cases hca : produceCount func a = 1
        · have hcb : produceCount func b = 0 := by omega
          rw [hca] at hrel1 hrel2
          rw [hcb] at hrel2
          simp at hrel1 hrel2
          rw [hca, hcb]
          simp [hrel1, hrel2]
        · by_cases hcb : produceCount func b = 1
          · have ha0 : produceCount func a = 0 := by omega
            rw [ha0] at hrel1 hrel2
            rw [hcb] at hrel2
            simp at hrel1 hrel2
            rw [ha0, hcb]
            simp [hrel1, hrel2]
          · have ha0 : produceCount func a = 0 := by omega
            have hb0 : produceCount func b = 0 := by omega
            rw [ha0] at hrel1 hrel2
            rw [hb0] at hrel2
            simp at hrel1 hrel2
            rw [ha0, hb0]
            simp [hrel1, hrel2]
      by_cases hnp : isNoOp p = true
      · have hca : produceCount func a = 0 := hnop1 hnp
        refine ⟨q, ?_, ?_, ?_, hnrq⟩
        · rw [← hstack]
          simp [genProducer, hok1, hok2, hnp, bind, Except.bind]
        · have : relCount n p = 0 := by
            rw [hrel1]
            simp [hca]
          omega
        · intro hq
          have hcb := hnop2 hq
          rw [hct]
          omega
      · by_cases hnq : isNoOp q = true
        · have hcb : produceCount func b = 0 := hnop2 hnq
          refine ⟨p, ?_, ?_, ?_, hnrp⟩
          · rw [← hstack]
            simp [genProducer, hok1, hok2, hnp, hnq, bind, Except.bind]
          · have : relCount n q = 0 := by
              rw [hrel2]
              simp [hcb]
            omega
          · intro hp
            have hca := hnop1 hp
            rw [hct]
            omega
        · refine ⟨.block p q, ?_, ?_, ?_, ?_⟩
          · rw [← hstack]
            simp [genProducer, hok1, hok2, hnp, hnq, bind, Except.bind]
          · have : relCount n (Stmt.block p q) = relCount n p + relCount n q := rfl
            rw [this, hreltot]
          · intro hcontra
            simp [isNoOp] at hcontra
          · simp [noRealize, hnrp, hnrq]
  | fork a b iha ihb =>
      intro sema st hna hnr hle hne hvars hmen
      simp only [noAcquire, Bool.and_eq_true] at hna
      simp only [noRealize, Bool.and_eq_true] at hnr
      simp only [mentionsVar, Bool.or_eq_false_iff] at hmen
      have hct : produceCount func (.fork a b) =
          produceCount func a + produceCount func b := rfl
      have hlea : produceCount func a ≤ 1 := by rw [hct] at hle; omega
      have hleb : produceCount func b ≤ 1 := by rw [hct] at hle; omega
      have hnea : produceCount func a = 1 → sema ≠ [] := by
        intro h1
        exact hne (by rw [hct] at hle ⊢; omega)
      obtain ⟨p, hok1, hrel1, hnop1, hnrp⟩ := iha sema st hna.1 hnr.1 hlea hnea hvars hmen.1
      have hneb : produceCount func b = 1 →
          (if produceCount func a = 1 then [] else sema) ≠ [] := by
        intro h1
        have hca : produceCount func a = 0 := by rw [hct] at hle; omega
        have : sema ≠ [] := hne (by rw [hct] at hle ⊢; omega)
        simp [hca]
        exact this
      have hvarsb : ∀ e ∈ (if produceCount func a = 1 then [] else sema),
          ∃ t m, e = Expr.var t m := by
        by_cases hca : produceCount func a = 1 <;> simp [hca] <;> exact fun e he => hvars e he
      obtain ⟨q, hok2, hrel2, hnop2, hnrq⟩ :=
        ihb (if produceCount func a = 1 then [] else sema) st hna.2 hnr.2 hleb hneb
          hvarsb hmen.2
      have hle' : produceCount func a + produceCount func b ≤ 1 := by rw [hct] at hle; exact hle
      have hstack : (if produceCount func b = 1 then ([] : List Expr)
            else if produceCount func a = 1 then [] else sema) =
          (if produceCount func (.fork a b) = 1 then [] else sema) := by
        rw [hct]
        by_cases hca : produceCount func a = 1
        · have hcb : produceCount func b = 0 := by omega
          rw [hca, hcb]
          simp
        · by_cases hcb : produceCount func b = 1
          · have ha0 : produceCount func a = 0 := by omega
            rw [ha0, hcb]
            simp
          · have ha0 : produceCount func a = 0 := by omega
            have hb0 : produceCount func b = 0 := by omega
            rw [ha0, hb0]
            simp
      have hreltot : relCount n p + relCount n q =
          (if produceCount func (.fork a b) = 1 then countVarNamed n sema else 0) := by
        rw [hct]
        by_cases hca : produceCount func a = 1
        · have hcb : produceCount func b = 0 := by omega
          rw [hca] at hrel1 hrel2
          rw [hcb] at hrel2
          simp at hrel1 hrel2
          rw [hca, hcb]
          simp [hrel1, hrel2]
        · by_cases hcb : produceCount func b = 1
          · have ha0 : produceCount func a = 0 := by omega
            rw [ha0] at hrel1 hrel2
            rw [hcb] at hrel2
            simp at hrel1 hrel2
            rw [ha0, hcb]
            simp [hrel1, hrel2]
          · have ha0 : produceCount func a = 0 := by omega
            have hb0 : produceCount func b = 0 := by omega
            rw [ha0] at hrel1 hrel2
            rw [hb0] at hrel2
            simp at hrel1 hrel2
            rw [ha0, hb0]
            simp [hrel1, hrel2]
      by_cases hnp : isNoOp p = true
      · have hca : produceCount func a = 0 := hnop1 hnp
        refine ⟨q, ?_, ?_, ?_, hnrq⟩
        · rw [← hstack]
          simp [genProducer, hok1, hok2, hnp, bind, Except.bind]
        · have : relCount n p = 0 := by
            rw [hrel1]
            simp [hca]
          omega
        · intro hq
          have hcb := hnop2 hq
          rw [hct]
          omega
      · by_cases hnq : isNoOp q = true
        · have hcb : produceCount func b = 0 := hnop2 hnq
          refine ⟨p, ?_, ?_, ?_, hnrp⟩
          · rw [← hstack]
            simp [genProducer, hok1, hok2, hnp, hnq, bind, Except.bind]
          · have : relCount n q = 0 := by
              rw [hrel2]
              simp [hcb]
            omega
          · intro hp
            have hca := hnop1 hp
            rw [hct]
            omega
        · refine ⟨.fork p q, ?_, ?_, ?_, ?_⟩
          · rw [← hstack]
            simp [genProducer, hok1, hok2, hnp, hnq, bind, Except.bind]
          · have : relCount n (Stmt.fork p q) = relCount n p + relCount n q := rfl
            rw [this, hreltot]
          · intro hcontra
            simp [isNoOp] at hcontra
          · simp [noRealize, hnrp, hnrq]
  | ifThenElse c t e iht ihe =>
      intro sema st hna hnr hle hne hvars hmen
      simp only [noAcquire, Bool.and_eq_true] at hna
      simp only [noRealize, Bool.and_eq_true] at hnr
      simp only [mentionsVar, Bool.or_eq_false_iff] at hmen
      obtain ⟨⟨hm1, hm2⟩, hm3⟩ := hmen
      have hct : produceCount func (.ifThenElse c t e) =
          produceCount func t + produceCount func e := rfl
      have hlea : produceCount func t ≤ 1 := by rw [hct] at hle; omega
      have hleb : produceCount func e ≤ 1 := by rw [hct] at hle; omega
      have hnea : produceCount func t = 1 → sema ≠ [] := by
        intro h1
        exact hne (by rw [hct] at hle ⊢; omega)
      obtain ⟨p, hok1, hrel1, hnop1, hnrp⟩ := iht sema st hna.1 hnr.1 hlea hnea hvars hm2
      have hneb : produceCount func e = 1 →
          (if produceCount func t = 1 then [] else sema) ≠ [] := by
        intro h1
        have hca : produceCount func t = 0 := by rw [hct] at hle; omega
        have : sema ≠ [] := hne (by rw [hct] at hle ⊢; omega)
        simp [hca]
        exact this
      have hvarsb : ∀ x ∈ (if produceCount func t = 1 then [] else sema),
          ∃ ty m, x = Expr.var ty m := by
        by_cases hca : produceCount func t = 1 <;> simp [hca] <;> exact fun x hx => hvars x hx
      obtain ⟨q, hok2, hrel2, hnop2, hnrq⟩ :=
        ihe (if produceCount func t = 1 then [] else sema) st hna.2 hnr.2 hleb hneb
          hvarsb hm3
      have hle' : produceCount func t + produceCount func e ≤ 1 := by rw [hct] at hle; exact hle
      have hstack : (if produceCount func e = 1 then ([] : List Expr)
            else if produceCount func t = 1 then [] else sema) =
          (if produceCount func (.ifThenElse c t e) = 1 then [] else sema) := by
        rw [hct]
        by_cases hca : produceCount func t = 1
        · have hcb : produceCount func e = 0 := by omega
          rw [hca, hcb]
          simp
        · by_cases hcb : produceCount func e = 1
          · have ha0 : produceCount func t = 0 := by omega
            rw [ha0, hcb]
            simp
          · have ha0 : produceCount func t = 0 := by omega
            have hb0 : produceCount func e = 0 := by omega
            rw [ha0, hb0]
            simp
      have hreltot : relCount n p + relCount n q =
          (if produceCount func (.ifThenElse c t e) = 1 then countVarNamed n sema else 0) := by
        rw [hct]
        by_cases hca : produceCount func t = 1
        · have hcb : produceCount func e = 0 := by omega
          rw [hca] at hrel1 hrel2
          rw [hcb] at hrel2
          simp at hrel1 hrel2
          rw [hca, hcb]
          simp [hrel1, hrel2]
        · by_cases hcb : produceCount func e = 1
          · have ha0 : produceCount func t = 0 := by omega
            rw [ha0] at hrel1 hrel2
            rw [hcb] at hrel2
            simp at hrel1 hrel2
            rw [ha0, hcb]
            simp [hrel1, hrel2]
          · have ha0 : produceCount func t = 0 := by omega
            have hb0 : produceCount func e = 0 := by omega
            rw [ha0] at hrel1 hrel2
            rw [hb0] at hrel2
            simp at hrel1 hrel2
            rw [ha0, hb0]
            simp [hrel1, hrel2]
      by_cases hnpq : (isNoOp p && isNoOp q) = true
      · simp only [Bool.and_eq_true] at hnpq
        have hca : produceCount func t = 0 := hnop1 hnpq.1
        have hcb : produceCount func e = 0 := hnop2 hnpq.2
        refine ⟨p, ?_, ?_, ?_, hnrp⟩
        · rw [← hstack]
          simp [genProducer, hok1, hok2, hnpq.1, hnpq.2, bind, Except.bind]
        · have hz1 : relCount n p = 0 := by rw [hrel1]; simp [hca]
          have hz2 : relCount n q = 0 := by rw [hrel2]; simp [hcb]
          rw [hct]
          simp [hca, hcb, hz1]
        · intro _
          rw [hct]
          omega
      · refine ⟨.ifThenElse c p q, ?_, ?_, ?_, ?_⟩
        · rw [← hstack]
          simp only [genProducer, hok1, hok2, bind, Except.bind, hnpq]
          simp [Bool.and_eq_true] at hnpq ⊢
        · have : relCount n (Stmt.ifThenElse c p q) =
              relCountE n c + relCount n p + relCount n q := rfl
          rw [this, relCountE_zero n c hm1, Nat.zero_add]
          exact hreltot
        · intro hcontra
          simp [isNoOp] at hcontra
        · simp [noRealize, hnrp, hnrq]

/-- Counting occurrences of a variable name distributes over append. -/
theorem countVarNamed_append (n : String) :
    ∀ l1 l2 : List Expr,
      countVarNamed n (l1 ++ l2) = countVarNamed n l1 + countVarNamed n l2 := by
  intro l1 l2
  induction l1 with
  | nil => simp [countVarNamed]
  | cons h t ih =>
      cases h <;> simp [countVarNamed, ih] <;> omega

/-- Consumer-half accounting: on an acquire-free, realize-free body with
unnested `ProducerConsumer(func)` markers and a variable stack at least as
long as the consume-node count, `GenerateConsumerBody` succeeds, pops exactly
one stack entry per consume node (in stack order), wraps each popped variable
in exactly one `Acquire`, and collapses to a no-op only when there is no
consume node. -/
theorem genConsumer_counts (func n : String) :
    ∀ (s : Stmt) (sema : List Expr),
      noAcquire s = true → noRealize s = true →
      pcUnnested func s = true →
      countConsumes func s ≤ sema.length →
      (∀ e ∈ sema, ∃ t m, e = Expr.var t m) →
      ∃ c, genConsumer func s sema =
          .ok (c, sema.drop (countConsumes func s)) ∧
        acqCount n c = countVarNamed n (sema.take (countConsumes func s)) ∧
        (isNoOp c = true → countConsumes func s = 0) ∧
        noRealize c = true := by
  intro s
  induction s with
  | producerConsumer m ip b ih =>
      intro sema hna hnr hpu hlen hvars
      simp only [noAcquire] at hna
      simp only [noRealize] at hnr
      by_cases hm : m = func
      · subst hm
        have hpcb : hasPC m b = false := by
          simp only [pcUnnested, if_pos rfl] at hpu
          simpa using hpu
        have hcb : countConsumes m b = 0 := countConsumes_zero_of_not_hasPC m b hpcb
        cases hip : ip with
        | true =>
            have hk : countConsumes m (.producerConsumer m true b) = 0 := by
              simp [countConsumes, hcb]
            refine ⟨.evaluate (.intLit 0), ?_, ?_, ?_, rfl⟩
            · rw [hk]
              simp [genConsumer]
            · rw [hk]
              simp [acqCount, countVarNamed]
            · intro _
              exact hk
        | false =>
            subst hip
            have hk : countConsumes m (.producerConsumer m false b) = 1 := by
              simp [countConsumes, hcb]
            rw [hk] at hlen
            cases sema with
            | nil => simp at hlen
            | cons v rest =>
                obtain ⟨tv, mv, hv⟩ := hvars v (by simp)
                refine ⟨.acquire v (.intLit 1) (.producerConsumer m false b), ?_, ?_, ?_, ?_⟩
                · rw [hk]
                  simp [genConsumer]
                · rw [hk, hv]
                  have hb0 : acqCount n b = 0 := acqCount_zero_of_noAcquire n b hna
                  simp [acqCount, countVarNamed, hb0]
                · intro hcontra
                  simp [isNoOp] at hcontra
                · simpa [noRealize] using hnr
      · have hpub : pcUnnested func b = true := by
          simp only [pcUnnested, if_neg hm] at hpu
          exact hpu
        have hk : countConsumes func (.producerConsumer m ip b) = countConsumes func b := by
          simp [countConsumes, hm]
        rw [hk] at hlen ⊢
        obtain ⟨c, hok, hacq, hnop, hnrc⟩ := ih sema hna hnr hpub hlen hvars
        refine ⟨.producerConsumer m ip c, ?_, ?_, ?_, ?_⟩
        · simp [genConsumer, hm, hok, bind, Except.bind]
        · simpa [acqCount] using hacq
        · intro hcontra
          simp [isNoOp] at hcontra
        · simpa [noRealize] using hnrc
  | acquire sm cnt b ih =>
      intro sema hna _ _ _ _
      simp [noAcquire] at hna
  | realize m ts bds cnd b ih =>
      intro sema _ hnr _ _ _
      simp [noRealize] at hnr
  | evaluate e =>
      intro sema _ _ _ _ _
      exact ⟨.evaluate e, by simp [genConsumer, countConsumes],
        by simp [countConsumes, acqCount, countVarNamed], fun _ => rfl, rfl⟩
  | provide m vals args =>
      intro sema _ _ _ _ _
      exact ⟨.provide m vals args, by simp [genConsumer, countConsumes],
        by simp [countConsumes, acqCount, countVarNamed], fun _ => rfl, rfl⟩
  | assertStmt cnd m =>
      intro sema _ _ _ _ _
      exact ⟨.assertStmt cnd m, by simp [genConsumer, countConsumes],
        by simp [countConsumes, acqCount, countVarNamed], fun _ => rfl, rfl⟩
  | prefetchS m bds =>
      intro sema _ _ _ _ _
      exact ⟨.prefetchS m bds, by simp [genConsumer, countConsumes],
        by simp [countConsumes, acqCount, countVarNamed], fun _ => rfl, rfl⟩
  | letStmt m v b ih =>
      intro sema hna hnr hpu hlen hvars
      simp only [noAcquire] at hna
      simp only [noRealize] at hnr
      simp only [pcUnnested] at hpu
      have hk : countConsumes func (.letStmt m v b) = countConsumes func b := rfl
      rw [hk] at hlen ⊢
      obtain ⟨c, hok, hacq, hnop, hnrc⟩ := ih sema hna hnr hpu hlen hvars
      by_cases hno : isNoOp c = true
      · exact ⟨c, by simp [genConsumer, hok, hno, bind, Except.bind], hacq, hnop, hnrc⟩
      · refine ⟨.letStmt m v c, ?_, ?_, ?_, ?_⟩
        · simp [genConsumer, hok, hno, bind, Except.bind]
        · simpa [acqCount] using hacq
        · intro hcontra
          simp [isNoOp] at hcontra
        · simpa [noRealize] using hnrc
  | forS m mn ex ft d b ih =>
      intro sema hna hnr hpu hlen hvars
      simp only [noAcquire] at hna
      simp only [noRealize] at hnr
      simp only [pcUnnested] at hpu
      have hk : countConsumes func (.forS m mn ex ft d b) = countConsumes func b := rfl
      rw [hk] at hlen ⊢
      obtain ⟨c, hok, hacq, hnop, hnrc⟩ := ih sema hna hnr hpu hlen hvars
      by_cases hno : isNoOp c = true
      · exact ⟨c, by simp [genConsumer, hok, hno, bind, Except.bind], hacq, hnop, hnrc⟩
      · refine ⟨.forS m mn ex ft d c, ?_, ?_, ?_, ?_⟩
        · simp [genConsumer, hok, hno, bind, Except.bind]
        · simpa [acqCount] using hacq
        · intro hcontra
          simp [isNoOp] at hcontra
        · simpa [noRealize] using hnrc
  | block a b iha ihb =>
      intro sema hna hnr hpu hlen hvars
      simp only [noAcquire, Bool.and_eq_true] at hna
      simp only [noRealize, Bool.and_eq_true] at hnr
      simp only [pcUnnested, Bool.and_eq_true] at hpu
      have hk : countConsumes func (.block a b) =
          countConsumes func a + countConsumes func b := rfl
      rw [hk] at hlen ⊢
      have hlena : countConsumes func a ≤ sema.length := by omega
      obtain ⟨p, hok1, hacq1, hnop1, hnrp⟩ := iha sema hna.1 hnr.1 hpu.1 hlena hvars
      have hlenb : countConsumes func b ≤ (sema.drop (countConsumes func a)).length := by
        rw [List.length_drop]
        omega
      have hvarsb : ∀ e ∈ sema.drop (countConsumes func a), ∃ t m, e = Expr.var t m :=
        fun e he => hvars e (List.mem_of_mem_drop he)
      obtain ⟨q, hok2, hacq2, hnop2, hnrq⟩ := ihb _ hna.2 hnr.2 hpu.2 hlenb hvarsb
      have hdrop : (sema.drop (countConsumes func a)).drop (countConsumes func b) =
          sema.drop (countConsumes func a + countConsumes func b) := by
        rw [List.drop_drop, Nat.add_comm]
      have htake : countVarNamed n (sema.take (countConsumes func a + countConsumes func b)) =
          countVarNamed n (sema.take (countConsumes func a)) +
            countVarNamed n ((sema.drop (countConsumes func a)).take (countConsumes func b)) := by
        rw [List.take_add, countVarNamed_append]
      by_cases hnp : isNoOp p = true
      · have hka : countConsumes func a = 0 := hnop1 hnp
        refine ⟨q, ?_, ?_, ?_, hnrq⟩
        · rw [← hdrop]
          simp [genConsumer, hok1, hok2, hnp, bind, Except.bind]
        · rw [htake, hacq2]
          have : countVarNamed n (sema.take (countConsumes func a)) = 0 := by
            rw [hka]
            simp [countVarNamed]
          omega
        · intro hq
          have := hnop2 hq
          omega
      · by_cases hnq : isNoOp q = true
        · have hkb : countConsumes func b = 0 := hnop2 hnq
          refine ⟨p, ?_, ?_, ?_, hnrp⟩
          · rw [← hdrop]
            simp [genConsumer, hok1, hok2, hnp, hnq, bind, Except.bind]
          · rw [htake, hacq1]
            have : countVarNamed n ((sema.drop (countConsumes func a)).take
                (countConsumes func b)) = 0 := by
              rw [hkb]
              simp [countVarNamed]
            omega
          · intro hp
            have := hnop1 hp
            omega
        · refine ⟨.block p q, ?_, ?_, ?_, ?_⟩
          · rw [← hdrop]
            simp [genConsumer, hok1, hok2, hnp, hnq, bind, Except.bind]
          · have hbq : acqCount n (Stmt.block p q) = acqCount n p + acqCount n q := rfl
            rw [hbq, htake, hacq1, hacq2]
          · intro hcontra
            simp [isNoOp] at hcontra
          · simp [noRealize, hnrp, hnrq]
  | fork a b iha ihb =>
      intro sema hna hnr hpu hlen hvars
      simp only [noAcquire, Bool.and_eq_true] at hna
      simp only [noRealize, Bool.and_eq_true] at hnr
      simp only [pcUnnested, Bool.and_eq_true] at hpu
      have hk : countConsumes func (.fork a b) =
          countConsumes func a + countConsumes func b := rfl
      rw [hk] at hlen ⊢
      have hlena : countConsumes func a ≤ sema.length := by omega
      obtain ⟨p, hok1, hacq1, hnop1, hnrp⟩ := iha sema hna.1 hnr.1 hpu.1 hlena hvars
      have hlenb : countConsumes func b ≤ (sema.drop (countConsumes func a)).length := by
        rw [List.length_drop]
        omega
      have hvarsb : ∀ e ∈ sema.drop (countConsumes func a), ∃ t m, e = Expr.var t m :=
        fun e he => hvars e (List.mem_of_mem_drop he)
      obtain ⟨q, hok2, hacq2, hnop2, hnrq⟩ := ihb _ hna.2 hnr.2 hpu.2 hlenb hvarsb
      have hdrop : (sema.drop (countConsumes func a)).drop (countConsumes func b) =
          sema.drop (countConsumes func a + countConsumes func b) := by
        rw [List.drop_drop, Nat.add_comm]
      have htake : countVarNamed n (sema.take (countConsumes func a + countConsumes func b)) =
          countVarNamed n (sema.take (countConsumes func a)) +
            countVarNamed n ((sema.drop (countConsumes func a)).take (countConsumes func b)) := by
        rw [List.take_add, countVarNamed_append]
      by_cases hnp : isNoOp p = true
      · have hka : countConsumes func a = 0 := hnop1 hnp
        refine ⟨q, ?_, ?_, ?_, hnrq⟩
        · rw [← hdrop]
          simp [genConsumer, hok1, hok2, hnp, bind, Except.bind]
        · rw [htake, hacq2]
          have : countVarNamed n (sema.take (countConsumes func a)) = 0 := by
            rw [hka]
            simp [countVarNamed]
          omega
        · intro hq
          have := hnop2 hq
          omega
      · by_cases hnq : isNoOp q = true
        · have hkb : countConsumes func b = 0 := hnop2 hnq
          refine ⟨p, ?_, ?_, ?_, hnrp⟩
          · rw [← hdrop]
            simp [genConsumer, hok1, hok2, hnp, hnq, bind, Except.bind]
          · rw [htake, hacq1]
            have : countVarNamed n ((sema.drop (countConsumes func a)).take
                (countConsumes func b)) = 0 := by
              rw [hkb]
              simp [countVarNamed]
            omega
          · intro hp
            have := hnop1 hp
            omega
        · refine ⟨.fork p q, ?_, ?_, ?_, ?_⟩
          · rw [← hdrop]
            simp [genConsumer, hok1, hok2, hnp, hnq, bind, Except.bind]
          · have hbq : acqCount n (Stmt.fork p q) = acqCount n p + acqCount n q := rfl
            rw [hbq, htake, hacq1, hacq2]
          · intro hcontra
            simp [isNoOp] at hcontra
          · simp [noRealize, hnrp, hnrq]
  | ifThenElse cnd t e iht ihe =>
      intro sema hna hnr hpu hlen hvars
      simp only [noAcquire, Bool.and_eq_true] at hna
      simp only [noRealize, Bool.and_eq_true] at hnr
      simp only [pcUnnested, Bool.and_eq_true] at hpu
      have hk : countConsumes func (.ifThenElse cnd t e) =
          countConsumes func t + countConsumes func e := rfl
      rw [hk] at hlen ⊢
      have hlena : countConsumes func t ≤ sema.length := by omega
      obtain ⟨p, hok1, hacq1, hnop1, hnrp⟩ := iht sema hna.1 hnr.1 hpu.1 hlena hvars
      have hlenb : countConsumes func e ≤ (sema.drop (countConsumes func t)).length := by
        rw [List.length_drop]
        omega
      have hvarsb : ∀ x ∈ sema.drop (countConsumes func t), ∃ ty m, x = Expr.var ty m :=
        fun x hx => hvars x (List.mem_of_mem_drop hx)
      obtain ⟨q, hok2, hacq2, hnop2, hnrq⟩ := ihe _ hna.2 hnr.2 hpu.2 hlenb hvarsb
      have hdrop : (sema.drop (countConsumes func t)).drop (countConsumes func e) =
          sema.drop (countConsumes func t + countConsumes func e) := by
        rw [List.drop_drop, Nat.add_comm]
      have htake : countVarNamed n (sema.take (countConsumes func t + countConsumes func e)) =
          countVarNamed n (sema.take (countConsumes func t)) +
            countVarNamed n ((sema.drop (countConsumes func t)).take (countConsumes func e)) := by
        rw [List.take_add, countVarNamed_append]
      by_cases hnpq : (isNoOp p && isNoOp q) = true
      · simp only [Bool.and_eq_true] at hnpq
        have hka : countConsumes func t = 0 := hnop1 hnpq.1
        have hkb : countConsumes func e = 0 := hnop2 hnpq.2
        refine ⟨p, ?_, ?_, ?_, hnrp⟩
        · rw [← hdrop]
          simp [genConsumer, hok1, hok2, hnpq.1, hnpq.2, bind, Except.bind]
        · rw [htake, hacq1, hka, hkb]
          simp [countVarNamed]
        · intro _
          omega
      · refine ⟨.ifThenElse cnd p q, ?_, ?_, ?_, ?_⟩
        · rw [← hdrop]
          simp only [genConsumer, hok1, hok2, bind, Except.bind, hnpq]
          simp [Bool.and_eq_true] at hnpq ⊢
        · have hbq : acqCount n (Stmt.ifThenElse cnd p q) = acqCount n p + acqCount n q := rfl
          rw [hbq, htake, hacq1, hacq2]
        · intro hcontra
          simp [isNoOp] at hcontra
        · simp [noRealize, hnrp, hnrq]

/-! ### Folding semaphores and the two fork halves -/

/-- The consumer generator only pops the semaphore stack: the resulting
stack is a suffix of the input stack. -/
theorem genConsumer_suffix (func : String) :
    ∀ (s : Stmt) (sema : List Expr) (c : Stmt) (sema' : List Expr),
      genConsumer func s sema = .ok (c, sema') → sema' <:+ sema := by
  intro s
  induction s with
  | producerConsumer n ip b ih =>
      intro sema c sema' h
      by_cases hn : n = func
      · cases hip : ip with
        | true =>
            simp only [genConsumer, hn, hip, if_true, if_pos] at h
            injection h with h
            rw [← (Prod.mk.injEq _ _ _ _).mp h |>.2]
        | false =>
            cases sema with
            | nil => simp [genConsumer, hn, hip] at h
            | cons s0 rest =>
                simp only [genConsumer, hn, hip] at h
                injection h with h
                rw [← (Prod.mk.injEq _ _ _ _).mp h |>.2]
                exact List.suffix_cons s0 rest
      · cases hb : genConsumer func b sema with
        | error err => simp [genConsumer, hn, hb, bind, Except.bind] at h
        | ok r =>
            rcases r with ⟨b', sema1⟩
            simp only [genConsumer, hn, if_neg hn, hb, bind, Except.bind] at h
            injection h with h
            rw [← (Prod.mk.injEq _ _ _ _).mp h |>.2]
            exact ih sema b' sema1 hb
  | acquire sm cnt b ih =>
      intro sema c sema' h
      cases sm with
      | var t v =>
          by_cases hfold : startsWith (func ++ ".folding_semaphore.") v = true
          · simp only [genConsumer, hfold, if_pos hfold] at h
            exact ih sema c sema' h
          · cases hb : genConsumer func b sema with
            | error err => simp [genConsumer, hfold, hb, bind, Except.bind] at h
            | ok r =>
                rcases r with ⟨b', sema1⟩
                simp only [genConsumer, hfold, if_neg hfold, hb, bind, Except.bind] at h
                injection h with h
                rw [← (Prod.mk.injEq _ _ _ _).mp h |>.2]
                exact ih sema b' sema1 hb
      | intLit m => simp [genConsumer] at h
      | letE n' v' b' => simp [genConsumer] at h
      | call t' n' a' ct' => simp [genConsumer] at h
  | letStmt n v b ih =>
      intro sema c sema' h
      cases hb : genConsumer func b sema with
      | error err => simp [genConsumer, hb, bind, Except.bind] at h
      | ok r =>
          rcases r with ⟨b', sema1⟩
          simp only [genConsumer, hb, bind, Except.bind] at h
          split at h <;>
            (injection h with h; rw [← (Prod.mk.injEq _ _ _ _).mp h |>.2];
              exact ih sema b' sema1 hb)
  | forS n mn ex ft d b ih =>
      intro sema c sema' h
      cases hb : genConsumer func b sema with
      | error err => simp [genConsumer, hb, bind, Except.bind] at h
      | ok r =>
          rcases r with ⟨b', sema1⟩
          simp only [genConsumer, hb, bind, Except.bind] at h
          split at h <;>
            (injection h with h; rw [← (Prod.mk.injEq _ _ _ _).mp h |>.2];
              exact ih sema b' sema1 hb)
  | realize n ts bds cnd b ih =>
      intro sema c sema' h
      cases hb : genConsumer func b sema with
      | error err => simp [genConsumer, hb, bind, Except.bind] at h
      | ok r =>
          rcases r with ⟨b', sema1⟩
          simp only [genConsumer, hb, bind, Except.bind] at h
          split at h <;>
            (injection h with h; rw [← (Prod.mk.injEq _ _ _ _).mp h |>.2];
              exact ih sema b' sema1 hb)
  | block a b iha ihb =>
      intro sema c sema' h
      cases ha : genConsumer func a sema with
      | error err => simp [genConsumer, ha, bind, Except.bind] at h
      | ok r =>
          rcases r with ⟨a', sema1⟩
          cases hb : genConsumer func b sema1 with
          | error err => simp [genConsumer, ha, hb, bind, Except.bind] at h
          | ok r2 =>
              rcases r2 with ⟨b', sema2⟩
              simp only [genConsumer, ha, hb, bind, Except.bind] at h
              have hsuf : sema2 <:+ sema :=
                (ihb sema1 b' sema2 hb).trans (iha sema a' sema1 ha)
              split at h <;>
                first
                  | (injection h with h; rw [← (Prod.mk.injEq _ _ _ _).mp h |>.2]; exact hsuf)
                  | (split at h <;>
                      (injection h with h; rw [← (Prod.mk.injEq _ _ _ _).mp h |>.2]; exact hsuf))
  | fork a b iha ihb =>
      intro sema c sema' h
      cases ha : genConsumer func a sema with
      | error err => simp [genConsumer, ha, bind, Except.bind] at h
      | ok r =>
          rcases r with ⟨a', sema1⟩
          cases hb : genConsumer func b sema1 with
          | error err => simp [genConsumer, ha, hb, bind, Except.bind] at h
          | ok r2 =>
              rcases r2 with ⟨b', sema2⟩
              simp only [genConsumer, ha, hb, bind, Except.bind] at h
              have hsuf : sema2 <:+ sema :=
                (ihb sema1 b' sema2 hb).trans (iha sema a' sema1 ha)
              split at h <;>
                first
                  | (injection h with h; rw [← (Prod.mk.injEq _ _ _ _).mp h |>.2]; exact hsuf)
                  | (split at h <;>
                      (injection h with h; rw [← (Prod.mk.injEq _ _ _ _).mp h |>.2]; exact hsuf))
  | ifThenElse cnd t e iht ihe =>
      intro sema c sema' h
      cases ht : genConsumer func t sema with
      | error err => simp [genConsumer, ht, bind, Except.bind] at h
      | ok r =>
          rcases r with ⟨t', sema1⟩
          cases he : genConsumer func e sema1 with
          | error err => simp [genConsumer, ht, he, bind, Except.bind] at h
          | ok r2 =>
              rcases r2 with ⟨e', sema2⟩
              simp only [genConsumer, ht, he, bind, Except.bind] at h
              have hsuf : sema2 <:+ sema :=
                (ihe sema1 e' sema2 he).trans (iht sema t' sema1 ht)
              split at h <;>
                (injection h with h; rw [← (Prod.mk.injEq _ _ _ _).mp h |>.2]; exact hsuf)
  | evaluate e =>
      intro sema c sema' h
      injection h with h
      rw [← (Prod.mk.injEq _ _ _ _).mp h |>.2]
  | provide n vals args =>
      intro sema c sema' h
      injection h with h
      rw [← (Prod.mk.injEq _ _ _ _).mp h |>.2]
  | assertStmt cnd m =>
      intro sema c sema' h
      injection h with h
      rw [← (Prod.mk.injEq _ _ _ _).mp h |>.2]
  | prefetchS n bds =>
      intro sema c sema' h
      injection h with h
      rw [← (Prod.mk.injEq _ _ _ _).mp h |>.2]

/-- When no folding-semaphore `Acquire` of `func` hides inside a consume
region of `func` and the semaphore stack holds no folding-named variables,
the consumer half `GenerateConsumerBody` produces is free of
folding-semaphore acquires: top-level ones are dropped, produce regions are
deleted whole. -/
theorem genConsumer_no_folding (func : String) :
    ∀ (s : Stmt) (sema : List Expr), noFoldingUnderConsume func s = true →
      (∀ e ∈ sema, isFoldingVar func e = false) →
      ∀ (c : Stmt) (sema' : List Expr), genConsumer func s sema = .ok (c, sema') →
        containsFoldingAcq func c = false := by
  intro s
  induction s with
  | producerConsumer n ip b ih =>
      intro sema hnf hsema c sema' h
      by_cases hn : n = func
      · cases hip : ip with
        | true =>
            simp only [genConsumer, hn, hip, if_true, if_pos] at h
            injection h with h
            rw [← (Prod.mk.injEq _ _ _ _).mp h |>.1]
            rfl
        | false =>
            cases sema with
            | nil => simp [genConsumer, hn, hip] at h
            | cons s0 rest =>
                simp only [genConsumer, hn, hip] at h
                injection h with h
                rw [← (Prod.mk.injEq _ _ _ _).mp h |>.1]
                have h0 : isFoldingVar func s0 = false := hsema s0 (List.mem_cons_self s0 rest)
                have hb : containsFoldingAcq func b = false := by
                  subst hn
                  simp only [noFoldingUnderConsume, hip] at hnf
                  simp only [and_true, if_pos] at hnf
                  simpa using hnf
                simp [containsFoldingAcq, h0, hb, hn, hip]
      · have hnf' : noFoldingUnderConsume func b = true := by
          simp only [noFoldingUnderConsume] at hnf
          have : ¬(n = func ∧ ip = false) := fun hc => hn hc.1
          rwa [if_neg this] at hnf
        cases hb : genConsumer func b sema with
        | error err => simp [genConsumer, hn, hb, bind, Except.bind] at h
        | ok r =>
            rcases r with ⟨b', sema1⟩
            simp only [genConsumer, hn, if_neg hn, hb, bind, Except.bind] at h
            injection h with h
            rw [← (Prod.mk.injEq _ _ _ _).mp h |>.1]
            simp [containsFoldingAcq, ih sema hnf' hsema b' sema1 hb]
  | acquire sm cnt b ih =>
      intro sema hnf hsema c sema' h
      have hnf' : noFoldingUnderConsume func b = true := by
        simpa [noFoldingUnderConsume] using hnf
      cases sm with
      | var t v =>
          by_cases hfold : startsWith (func ++ ".folding_semaphore.") v = true
          · simp only [genConsumer, hfold, if_pos hfold] at h
            exact ih sema hnf' hsema c sema' h
          · cases hb : genConsumer func b sema with
            | error err => simp [genConsumer, hfold, hb, bind, Except.bind] at h
            | ok r =>
                rcases r with ⟨b', sema1⟩
                simp only [genConsumer, hfold, if_neg hfold, hb, bind, Except.bind] at h
                injection h with h
                rw [← (Prod.mk.injEq _ _ _ _).mp h |>.1]
                have : isFoldingVar func (Expr.var t v) = false := by
                  simp [isFoldingVar, hfold]
                simp [containsFoldingAcq, this, ih sema hnf' hsema b' sema1 hb]
      | intLit m => simp [genConsumer] at h
      | letE n' v' b' => simp [genConsumer] at h
      | call t' n' a' ct' => simp [genConsumer] at h
  | letStmt n v b ih =>
      intro sema hnf hsema c sema' h
      have hnf' : noFoldingUnderConsume func b = true := by
        simpa [noFoldingUnderConsume] using hnf
      cases hb : genConsumer func b sema with
      | error err => simp [genConsumer, hb, bind, Except.bind] at h
      | ok r =>
          rcases r with ⟨b', sema1⟩
          have hcb := ih sema hnf' hsema b' sema1 hb
          simp only [genConsumer, hb, bind, Except.bind] at h
          split at h <;>
            (injection h with h; rw [← (Prod.mk.injEq _ _ _ _).mp h |>.1];
              simp [containsFoldingAcq, hcb])
  | forS n mn ex ft d b ih =>
      intro sema hnf hsema c sema' h
      have hnf' : noFoldingUnderConsume func b = true := by
        simpa [noFoldingUnderConsume] using hnf
      cases hb : genConsumer func b sema with
      | error err => simp [genConsumer, hb, bind, Except.bind] at h
      | ok r =>
          rcases r with ⟨b', sema1⟩
          have hcb := ih sema hnf' hsema b' sema1 hb
          simp only [genConsumer, hb, bind, Except.bind] at h
          split at h <;>
            (injection h with h; rw [← (Prod.mk.injEq _ _ _ _).mp h |>.1];
              simp [containsFoldingAcq, hcb])
  | realize n ts bds cnd b ih =>
      intro sema hnf hsema c sema' h
      have hnf' : noFoldingUnderConsume func b = true := by
        simpa [noFoldingUnderConsume] using hnf
      cases hb : genConsumer func b sema with
      | error err => simp [genConsumer, hb, bind, Except.bind] at h
      | ok r =>
          rcases r with ⟨b', sema1⟩
          have hcb := ih sema hnf' hsema b' sema1 hb
          simp only [genConsumer, hb, bind, Except.bind] at h
          split at h <;>
            (injection h with h; rw [← (Prod.mk.injEq _ _ _ _).mp h |>.1];
              simp [containsFoldingAcq, hcb])
  | block a b iha ihb =>
      intro sema hnf hsema c sema' h
      simp only [noFoldingUnderConsume, Bool.and_eq_true] at hnf
      cases ha : genConsumer func a sema with
      | error err => simp [genConsumer, ha, bind, Except.bind] at h
      | ok r =>
          rcases r with ⟨a', sema1⟩
          cases hb : genConsumer func b sema1 with
          | error err => simp [genConsumer, ha, hb, bind, Except.bind] at h
          | ok r2 =>
              rcases r2 with ⟨b', sema2⟩
              have hsema1 : ∀ e ∈ sema1, isFoldingVar func e = false := fun e he =>
                hsema e ((genConsumer_suffix func a sema a' sema1 ha).subset he)
              have hca := iha sema hnf.1 hsema a' sema1 ha
              have hcb := ihb sema1 hnf.2 hsema1 b' sema2 hb
              simp only [genConsumer, ha, hb, bind, Except.bind] at h
              split at h <;>
                first
                  | (injection h with h; rw [← (Prod.mk.injEq _ _ _ _).mp h |>.1];
                      simp [containsFoldingAcq, hca, hcb])
                  | (split at h <;>
                      (injection h with h; rw [← (Prod.mk.injEq _ _ _ _).mp h |>.1];
                        simp [containsFoldingAcq, hca, hcb]))
  | fork a b iha ihb =>
      intro sema hnf hsema c sema' h
      simp only [noFoldingUnderConsume, Bool.and_eq_true] at hnf
      cases ha : genConsumer func a sema with
      | error err => simp [genConsumer, ha, bind, Except.bind] at h
      | ok r =>
          rcases r with ⟨a', sema1⟩
          cases hb : genConsumer func b sema1 with
          | error err => simp [genConsumer, ha, hb, bind, Except.bind] at h
          | ok r2 =>
              rcases r2 with ⟨b', sema2⟩
              have hsema1 : ∀ e ∈ sema1, isFoldingVar func e = false := fun e he =>
                hsema e ((genConsumer_suffix func a sema a' sema1 ha).subset he)
              have hca := iha sema hnf.1 hsema a' sema1 ha
              have hcb := ihb sema1 hnf.2 hsema1 b' sema2 hb
              simp only [genConsumer, ha, hb, bind, Except.bind] at h
              split at h <;>
                first
                  | (injection h with h; rw [← (Prod.mk.injEq _ _ _ _).mp h |>.1];
                      simp [containsFoldingAcq, hca, hcb])
                  | (split at h <;>
                      (injection h with h; rw [← (Prod.mk.injEq _ _ _ _).mp h |>.1];
                        simp [containsFoldingAcq, hca, hcb]))
  | ifThenElse cnd t e iht ihe =>
      intro sema hnf hsema c sema' h
      simp only [noFoldingUnderConsume, Bool.and_eq_true] at hnf
      cases ht : genConsumer func t sema with
      | error err => simp [genConsumer, ht, bind, Except.bind] at h
      | ok r =>
          rcases r with ⟨t', sema1⟩
          cases he : genConsumer func e sema1 with
          | error err => simp [genConsumer, ht, he, bind, Except.bind] at h
          | ok r2 =>
              rcases r2 with ⟨e', sema2⟩
              have hsema1 : ∀ x ∈ sema1, isFoldingVar func x = false := fun x hx =>
                hsema x ((genConsumer_suffix func t sema t' sema1 ht).subset hx)
              have hct := iht sema hnf.1 hsema t' sema1 ht
              have hce := ihe sema1 hnf.2 hsema1 e' sema2 he
              simp only [genConsumer, ht, he, bind, Except.bind] at h
              split at h <;>
                (injection h with h; rw [← (Prod.mk.injEq _ _ _ _).mp h |>.1];
                  simp [containsFoldingAcq, hct, hce])
  | evaluate e =>
      intro sema _ _ c sema' h
      injection h with h
      rw [← (Prod.mk.injEq _ _ _ _).mp h |>.1]
      rfl
  | provide n vals args =>
      intro sema _ _ c sema' h
      injection h with h
      rw [← (Prod.mk.injEq _ _ _ _).mp h |>.1]
      rfl
  | assertStmt cnd m =>
      intro sema _ _ c sema' h
      injection h with h
      rw [← (Prod.mk.injEq _ _ _ _).mp h |>.1]
      rfl
  | prefetchS n bds =>
      intro sema _ _ c sema' h
      injection h with h
      rw [← (Prod.mk.injEq _ _ _ _).mp h |>.1]
      rfl

/-- Appending trailing releases keeps every subtree of the body. -/
theorem containsSub_drain (a : Stmt) :
    ∀ (sema : List Expr) (b : Stmt), containsSub a b = true →
      containsSub a (drainReleases b sema) = true := by
  intro sema
  induction sema with
  | nil => intro b h; exact h
  | cons v rest ih =>
      intro b h
      exact ih _ (by simp [containsSub, h])

/-- A subtree of some produce-node body is in particular a subtree. -/
theorem inProduceBody_containsSub (func : String) (a : Stmt) :
    ∀ s : Stmt, inProduceBody func a s = true → containsSub a s = true := by
  intro s
  induction s with
  | producerConsumer n ip b ih =>
      intro h
      simp only [inProduceBody, Bool.or_eq_true, Bool.and_eq_true] at h
      rcases h with h | h
      · simp [containsSub, h.2]
      · simp [containsSub, ih h]
  | letStmt n v b ih =>
      intro h
      simp only [inProduceBody] at h
      simp [containsSub, ih h]
  | block x y ihx ihy =>
      intro h
      simp only [inProduceBody, Bool.or_eq_true] at h
      rcases h with h | h
      · simp [containsSub, ihx h]
      · simp [containsSub, ihy h]
  | forS n mn ex ft d b ih =>
      intro h
      simp only [inProduceBody] at h
      simp [containsSub, ih h]
  | realize n ts bds c b ih =>
      intro h
      simp only [inProduceBody] at h
      simp [containsSub, ih h]
  | fork x y ihx ihy =>
      intro h
      simp only [inProduceBody, Bool.or_eq_true] at h
      rcases h with h | h
      · simp [containsSub, ihx h]
      · simp [containsSub, ihy h]
  | acquire sm c b ih =>
      intro h
      simp only [inProduceBody] at h
      simp [containsSub, ih h]
  | ifThenElse c t e iht ihe =>
      intro h
      simp only [inProduceBody, Bool.or_eq_true] at h
      rcases h with h | h
      · simp [containsSub, iht h]
      · simp [containsSub, ihe h]
  | evaluate e => intro h; simp [inProduceBody] at h
  | provide n vals args => intro h; simp [inProduceBody] at h
  | assertStmt c m => intro h; simp [inProduceBody] at h
  | prefetchS n bds => intro h; simp [inProduceBody] at h

/-- The produce node keeps its body verbatim (releases appended around it),
and the producer generator keeps the produce node on every path: any subtree
of a produce-node body of the input survives in the producer half, which is
in particular not a no-op. -/
theorem genProducer_preserves (func : String) (a : Stmt) :
    ∀ (s : Stmt) (sema : List Expr) (st : PState) (p : Stmt)
      (sema' : List Expr) (st' : PState),
      genProducer func s sema st = .ok (p, sema', st') →
      inProduceBody func a s = true →
      containsSub a p = true ∧ isNoOp p = false := by
  intro s
  induction s with
  | producerConsumer n ip b ih =>
      intro sema st p sema' st' h hin
      by_cases hni : n = func ∧ ip
      · cases sema with
        | nil => simp [genProducer, hni] at h
        | cons v rest =>
            simp only [genProducer, hni, if_pos] at h
            injection h with h
            have hp := congrArg Prod.fst h
            simp only at hp
            subst hp
            have hsub : containsSub a b = true := by
              simp only [inProduceBody, Bool.or_eq_true, Bool.and_eq_true] at hin
              rcases hin with h' | h'
              · exact h'.2
              · exact inProduceBody_containsSub func a b h'
            exact ⟨by simp [containsSub, containsSub_drain a (v :: rest) b hsub], rfl⟩
      · have hin' : inProduceBody func a b = true := by
          simp only [inProduceBody, Bool.or_eq_true, Bool.and_eq_true,
            decide_eq_true_eq] at hin
          rcases hin with h' | h'
          · exact absurd ⟨h'.1.1, h'.1.2⟩ hni
          · exact h'
        cases hb : genProducer func b sema st with
        | error err => simp [genProducer, hni, hb, bind, Except.bind] at h
        | ok r =>
            rcases r with ⟨b', sema1, st1⟩
            rcases ih sema st b' sema1 st1 hb hin' with ⟨hcb, hnb⟩
            simp only [genProducer, hni, if_neg hni, hb, bind, Except.bind, hnb,
              Bool.false_or] at h
            by_cases hip : ip = true
            · rw [hip] at h
              simp only [if_true, if_pos] at h
              injection h with h
              have hp := congrArg Prod.fst h
              simp only at hp
              subst hp
              exact ⟨hcb, hnb⟩
            · have : ip = false := by simp at hip; exact hip
              rw [this] at h
              simp only [if_false, Bool.false_eq_true] at h
              injection h with h
              have hp := congrArg Prod.fst h
              simp only at hp
              subst hp
              exact ⟨by simp [containsSub, hcb], rfl⟩
  | letStmt n v b ih =>
      intro sema st p sema' st' h hin
      simp only [inProduceBody] at hin
      cases hb : genProducer func b sema st with
      | error err => simp [genProducer, hb, bind, Except.bind] at h
      | ok r =>
          rcases r with ⟨b', sema1, st1⟩
          rcases ih sema st b' sema1 st1 hb hin with ⟨hcb, hnb⟩
          simp only [genProducer, hb, bind, Except.bind, hnb, Bool.false_eq_true,
            if_false] at h
          injection h with h
          have hp := congrArg Prod.fst h
          simp only at hp
          subst hp
          exact ⟨by simp [containsSub, hcb], rfl⟩
  | forS n mn ex ft d b ih =>
      intro sema st p sema' st' h hin
      simp only [inProduceBody] at hin
      cases hb : genProducer func b sema st with
      | error err => simp [genProducer, hb, bind, Except.bind] at h
      | ok r =>
          rcases r with ⟨b', sema1, st1⟩
          rcases ih sema st b' sema1 st1 hb hin with ⟨hcb, hnb⟩
          simp only [genProducer, hb, bind, Except.bind, hnb, Bool.false_eq_true,
            if_false] at h
          injection h with h
          have hp := congrArg Prod.fst h
          simp only at hp
          subst hp
          exact ⟨by simp [containsSub, hcb], rfl⟩
  | realize n ts bds c b ih =>
      intro sema st p sema' st' h hin
      simp only [inProduceBody] at hin
      cases hb : genProducer func b sema st with
      | error err => simp [genProducer, hb, bind, Except.bind] at h
      | ok r =>
          rcases r with ⟨b', sema1, st1⟩
          rcases ih sema st b' sema1 st1 hb hin with ⟨hcb, hnb⟩
          simp only [genProducer, hb, bind, Except.bind, hnb, Bool.false_eq_true,
            if_false] at h
          injection h with h
          have hp := congrArg Prod.fst h
          simp only at hp
          subst hp
          exact ⟨by simp [containsSub, hcb], rfl⟩
  | acquire sm cnt b ih =>
      intro sema st p sema' st' h hin
      simp only [inProduceBody] at hin
      cases hb : genProducer func b sema st with
      | error err => simp [genProducer, hb, bind, Except.bind] at h
      | ok r =>
          rcases r with ⟨b', sema1, st1⟩
          rcases ih sema st b' sema1 st1 hb hin with ⟨hcb, hnb⟩
          cases sm with
          | var t v =>
              simp only [genProducer, hb, bind, Except.bind, hnb, Bool.false_eq_true,
                if_false] at h
              by_cases hfold : startsWith (func ++ ".folding_semaphore.") v = true
              · rw [if_pos hfold] at h
                injection h with h
                have hp := congrArg Prod.fst h
                simp only at hp
                subst hp
                exact ⟨by simp [containsSub, hcb], rfl⟩
              · rw [if_neg hfold] at h
                injection h with h
                have hp := congrArg Prod.fst h
                simp only at hp
                subst hp
                exact ⟨by simp [containsSub, hcb], rfl⟩
          | intLit m => simp [genProducer, hb, bind, Except.bind] at h
          | letE n' v' b2 => simp [genProducer, hb, bind, Except.bind] at h
          | call t' n' a' ct' => simp [genProducer, hb, bind, Except.bind] at h
  | block x y ihx ihy =>
      intro sema st p sema' st' h hin
      cases hx : genProducer func x sema st with
      | error err => simp [genProducer, hx, bind, Except.bind] at h
      | ok r =>
          rcases r with ⟨x', sema1, st1⟩
          cases hy : genProducer func y sema1 st1 with
          | error err => simp [genProducer, hx, hy, bind, Except.bind] at h
          | ok r2 =>
              rcases r2 with ⟨y', sema2, st2⟩
              simp only [genProducer, hx, hy, bind, Except.bind] at h
              simp only [inProduceBody, Bool.or_eq_true] at hin
              rcases hin with hin | hin
              · rcases ihx sema st x' sema1 st1 hx hin with ⟨hcx, hnx⟩
                rw [hnx] at h
                simp only [Bool.false_eq_true, if_false] at h
                split at h <;>
                  (injection h with h;
                    have hp := congrArg Prod.fst h; simp only at hp; subst hp)
                · exact ⟨hcx, hnx⟩
                · exact ⟨by simp [containsSub, hcx], rfl⟩
              · rcases ihy sema1 st1 y' sema2 st2 hy hin with ⟨hcy, hny⟩
                rw [hny] at h
                split at h
                · injection h with h
                  have hp := congrArg Prod.fst h
                  simp only at hp
                  subst hp
                  exact ⟨hcy, hny⟩
                · simp only [Bool.false_eq_true, if_false] at h
                  injection h with h
                  have hp := congrArg Prod.fst h
                  simp only at hp
                  subst hp
                  exact ⟨by simp [containsSub, hcy], rfl⟩
  | fork x y ihx ihy =>
      intro sema st p sema' st' h hin
      cases hx : genProducer func x sema st with
      | error err => simp [genProducer, hx, bind, Except.bind] at h
      | ok r =>
          rcases r with ⟨x', sema1, st1⟩
          cases hy : genProducer func y sema1 st1 with
          | error err => simp [genProducer, hx, hy, bind, Except.bind] at h
          | ok r2 =>
              rcases r2 with ⟨y', sema2, st2⟩
              simp only [genProducer, hx, hy, bind, Except.bind] at h
              simp only [inProduceBody, Bool.or_eq_true] at hin
              rcases hin with hin | hin
              · rcases ihx sema st x' sema1 st1 hx hin with ⟨hcx, hnx⟩
                rw [hnx] at h
                simp only [Bool.false_eq_true, if_false] at h
                split at h <;>
                  (injection h with h;
                    have hp := congrArg Prod.fst h; simp only at hp; subst hp)
                · exact ⟨hcx, hnx⟩
                · exact ⟨by simp [containsSub, hcx], rfl⟩
              · rcases ihy sema1 st1 y' sema2 st2 hy hin with ⟨hcy, hny⟩
                rw [hny] at h
                split at h
                · injection h with h
                  have hp := congrArg Prod.fst h
                  simp only at hp
                  subst hp
                  exact ⟨hcy, hny⟩
                · simp only [Bool.false_eq_true, if_false] at h
                  injection h with h
                  have hp := congrArg Prod.fst h
                  simp only at hp
                  subst hp
                  exact ⟨by simp [containsSub, hcy], rfl⟩
  | ifThenElse c t e iht ihe =>
      intro sema st p sema' st' h hin
      cases ht : genProducer func t sema st with
      | error err => simp [genProducer, ht, bind, Except.bind] at h
      | ok r =>
          rcases r with ⟨t', sema1, st1⟩
          cases he : genProducer func e sema1 st1 with
          | error err => simp [genProducer, ht, he, bind, Except.bind] at h
          | ok r2 =>
              rcases r2 with ⟨e', sema2, st2⟩
              simp only [genProducer, ht, he, bind, Except.bind] at h
              simp only [inProduceBody, Bool.or_eq_true] at hin
              rcases hin with hin | hin
              · rcases iht sema st t' sema1 st1 ht hin with ⟨hct, hnt⟩
                rw [hnt] at h
                simp only [Bool.false_and, Bool.false_eq_true, if_false] at h
                injection h with h
                have hp := congrArg Prod.fst h
                simp only at hp
                subst hp
                exact ⟨by simp [containsSub, hct], rfl⟩
              · rcases ihe sema1 st1 e' sema2 st2 he hin with ⟨hce, hne⟩
                rw [hne] at h
                simp only [Bool.and_false, Bool.false_eq_true, if_false] at h
                injection h with h
                have hp := congrArg Prod.fst h
                simp only at hp
                subst hp
                exact ⟨by simp [containsSub, hce], rfl⟩
  | evaluate e2 => intro sema st p sema' st' h hin; simp [inProduceBody] at hin
  | provide n vals args => intro sema st p sema' st' h hin; simp [inProduceBody] at hin
  | assertStmt c m => intro sema st p sema' st' h hin; simp [inProduceBody] at hin
  | prefetchS n bds => intro sema st p sema' st' h hin; simp [inProduceBody] at hin

/-! ### Identity lemmas for the no-async round trip -/

/-- `erasePC` does not change whether a tree contains `Acquire` nodes. -/
theorem noAcquire_erasePC : ∀ s : Stmt, noAcquire (erasePC s) = noAcquire s := by
  intro s
  induction s <;> simp [erasePC, noAcquire, *]

/-- `erasePC` does not change whether a tree contains `Fork` nodes. -/
theorem noFork_erasePC : ∀ s : Stmt, noFork (erasePC s) = noFork s := by
  intro s
  induction s <;> simp [erasePC, noFork, *]

/-- `erasePC` does not change the calls a tree contains. -/
theorem hasCall_erasePC (n : String) :
    ∀ s : Stmt, hasCall n (erasePC s) = hasCall n s := by
  intro s
  induction s <;> simp [erasePC, hasCall, *]

/-- `erasePC` does not change the `Realize` nodes a tree contains. -/
theorem allRealizeNonAsync_erasePC (env : String → Option Bool) :
    ∀ s : Stmt, allRealizeNonAsync env (erasePC s) = allRealizeNonAsync env s := by
  intro s
  induction s <;> simp [erasePC, allRealizeNonAsync, *]

/-- `ForkAsyncProducers` is the identity on trees whose `Realize` nodes all
resolve to non-async stages (regardless of the recursion callback). -/
theorem forkGo_id_of_nonAsync
    (rec : Stmt → PState → Except PassErr (Stmt × PState)) (env : String → Option Bool) :
    ∀ s : Stmt, allRealizeNonAsync env s = true →
      ∀ st : PState, forkGo rec env s st = .ok (s, st) := by
  intro s
  induction s with
  | realize n ts bds c b ih =>
      intro h st
      simp only [allRealizeNonAsync, Bool.and_eq_true, beq_iff_eq] at h
      simp [forkGo, h.1, ih h.2, bind, Except.bind]
  | letStmt n v b ih =>
      intro h st
      simp only [allRealizeNonAsync] at h
      simp [forkGo, ih h, bind, Except.bind]
  | block a b iha ihb =>
      intro h st
      simp only [allRealizeNonAsync, Bool.and_eq_true] at h
      simp [forkGo, iha h.1, ihb h.2, bind, Except.bind]
  | forS n mn ex ft d b ih =>
      intro h st
      simp only [allRealizeNonAsync] at h
      simp [forkGo, ih h, bind, Except.bind]
  | producerConsumer n ip b ih =>
      intro h st
      simp only [allRealizeNonAsync] at h
      simp [forkGo, ih h, bind, Except.bind]
  | fork a b iha ihb =>
      intro h st
      simp only [allRealizeNonAsync, Bool.and_eq_true] at h
      simp [forkGo, iha h.1, ihb h.2, bind, Except.bind]
  | acquire sm c b ih =>
      intro h st
      simp only [allRealizeNonAsync] at h
      simp [forkGo, ih h, bind, Except.bind]
  | ifThenElse c t e iht ihe =>
      intro h st
      simp only [allRealizeNonAsync, Bool.and_eq_true] at h
      simp [forkGo, iht h.1, ihe h.2, bind, Except.bind]
  | evaluate e => intro _ st; rfl
  | provide n vals args => intro _ st; rfl
  | assertStmt c m => intro _ st; rfl
  | prefetchS n bds => intro _ st; rfl

/-- `ExpandAcquireNodes` is the identity on acquire-free trees, at every
fuel. -/
theorem eaMutateF_id_of_noAcquire :
    ∀ (fuel : Nat) (s : Stmt), noAcquire s = true → eaMutateF fuel s = s := by
  intro fuel
  induction fuel with
  | zero => intro s _; rfl
  | succ m ih =>
      intro s h
      cases s with
      | block a b =>
          simp only [noAcquire, Bool.and_eq_true] at h
          simp only [eaMutateF, ih a h.1, ih b h.2]
          cases a <;> first | rfl | (simp [noAcquire] at h)
      | realize n ts bds c b =>
          simp only [noAcquire] at h
          simp only [eaMutateF, ih b h]
          cases b <;> first | rfl | (simp [noAcquire] at h)
      | letStmt n v b =>
          simp only [noAcquire] at h
          simp only [eaMutateF, ih b h]
          cases b <;> first | rfl | (simp [noAcquire] at h)
      | producerConsumer n ip b =>
          simp only [noAcquire] at h
          simp only [eaMutateF, ih b h]
          cases b <;> first | rfl | (simp [noAcquire] at h)
      | forS n mn ex ft d b =>
          simp only [noAcquire] at h
          simp [eaMutateF, ih b h]
      | fork a b =>
          simp only [noAcquire, Bool.and_eq_true] at h
          simp [eaMutateF, ih a h.1, ih b h.2]
      | acquire sm c b => simp [noAcquire] at h
      | ifThenElse c t e =>
          simp only [noAcquire, Bool.and_eq_true] at h
          simp [eaMutateF, ih t h.1, ih e h.2]
      | evaluate e => rfl
      | provide n vals args => rfl
      | assertStmt c m => rfl
      | prefetchS n bds => rfl

/-- `TightenForkNodes` (outside any fork) is the identity on fork-free
trees. -/
theorem tfMutate_id_of_noFork :
    ∀ s : Stmt, noFork s = true → tfMutate false s = s := by
  intro s
  induction s with
  | fork a b iha ihb => intro h; simp [noFork] at h
  | letStmt n v b ih =>
      intro h
      simp only [noFork] at h
      simp [tfMutate, ih h]
  | realize n ts bds c b ih =>
      intro h
      simp only [noFork] at h
      simp [tfMutate, ih h]
  | block a b iha ihb =>
      intro h
      simp only [noFork, Bool.and_eq_true] at h
      simp [tfMutate, iha h.1, ihb h.2]
  | forS n mn ex ft d b ih =>
      intro h
      simp only [noFork] at h
      simp [tfMutate, ih h]
  | producerConsumer n ip b ih =>
      intro h
      simp only [noFork] at h
      simp [tfMutate, ih h]
  | acquire sm c b ih =>
      intro h
      simp only [noFork] at h
      simp [tfMutate, ih h]
  | ifThenElse c t e iht ihe =>
      intro h
      simp only [noFork, Bool.and_eq_true] at h
      simp [tfMutate, iht h.1, ihe h.2]
  | evaluate e => intro _; rfl
  | provide n vals args => intro _; rfl
  | assertStmt c m => intro _; rfl
  | prefetchS n bds => intro _; rfl

/-- `InitializeSemaphores`' expression traversal is the identity when the
expression contains no `halide_make_semaphore` call. -/
theorem initExpr_id_of_no_mkSem :
    ∀ e : Expr, hasCallE "halide_make_semaphore" e = false → initExpr e = .ok e
  | .intLit _, _ => rfl
  | .var _ _, _ => rfl
  | .letE n v b, h => by
      simp only [hasCallE, Bool.or_eq_false_iff] at h
      simp [initExpr, initExpr_id_of_no_mkSem v h.1, initExpr_id_of_no_mkSem b h.2,
        bind, Except.bind]
  | .call t cn args ct, h => by
      simp only [hasCallE, Bool.or_eq_false_iff] at h
      have hcn : ¬ cn = "halide_make_semaphore" := by
        intro hc
        simp [hc] at h
      simp [initExpr, hcn]

/-- `initExprList` is the identity on make-semaphore-free argument lists. -/
theorem initExprList_id_of_no_mkSem :
    ∀ es : List Expr, hasCallEList "halide_make_semaphore" es = false →
      initExprList es = .ok es := by
  intro es
  induction es with
  | nil => intro _; rfl
  | cons a as ih =>
      intro h
      simp only [hasCallEList, Bool.or_eq_false_iff] at h
      simp [initExprList, initExpr_id_of_no_mkSem a h.1, ih h.2, bind, Except.bind]

/-- `initExprBounds` is the identity on make-semaphore-free bounds lists. -/
theorem initExprBounds_id_of_no_mkSem :
    ∀ bds : List (Expr × Expr),
      (bds.any fun p => hasCallE "halide_make_semaphore" p.1 ||
        hasCallE "halide_make_semaphore" p.2) = false →
      initExprBounds bds = .ok bds := by
  intro bds
  induction bds with
  | nil => intro _; rfl
  | cons p ps ih =>
      intro h
      simp only [List.any_cons, Bool.or_eq_false_iff] at h
      obtain ⟨⟨h1, h2⟩, h3⟩ := h
      cases p with
      | mk a b =>
          simp only at h1 h2
          simp [initExprBounds, initExpr_id_of_no_mkSem a h1,
            initExpr_id_of_no_mkSem b h2, ih h3, bind, Except.bind]

/-- Whatever `peelLets` returns as the innermost expression is itself a call
of the original expression: its call name occurs in the expression. -/
theorem peelLets_hasCall :
    ∀ (v : Expr) (ls : List (String × Expr)) (t : Ty) (cn : String)
      (args : List Expr) (ct : CallType),
      peelLets v = (ls, .call t cn args ct) → hasCallE cn v = true
  | .intLit m, ls, t, cn, args, ct, h => by simp [peelLets] at h
  | .var t' m, ls, t, cn, args, ct, h => by simp [peelLets] at h
  | .letE n v b, ls, t, cn, args, ct, h => by
      simp only [peelLets, Prod.mk.injEq] at h
      have hb := peelLets_hasCall b (peelLets b).1 t cn args ct (by
        rw [← h.2])
      simp [hasCallE, hb]
  | .call t' cn' args' ct', ls, t, cn, args, ct, h => by
      simp only [peelLets, Prod.mk.injEq] at h
      have hcn : cn' = cn := by
        have h2 := h.2
        injection h2
      simp [hasCallE, hcn]

/-- `InitializeSemaphores` is the identity (and raises nothing) on trees
without `halide_make_semaphore` calls. -/
theorem initSem_id_of_no_mkSem :
    ∀ (s : Stmt) (fuel : Nat), hasCall "halide_make_semaphore" s = false →
      initSem fuel s = .ok s := by
  intro s
  induction s with
  | letStmt n v b ih =>
      intro fuel h
      simp only [hasCall, Bool.or_eq_false_iff] at h
      have hbody := ih fuel h.2
      by_cases hty : v.ty = Ty.handle
      · rcases hpeel : peelLets v with ⟨lets, inner⟩
        cases inner with
        | call t cn args ct =>
            have hcn : cn ≠ "halide_make_semaphore" := by
              intro hc
              have := peelLets_hasCall v lets t cn args ct hpeel
              rw [hc] at this
              rw [this] at h
              exact absurd h.1 (by simp)
            simp [initSem, hbody, hty, hpeel, hcn, bind, Except.bind]
        | intLit m => simp [initSem, hbody, hty, hpeel, bind, Except.bind]
        | var t m => simp [initSem, hbody, hty, hpeel, bind, Except.bind]
        | letE n' v' b' => simp [initSem, hbody, hty, hpeel, bind, Except.bind]
      · simp [initSem, hbody, hty, bind, Except.bind]
  | block a b iha ihb =>
      intro fuel h
      simp only [hasCall, Bool.or_eq_false_iff] at h
      simp [initSem, iha fuel h.1, ihb fuel h.2, bind, Except.bind]
  | forS n mn ex ft d b ih =>
      intro fuel h
      simp only [hasCall, Bool.or_eq_false_iff] at h
      obtain ⟨⟨h1, h2⟩, h3⟩ := h
      simp [initSem, initExpr_id_of_no_mkSem mn h1, initExpr_id_of_no_mkSem ex h2,
        ih fuel h3, bind, Except.bind]
  | realize n ts bds c b ih =>
      intro fuel h
      simp only [hasCall, Bool.or_eq_false_iff] at h
      obtain ⟨⟨h1, h2⟩, h3⟩ := h
      simp [initSem, initExprBounds_id_of_no_mkSem bds h1,
        initExpr_id_of_no_mkSem c h2, ih fuel h3, bind, Except.bind]
  | producerConsumer n ip b ih =>
      intro fuel h
      simp only [hasCall] at h
      simp [initSem, ih fuel h, bind, Except.bind]
  | fork a b iha ihb =>
      intro fuel h
      simp only [hasCall, Bool.or_eq_false_iff] at h
      simp [initSem, iha fuel h.1, ihb fuel h.2, bind, Except.bind]
  | acquire sm c b ih =>
      intro fuel h
      simp only [hasCall, Bool.or_eq_false_iff] at h
      obtain ⟨⟨h1, h2⟩, h3⟩ := h
      simp [initSem, initExpr_id_of_no_mkSem sm h1, initExpr_id_of_no_mkSem c h2,
        ih fuel h3, bind, Except.bind]
  | evaluate e =>
      intro fuel h
      simp only [hasCall] at h
      simp [initSem, initExpr_id_of_no_mkSem e h, bind, Except.bind]
  | provide n vals args =>
      intro fuel h
      simp only [hasCall, Bool.or_eq_false_iff] at h
      simp [initSem, initExprList_id_of_no_mkSem vals h.1,
        initExprList_id_of_no_mkSem args h.2, bind, Except.bind]
  | assertStmt c m =>
      intro fuel h
      simp only [hasCall, Bool.or_eq_false_iff] at h
      simp [initSem, initExpr_id_of_no_mkSem c h.1, initExpr_id_of_no_mkSem m h.2,
        bind, Except.bind]
  | prefetchS n bds =>
      intro fuel h
      simp only [hasCall] at h
      simp [initSem, initExprBounds_id_of_no_mkSem bds h, bind, Except.bind]
  | ifThenElse c t e iht ihe =>
      intro fuel h
      simp only [hasCall, Bool.or_eq_false_iff] at h
      obtain ⟨⟨h1, h2⟩, h3⟩ := h
      simp [initSem, initExpr_id_of_no_mkSem c h1, iht fuel h2, ihe fuel h3,
        bind, Except.bind]

/-- Claim C6 (counterexample): on a tree with no async stages (indeed no
`Realize` at all) but with an `Acquire` heading a `Block`, the full pass
rewrites the tree (the acquire absorbs the trailing statement) even though
`TightenConsumeRegions` is the identity here, contradicting "all other
stages preserve structure". -/
theorem c6_acquire_rewrites_without_async :
    fullPass envNoAsync 3 inAcquireNoAsync =
      .ok (.acquire (.var .handle "s") (.intLit 1)
        (.block (.provide "g" [.intLit 1] [.intLit 0]) (.provide "h" [.intLit 2] [.intLit 0]))) ∧
    tcMutate inAcquireNoAsync = inAcquireNoAsync ∧
    fullPass envNoAsync 3 inAcquireNoAsync ≠ .ok inAcquireNoAsync := by decide

/-- Claim C6 (amended): on trees with no async stage whose `Realize` names
all resolve in `env`, and which contain no `Acquire`, no `Fork`, and no
`halide_make_semaphore` call (each of which the later stages rewrite even
without async stages — see the counterexample), the full pipeline returns
exactly `TightenConsumeRegions`' output: stages 2–5 are identities there. -/
theorem c6_amended_no_async_round_trip :
    ∀ (env : String → Option Bool) (s : Stmt) (fuel : Nat),
      allRealizeNonAsync env s = true → noAcquire s = true → noFork s = true →
      hasCall "halide_make_semaphore" s = false →
      fullPass env (fuel + 1) s = .ok (tcMutate s) := by
  intro env s fuel h1 h2 h3 h4
  have e1 : allRealizeNonAsync env (tcMutate s) = true := by
    rw [← allRealizeNonAsync_erasePC env (tcMutate s), erasePC_tcMutate,
      allRealizeNonAsync_erasePC]
    exact h1
  have e2 : noAcquire (tcMutate s) = true := by
    rw [← noAcquire_erasePC (tcMutate s), erasePC_tcMutate, noAcquire_erasePC]
    exact h2
  have e3 : noFork (tcMutate s) = true := by
    rw [← noFork_erasePC (tcMutate s), erasePC_tcMutate, noFork_erasePC]
    exact h3
  have e4 : hasCall "halide_make_semaphore" (tcMutate s) = false := by
    rw [← hasCall_erasePC "halide_make_semaphore" (tcMutate s), erasePC_tcMutate,
      hasCall_erasePC]
    exact h4
  have hfork : forkStage env (fuel + 1) (tcMutate s) ⟨0, []⟩ = .ok (tcMutate s, ⟨0, []⟩) :=
    forkGo_id_of_nonAsync (forkStage env fuel) env (tcMutate s) e1 ⟨0, []⟩
  have htf : tfMutate false (tcMutate s) = tcMutate s := tfMutate_id_of_noFork (tcMutate s) e3
  have hinit : initSem (fuel + 1) (tcMutate s) = .ok (tcMutate s) :=
    initSem_id_of_no_mkSem (tcMutate s) (fuel + 1) e4
  simp only [fullPass, hfork, bind, Except.bind]
  rw [eaMutate, eaMutateF_id_of_noAcquire _ _ e2, htf]
  exact hinit

/-- Claim C6 (witness): the amended round trip on a concrete tree with a
consume marker, a non-async `Realize` and a loop. -/
theorem c6_amended_no_async_round_trip_witness :
    fullPass envNoAsync 3
      (.realize "g" [.int32] [(.intLit 0, .intLit 4)] (.intLit 1)
        (.forS "x" (.intLit 0) (.intLit 4) 0 0
          (.producerConsumer "g" false (.evaluate (.call .int32 "g" [] .halideFn))))) =
      .ok (tcMutate
        (.realize "g" [.int32] [(.intLit 0, .intLit 4)] (.intLit 1)
          (.forS "x" (.intLit 0) (.intLit 4) 0 0
            (.producerConsumer "g" false (.evaluate (.call .int32 "g" [] .halideFn)))))) :=
  c6_amended_no_async_round_trip envNoAsync _ 2 (by decide) (by decide) (by decide) (by decide)

/-- Claim C5 (amended): folding-semaphore acquires of `f` that are *not*
hidden inside a consume region of `f` (whose body the consumer keeps
verbatim — see the counterexample) never remain on the consumer side of a
generated fork; and any subtree of a produce-region body — in particular a
folding-semaphore `Acquire` there — survives verbatim in the producer half
(the produce body is reused unchanged, with releases appended after it). -/
theorem c5_amended_folding_sides :
    (∀ (func : String) (s : Stmt) (sema : List Expr) (c : Stmt) (sema' : List Expr),
        noFoldingUnderConsume func s = true →
        (∀ e ∈ sema, isFoldingVar func e = false) →
        genConsumer func s sema = .ok (c, sema') →
        containsFoldingAcq func c = false) ∧
    (∀ (func : String) (a s : Stmt) (sema : List Expr) (st : PState) (p : Stmt)
        (sema' : List Expr) (st' : PState),
        genProducer func s sema st = .ok (p, sema', st') →
        inProduceBody func a s = true → containsSub a p = true) :=
  ⟨fun func s sema c sema' h1 h2 h3 =>
      genConsumer_no_folding func s sema h1 h2 c sema' h3,
   fun func a s sema st p sema' st' h1 h2 =>
      (genProducer_preserves func a s sema st p sema' st' h1 h2).1⟩

/-- Claim C5 (witness): on the scenario-3 body (folding acquire inside the
produce region), the consumer half carries no folding acquire and the
producer half keeps the folding acquire verbatim. -/
theorem c5_amended_folding_sides_witness :
    containsFoldingAcq "f"
      (.acquire (.var .handle "f.semaphore_0") (.intLit 1)
        (.producerConsumer "f" false (.evaluate useF))) = false ∧
    containsSub foldingAcq
      (.producerConsumer "f" true
        (.block foldingAcq
          (.evaluate (.call .int32 "halide_semaphore_release"
            [.var .handle "f.semaphore_0", .intLit 1] .externalFn)))) = true :=
  ⟨c5_amended_folding_sides.1 "f" bodyFoldingInProduce [.var .handle "f.semaphore_0"]
      (.acquire (.var .handle "f.semaphore_0") (.intLit 1)
        (.producerConsumer "f" false (.evaluate useF))) []
      (by decide)
      (by
        intro e he
        simp only [List.mem_singleton] at he
        subst he
        decide)
      (by decide),
   c5_amended_folding_sides.2 "f" foldingAcq bodyFoldingInProduce
      [.var .handle "f.semaphore_0"] ⟨0, []⟩
      (.producerConsumer "f" true
        (.block foldingAcq
          (.evaluate (.call .int32 "halide_semaphore_release"
            [.var .handle "f.semaphore_0", .intLit 1] .externalFn)))) [] ⟨0, []⟩
      (by decide) (by decide)⟩

/-- Claim C1 (counterexample): an async body with `k = 1` consume regions
and no produce node yields a fork whose producer half is `Evaluate(0)` and
contains zero `halide_semaphore_release` calls on `f.semaphore_0`, not the
claimed exactly one. -/
theorem c1_no_produce_no_releases :
    forkStage envAsyncF 2 inConsumeOnly ⟨0, []⟩ =
      .ok (.realize "f" [.int32] [(.intLit 0, .intLit 10)] (.intLit 1)
        (.letStmt "f.semaphore_0" makeSemaphoreCall
          (.fork (.evaluate (.intLit 0))
            (.acquire (.var .handle "f.semaphore_0") (.intLit 1) bodyConsumeOnly))),
        ⟨0, []⟩) ∧
    countConsumes "f" bodyConsumeOnly = 1 ∧
    relCount "f.semaphore_0" (.evaluate (.intLit 0)) = 0 := by decide

/-- A statement with no `Realize` node vacuously has all its `Realize`
nodes non-async, for any environment. -/
theorem allRealizeNonAsync_of_noRealize (env : String → Option Bool) :
    ∀ s : Stmt, noRealize s = true → allRealizeNonAsync env s = true := by
  intro s
  induction s <;> intro h <;> simp_all [noRealize, allRealizeNonAsync]

/-- Every entry of the minted semaphore stack is a variable. -/
theorem semaStack_vars (f : String) (k : Nat) :
    ∀ e ∈ semaStack f k, ∃ t m, e = Expr.var t m := by
  intro e he
  rw [semaStack, List.mem_reverse] at he
  obtain ⟨a, _, rfl⟩ := List.mem_map.1 he
  exact ⟨.handle, a, rfl⟩

/-- `ForkAsyncProducers` at an async `Realize`, in terms of the results of
the two generators and the recursive mutations of the two halves. -/
theorem forkGo_realize_async
    (rec : Stmt → PState → Except PassErr (Stmt × PState))
    (env : String → Option Bool) (f : String) (ts : List Ty)
    (bds : List (Expr × Expr)) (cond : Expr) (body : Stmt) (st : PState)
    (henv : env f = some true)
    (p c : Stmt) (st1 : PState) (semaRest1 semaRest2 : List Expr)
    (p' c' : Stmt) (st2 st3 : PState)
    (hokP : genProducer f body (semaStack f (countConsumes f body)) st =
      .ok (p, semaRest1, st1))
    (hokC : genConsumer f body (semaStack f (countConsumes f body)) =
      .ok (c, semaRest2))
    (hrecP : rec p st1 = .ok (p', st2))
    (hrecC : rec c st2 = .ok (c', st3)) :
    forkGo rec env (.realize f ts bds cond body) st =
      .ok (.realize f ts bds cond
        (((List.range (countConsumes f body)).map (semaName f)).foldl
          (wrapSemaphore st3.cloned) (.fork p' c')), st3) := by
  simp only [semaStack] at hokP hokC
  simp only [forkGo, henv, if_true, bind, Except.bind, hokP, hokC, hrecP, hrecC]

/-- Claim C1 (amended): for an async stage `f` whose realize body contains
exactly one produce node, unnested `ProducerConsumer(f)` markers, at least
one consume node, no `Acquire` and no `Realize`, and no occurrence of any
minted semaphore name `f.semaphore_i`: `ForkAsyncProducers` rewrites the
`Realize` into the fork of the two generated halves wrapped in one
`LetStmt(f.semaphore_i, halide_make_semaphore(0))` per consume node, the
producer half carries exactly one `halide_semaphore_release` on each
`f.semaphore_i`, and the consumer half exactly one `Acquire` on each. -/
theorem c1_amended_release_acquire_counts
    (env : String → Option Bool) (f : String) (fuel ctr : Nat)
    (ts : List Ty) (bds : List (Expr × Expr)) (cond : Expr) (body : Stmt)
    (henv : env f = some true)
    (hna : noAcquire body = true) (hnr : noRealize body = true)
    (hpu : pcUnnested f body = true)
    (hpc : produceCount f body = 1)
    (hk1 : 1 ≤ countConsumes f body)
    (hmen : ∀ i, i < countConsumes f body →
      mentionsVar (semaName f i) body = false) :
    ∃ p c : Stmt,
      genProducer f body (semaStack f (countConsumes f body)) ⟨ctr, []⟩ =
        .ok (p, [], ⟨ctr, []⟩) ∧
      genConsumer f body (semaStack f (countConsumes f body)) = .ok (c, []) ∧
      forkStage env (fuel + 2) (.realize f ts bds cond body) ⟨ctr, []⟩ =
        .ok (.realize f ts bds cond
          (((List.range (countConsumes f body)).map (semaName f)).foldl
            (wrapSemaphore []) (.fork p c)), ⟨ctr, []⟩) ∧
      ∀ i, i < countConsumes f body →
        relCount (semaName f i) p = 1 ∧ acqCount (semaName f i) c = 1 := by
  have hvars := semaStack_vars f (countConsumes f body)
  have hnil : semaStack f (countConsumes f body) ≠ [] := by
    intro h0
    have hl := semaStack_length f (countConsumes f body)
    rw [h0] at hl
    simp at hl
    omega
  have hifP : (if produceCount f body = 1 then ([] : List Expr)
      else semaStack f (countConsumes f body)) = [] := by
    rw [hpc]
    simp
  obtain ⟨p, hokP, hrelP, hnopP, hnrP⟩ :=
    genProducer_counts f (semaName f 0) body (semaStack f (countConsumes f body)) ⟨ctr, []⟩
      hna hnr (le_of_eq hpc) (fun _ => hnil) hvars (hmen 0 (by omega))
  rw [hifP] at hokP
  have hdropC : (semaStack f (countConsumes f body)).drop (countConsumes f body) = [] :=
    List.drop_eq_nil_of_le (by simp [semaStack_length])
  have htakeC : (semaStack f (countConsumes f body)).take (countConsumes f body) =
      semaStack f (countConsumes f body) :=
    List.take_of_length_le (by simp [semaStack_length])
  obtain ⟨c, hokC, hacqC, hnopC, hnrC⟩ :=
    genConsumer_counts f (semaName f 0) body (semaStack f (countConsumes f body))
      hna hnr hpu (by simp [semaStack_length]) hvars
  rw [hdropC] at hokC
  have hrecP : forkStage env (fuel + 1) p ⟨ctr, []⟩ = .ok (p, ⟨ctr, []⟩) :=
    forkGo_id_of_nonAsync (forkStage env fuel) env p
      (allRealizeNonAsync_of_noRealize env p hnrP) ⟨ctr, []⟩
  have hrecC : forkStage env (fuel + 1) c ⟨ctr, []⟩ = .ok (c, ⟨ctr, []⟩) :=
    forkGo_id_of_nonAsync (forkStage env fuel) env c
      (allRealizeNonAsync_of_noRealize env c hnrC) ⟨ctr, []⟩
  refine ⟨p, c, hokP, hokC, ?_, ?_⟩
  · have hfs : forkStage env (fuel + 2) (.realize f ts bds cond body) ⟨ctr, []⟩ =
        forkGo (forkStage env (fuel + 1)) env (.realize f ts bds cond body) ⟨ctr, []⟩ := rfl
    rw [hfs, forkGo_realize_async (forkStage env (fuel + 1)) env f ts bds cond body
      ⟨ctr, []⟩ henv p c ⟨ctr, []⟩ [] [] p c ⟨ctr, []⟩ ⟨ctr, []⟩ hokP hokC hrecP hrecC]
  · intro i hi
    constructor
    · obtain ⟨p', hokP', hrelP', h3, h4⟩ :=
        genProducer_counts f (semaName f i) body (semaStack f (countConsumes f body)) ⟨ctr, []⟩
          hna hnr (le_of_eq hpc) (fun _ => hnil) hvars (hmen i hi)
      rw [hifP] at hokP'
      have hpp : p = p' := by
        have h2 := hokP.symm.trans hokP'
        injection h2 with h5
        injection h5 with h6 h7
      have hval : (if produceCount f body = 1
          then countVarNamed (semaName f i) (semaStack f (countConsumes f body)) else 0) = 1 := by
        rw [hpc, if_pos rfl]
        exact semaStack_count f (countConsumes f body) i hi
      rw [← hpp] at hrelP'
      exact hrelP'.trans hval
    · obtain ⟨c', hokC', hacqC', h3, h4⟩ :=
        genConsumer_counts f (semaName f i) body (semaStack f (countConsumes f body))
          hna hnr hpu (by simp [semaStack_length]) hvars
      rw [hdropC] at hokC'
      have hcc : c = c' := by
        have h2 := hokC.symm.trans hokC'
        injection h2 with h5
        injection h5 with h6 h7
      have hval : countVarNamed (semaName f i)
          ((semaStack f (countConsumes f body)).take (countConsumes f body)) = 1 := by
        rw [htakeC]
        exact semaStack_count f (countConsumes f body) i hi
      rw [← hcc] at hacqC'
      exact hacqC'.trans hval

/-- Claim C1 (amended, witness): the count property evaluated on the
scenario-2 single-consume input. -/
theorem c1_amended_release_acquire_counts_witness :
    envAsyncF "f" = some true ∧
    ∃ p c : Stmt,
      genProducer "f" bodySingleConsume
          (semaStack "f" (countConsumes "f" bodySingleConsume)) ⟨0, []⟩ =
        .ok (p, [], ⟨0, []⟩) ∧
      genConsumer "f" bodySingleConsume
          (semaStack "f" (countConsumes "f" bodySingleConsume)) = .ok (c, []) ∧
      forkStage envAsyncF 2 (.realize "f" [.int32] [(.intLit 0, .intLit 10)]
          (.intLit 1) bodySingleConsume) ⟨0, []⟩ =
        .ok (.realize "f" [.int32] [(.intLit 0, .intLit 10)] (.intLit 1)
          (((List.range (countConsumes "f" bodySingleConsume)).map (semaName "f")).foldl
            (wrapSemaphore []) (.fork p c)), ⟨0, []⟩) ∧
      ∀ i, i < countConsumes "f" bodySingleConsume →
        relCount (semaName "f" i) p = 1 ∧ acqCount (semaName "f" i) c = 1 :=
  ⟨rfl, c1_amended_release_acquire_counts envAsyncF "f" 0 0 [.int32]
    [(.intLit 0, .intLit 10)] (.intLit 1) bodySingleConsume rfl
    (by decide) (by decide) (by decide) (by decide) (by decide)
    (by decide)⟩

/-! ### The duplicate-produce assertion with an empty semaphore stack -/

/-- With an empty semaphore stack, `GenerateProducerBody` aborts with the
"Duplicate produce node!" `internal_assert` at the first produce node it
reaches, and succeeds (with the stack still empty) when there is none. -/
theorem genProducer_empty (func : String) :
    ∀ (s : Stmt) (st : PState), wfAcq s = true →
      (produceCount func s ≠ 0 → genProducer func s [] st = .error .duplicateProduce) ∧
      (produceCount func s = 0 → ∃ p st', genProducer func s [] st = .ok (p, [], st')) := by
  intro s
  induction s with
  | producerConsumer n ip b ih =>
      intro st hwf
      simp only [wfAcq] at hwf
      by_cases hni : n = func ∧ ip
      · constructor
        · intro _
          simp [genProducer, hni]
        · intro hc
          simp [produceCount, hni] at hc
      · have hcount : produceCount func (.producerConsumer n ip b) = produceCount func b := by
          simp only [produceCount]
          have : ¬(n = func ∧ ip = true) := by simpa using hni
          simp [this]
        constructor
        · intro hc
          rw [hcount] at hc
          simp [genProducer, hni, (ih st hwf).1 hc, bind, Except.bind]
        · intro hc
          rw [hcount] at hc
          rcases (ih st hwf).2 hc with ⟨p, st', hok⟩
          by_cases hno : isNoOp p || ip
          · exact ⟨p, st', by simp [genProducer, hni, hok, hno, bind, Except.bind]⟩
          · exact ⟨.producerConsumer n ip p, st',
              by simp [genProducer, hni, hok, hno, bind, Except.bind]⟩
  | evaluate e =>
      intro st _
      exact ⟨fun hc => by simp [produceCount] at hc, fun _ => ⟨_, st, rfl⟩⟩
  | provide n vals args =>
      intro st _
      exact ⟨fun hc => by simp [produceCount] at hc, fun _ => ⟨_, st, rfl⟩⟩
  | assertStmt c m =>
      intro st _
      exact ⟨fun hc => by simp [produceCount] at hc, fun _ => ⟨_, st, rfl⟩⟩
  | prefetchS n bds =>
      intro st _
      exact ⟨fun hc => by simp [produceCount] at hc, fun _ => ⟨_, st, rfl⟩⟩
  | acquire sm c b ih =>
      intro st hwf
      have hsm : ∃ t v, sm = Expr.var t v := by
        cases sm with
        | var t v => exact ⟨t, v, rfl⟩
        | intLit m => simp [wfAcq] at hwf
        | letE n' v' b' => simp [wfAcq] at hwf
        | call t' n' a' ct' => simp [wfAcq] at hwf
      rcases hsm with ⟨t, v, rfl⟩
      simp only [wfAcq] at hwf
      constructor
      · intro hc
        simp only [produceCount] at hc
        simp [genProducer, (ih st hwf).1 hc, bind, Except.bind]
      · intro hc
        simp only [produceCount] at hc
        rcases (ih st hwf).2 hc with ⟨p, st', hok⟩
        by_cases hno : isNoOp p = true
        · exact ⟨p, st', by simp [genProducer, hok, hno, bind, Except.bind]⟩
        · by_cases hfold : startsWith (func ++ ".folding_semaphore.") v = true
          · exact ⟨.acquire (.var t v) c p, st',
              by simp [genProducer, hok, hno, hfold, bind, Except.bind]⟩
          · refine ⟨.acquire (.var .handle (v ++ "_" ++ toString st'.ctr)) c p,
              ⟨st'.ctr + 1, (v, v ++ "_" ++ toString st'.ctr) :: st'.cloned⟩, ?_⟩
            simp [genProducer, hok, hno, hfold, bind, Except.bind]
  | letStmt n v b ih =>
      intro st hwf
      simp only [wfAcq] at hwf
      constructor
      · intro hc
        simp only [produceCount] at hc
        simp [genProducer, (ih st hwf).1 hc, bind, Except.bind]
      · intro hc
        simp only [produceCount] at hc
        rcases (ih st hwf).2 hc with ⟨p, st', hok⟩
        by_cases hno : isNoOp p = true
        · exact ⟨p, st', by simp [genProducer, hok, hno, bind, Except.bind]⟩
        · exact ⟨.letStmt n v p, st', by simp [genProducer, hok, hno, bind, Except.bind]⟩
  | forS n mn ex ft d b ih =>
      intro st hwf
      simp only [wfAcq] at hwf
      constructor
      · intro hc
        simp only [produceCount] at hc
        simp [genProducer, (ih st hwf).1 hc, bind, Except.bind]
      · intro hc
        simp only [produceCount] at hc
        rcases (ih st hwf).2 hc with ⟨p, st', hok⟩
        by_cases hno : isNoOp p = true
        · exact ⟨p, st', by simp [genProducer, hok, hno, bind, Except.bind]⟩
        · exact ⟨.forS n mn ex ft d p, st',
            by simp [genProducer, hok, hno, bind, Except.bind]⟩
  | realize n ts bds c b ih =>
      intro st hwf
      simp only [wfAcq] at hwf
      constructor
      · intro hc
        simp only [produceCount] at hc
        simp [genProducer, (ih st hwf).1 hc, bind, Except.bind]
      · intro hc
        simp only [produceCount] at hc
        rcases (ih st hwf).2 hc with ⟨p, st', hok⟩
        by_cases hno : isNoOp p = true
        · exact ⟨p, st', by simp [genProducer, hok, hno, bind, Except.bind]⟩
        · exact ⟨.realize n ts bds c p, st',
            by simp [genProducer, hok, hno, bind, Except.bind]⟩
  | block a b iha ihb =>
      intro st hwf
      simp only [wfAcq, Bool.and_eq_true] at hwf
      constructor
      · intro hc
        by_cases hca : produceCount func a = 0
        · have hcb : produceCount func b ≠ 0 := by
            simp only [produceCount] at hc
            omega
          rcases (iha st hwf.1).2 hca with ⟨p, st', hok⟩
          simp [genProducer, hok, (ihb st' hwf.2).1 hcb, bind, Except.bind]
        · simp [genProducer, (iha st hwf.1).1 hca, bind, Except.bind]
      · intro hc
        have hca : produceCount func a = 0 := by simp only [produceCount] at hc; omega
        have hcb : produceCount func b = 0 := by simp only [produceCount] at hc; omega
        rcases (iha st hwf.1).2 hca with ⟨p, st1, hok1⟩
        rcases (ihb st1 hwf.2).2 hcb with ⟨q, st2, hok2⟩
        by_cases hnp : isNoOp p = true
        · exact ⟨q, st2, by simp [genProducer, hok1, hok2, hnp, bind, Except.bind]⟩
        · by_cases hnq : isNoOp q = true
          · exact ⟨p, st2, by simp [genProducer, hok1, hok2, hnp, hnq, bind, Except.bind]⟩
          · exact ⟨.block p q, st2,
              by simp [genProducer, hok1, hok2, hnp, hnq, bind, Except.bind]⟩
  | fork a b iha ihb =>
      intro st hwf
      simp only [wfAcq, Bool.and_eq_true] at hwf
      constructor
      · intro hc
        by_cases hca : produceCount func a = 0
        · have hcb : produceCount func b ≠ 0 := by
            simp only [produceCount] at hc
            omega
          rcases (iha st hwf.1).2 hca with ⟨p, st', hok⟩
          simp [genProducer, hok, (ihb st' hwf.2).1 hcb, bind, Except.bind]
        · simp [genProducer, (iha st hwf.1).1 hca, bind, Except.bind]
      · intro hc
        have hca : produceCount func a = 0 := by simp only [produceCount] at hc; omega
        have hcb : produceCount func b = 0 := by simp only [produceCount] at hc; omega
        rcases (iha st hwf.1).2 hca with ⟨p, st1, hok1⟩
        rcases (ihb st1 hwf.2).2 hcb with ⟨q, st2, hok2⟩
        by_cases hnp : isNoOp p = true
        · exact ⟨q, st2, by simp [genProducer, hok1, hok2, hnp, bind, Except.bind]⟩
        · by_cases hnq : isNoOp q = true
          · exact ⟨p, st2, by simp [genProducer, hok1, hok2, hnp, hnq, bind, Except.bind]⟩
          · exact ⟨.fork p q, st2,
              by simp [genProducer, hok1, hok2, hnp, hnq, bind, Except.bind]⟩
  | ifThenElse c t e iht ihe =>
      intro st hwf
      simp only [wfAcq, Bool.and_eq_true] at hwf
      constructor
      · intro hc
        by_cases hct : produceCount func t = 0
        · have hce : produceCount func e ≠ 0 := by
            simp only [produceCount] at hc
            omega
          rcases (iht st hwf.1).2 hct with ⟨p, st', hok⟩
          simp [genProducer, hok, (ihe st' hwf.2).1 hce, bind, Except.bind]
        · simp [genProducer, (iht st hwf.1).1 hct, bind, Except.bind]
      · intro hc
        have hct : produceCount func t = 0 := by simp only [produceCount] at hc; omega
        have hce : produceCount func e = 0 := by simp only [produceCount] at hc; omega
        rcases (iht st hwf.1).2 hct with ⟨p, st1, hok1⟩
        rcases (ihe st1 hwf.2).2 hce with ⟨q, st2, hok2⟩
        by_cases hnpq : isNoOp p && isNoOp q
        · exact ⟨p, st2, by simp [genProducer, hok1, hok2, hnpq, bind, Except.bind]⟩
        · exact ⟨.ifThenElse c p q, st2,
            by simp [genProducer, hok1, hok2, hnpq, bind, Except.bind]⟩

/-- Claim C10: for a `Realize` of an async stage `f` whose (well-formed)
body has a produce node but zero consume nodes, `ForkAsyncProducers` aborts
with the "Duplicate produce node!" internal error: the semaphore stack
handed to `GenerateProducerBody` is sized by the consume count, hence empty,
even though no duplicate produce node exists. -/
theorem c10_produce_without_consume_aborts :
    ∀ (env : String → Option Bool) (f : String) (ts : List Ty)
      (bds : List (Expr × Expr)) (cond : Expr) (body : Stmt) (fuel : Nat) (st : PState),
      env f = some true → wfAcq body = true → produceCount f body ≠ 0 →
      countConsumes f body = 0 →
      forkStage env (fuel + 1) (.realize f ts bds cond body) st =
        .error .duplicateProduce := by
  intro env f ts bds cond body fuel st henv hwf hprod hcons
  have hgen : genProducer f body [] st = .error .duplicateProduce :=
    (genProducer_empty f body st hwf).1 hprod
  simp [forkStage, forkGo, henv, hcons, hgen, bind, Except.bind]

/-- Claim C10 (witness): the abort on the concrete produce-only input. -/
theorem c10_produce_without_consume_aborts_witness :
    forkStage envAsyncF 2 inProduceOnly ⟨0, []⟩ = .error .duplicateProduce :=
  c10_produce_without_consume_aborts envAsyncF "f" [.int32] [(.intLit 0, .intLit 10)]
    (.intLit 1) bodyProduceOnly 1 ⟨0, []⟩ (by decide) (by decide) (by decide) (by decide)

/-- Claim C5 (counterexample): a folding-semaphore `Acquire` sitting inside
a consume region of `f` survives verbatim on the *consumer* side of the
generated fork (the consumer generator wraps the consume node without
mutating its body) and is *dropped* from the producer side, contradicting
both halves of the claim. -/
theorem c5_folding_acquire_in_consume_region :
    forkStage envAsyncF 2 inFoldingInConsume ⟨0, []⟩ =
      .ok (.realize "f" [.int32] [(.intLit 0, .intLit 10)] (.intLit 1)
        (.letStmt "f.semaphore_0" makeSemaphoreCall
          (.fork
            (.producerConsumer "f" true
              (.block provF
                (.evaluate (.call .int32 "halide_semaphore_release"
                  [.var .handle "f.semaphore_0", .intLit 1] .externalFn))))
            (.acquire (.var .handle "f.semaphore_0") (.intLit 1)
              (.producerConsumer "f" false foldingAcq)))),
        ⟨0, []⟩) ∧
    containsFoldingAcq "f"
      (.acquire (.var .handle "f.semaphore_0") (.intLit 1)
        (.producerConsumer "f" false foldingAcq)) = true ∧
    containsFoldingAcq "f"
      (.producerConsumer "f" true
        (.block provF
          (.evaluate (.call .int32 "halide_semaphore_release"
            [.var .handle "f.semaphore_0", .intLit 1] .externalFn)))) = false := by decide

end AsyncProducers
